import Mathlib

/-!
gout: the load-generation scheduler (`bench/task.go`), and the helpers of request
construction (`req.go`, `utils.go`).

Namespace `Bench` is a shallow embedding of `Task.init`, `Task.producer`, `Task.run` and
`Task.Run`; namespace `Gout` embeds `isString`, the query part of `request`, `getContext`,
`modifyURL`, `lastChar`, `join` and `joinPaths`.

* Go `int` and `time.Duration` fields are integers (`Int`). The loops embedded here count
  from `0` up to a bound that is itself an `int`, and the division that computes the pacing
  interval has a positive divisor, so none of this arithmetic overflows; the one product that
  can, `count * interval` of the rate limiter, is wrapped to 64 bits.
* Every goroutine is a small machine: a program counter plus its local variables, and a step
  function indexed by a label naming the channel operation or control-flow step taken.
  A step that is not enabled in a state returns `none`.
* `sync.WaitGroup` is its counter, which the library keeps in 32 bits: `Add` adds a delta,
  the sum wrapping around, stores it and panics when it is negative, `Done` is `Add(-1)`,
  `Wait` returns when the counter is zero. `Task.run` starts the goroutine that waits after
  its last `Add`, so the panics for an `Add` concurrent with `Wait` do not arise.
* The capability `sub` is outside this package. Its `Init`, `Cancel` and `WaitAll` are calls
  that return; a `Process` call receives tokens from the channel it was given and returns when
  it chooses to; it never sends on the channel nor closes it.
* Time is abstract: a ticker may fire at any moment after it was created, a sleep returns at
  some moment.
* A Go string is the list of its bytes. What `reflect` tells `isString` about its argument is a
  small datatype of values; `path.Clean` and the query encoder belong to other packages and are
  parameters of the functions that call them.
-/

namespace Bench

deriving instance DecidableEq for Except

/-! ## Data model -/

/-- Channels of one run, named by the `make` that allocates them. -/
inductive Chan
  | token    -- `t.work = make(chan struct{})`, task.go:31
  | paced    -- `work = make(chan struct{}, 1)`, task.go:98
  deriving DecidableEq, Repr

/-- The `Task` struct, task.go:17-28. `work` is `none` for a nil channel, `wg` is the counter of
the `sync.WaitGroup`. -/
structure Task where
  Duration : Int
  Number : Int
  Concurrent : Int
  Rate : Int
  work : Option Chan
  ok : Bool
  wg : Int
  deriving DecidableEq, Repr

/-- `Task.init`, task.go:30-36. -/
def Task.init (t : Task) : Task :=
  let t := { t with work := some Chan.token }
  let t := if t.Concurrent == 0 then { t with Concurrent := 1 } else t
  { t with ok := true }

/-! ## The producer goroutine -/

/-- Program points of the goroutine started by `Task.producer`. -/
inductive Pc
  | select                 -- task.go:50, the `select` of the duration-bound loop
  | switch                 -- task.go:64, the `switch` on `t.Number`
  | forLoop (i n : Int)    -- task.go:68, the loop test `i < n`
  | forever                -- task.go:72, the `for` without condition
  | deferred               -- task.go:48 / 62, the deferred `close(work)` is about to run
  | exited                 -- the goroutine has returned
  deriving DecidableEq, Repr

/-- What a step of the producer goroutine does. -/
inductive Label
  | tick       -- the runtime puts a tick into `tk.C` (the timer fires)
  | timeout    -- the `select` takes `case <-tk.C`
  | send       -- a send `work <- struct{}{}` completes
  | close      -- `close(work)`
  | tau        -- control flow without a channel operation
  deriving DecidableEq, Repr

/-- State of the producer goroutine. `tkC` is the one-slot buffer of the ticker channel `tk.C`:
`none` when no ticker was created, `some b` when one was, `b` telling whether a tick is waiting
in it. -/
structure Producer where
  pc : Pc
  tkC : Option Bool
  deriving DecidableEq, Repr

/-- `Task.producer`, task.go:38-79: the panic on an uninitialized task, else the goroutine it
starts. -/
def Task.producer (t : Task) : Except String Producer :=
  if t.ok == false then
    .error "task must be init"
  else if t.Duration > 0 then
    .ok { pc := .select, tkC := some false }
  else
    .ok { pc := .switch, tkC := none }

/-- One step of the producer goroutine (task.go:47-56 and 61-77). The goroutine reads
`t.Number` through the captured `t`. -/
def Producer.step (t : Task) (s : Producer) : Label → Option Producer
  | .tick =>
    match s.tkC with
    | some _ => some { s with tkC := some true }
    | none => none
  | .timeout =>
    match s.pc, s.tkC with
    | .select, some true => some { pc := .deferred, tkC := some false }
    | _, _ => none
  | .send =>
    match s.pc with
    | .select => some s
    | .forLoop i n => if i < n then some { s with pc := .forLoop (i + 1) n } else none
    | .forever => some s
    | _ => none
  | .tau =>
    match s.pc with
    | .switch =>
      if t.Number == 0 then some { s with pc := .deferred }
      else if t.Number > 0 then some { s with pc := .forLoop 0 t.Number }
      else some { s with pc := .forever }
    | .forLoop i n => if i < n then none else some { s with pc := .deferred }
    | _ => none
  | .close =>
    match s.pc with
    | .deferred => some { s with pc := .exited }
    | _ => none

/-- Run the producer goroutine along a list of labels; `none` when some step is not enabled. -/
def Producer.run (t : Task) (s : Producer) : List Label → Option Producer
  | [] => some s
  | l :: ls =>
    match s.step t l with
    | some s' => s'.run t ls
    | none => none

/-- The operations on the token channel in a list of labels: its sends and closes. -/
def events (tr : List Label) : List Label :=
  tr.filter fun l => l == .send || l == .close

/-- The branches of the producer. -/
inductive Branch
  | durationBound
  | empty
  | counted
  | unbounded
  deriving DecidableEq, Repr

/-- The branch the producer goroutine runs, read off its program counter once the entry
control flow is resolved; `none` when `Task.producer` panics. -/
def Task.branch (t : Task) : Option Branch :=
  match t.producer with
  | .error _ => none
  | .ok s =>
    match s.pc with
    | .select => some .durationBound
    | .switch =>
      match s.step t .tau with
      | some s' =>
        match s'.pc with
        | .deferred => some .empty
        | .forLoop _ _ => some .counted
        | .forever => some .unbounded
        | _ => none
      | none => none
    | _ => none

/-! ## The rate limiter goroutine -/

/-- Nanoseconds in `time.Second`. -/
def second : Int := 1000000000

/-- The pacing interval computed by `Task.run`, task.go:85-92 (Go's `/` truncates). -/
def Task.interval (t : Task) : Int :=
  if t.Rate > 0 then Int.tdiv second t.Rate else 0

/-- Program points of the rate limiter goroutine, task.go:101-121. -/
inductive LimPc
  | sleep        -- task.go:108-109, compute `next` and sleep until it
  | select       -- task.go:110, the non-blocking receive from `oldwork`
  | send         -- task.go:118, `work <- struct{}{}`
  | deferClose   -- task.go:103, the deferred `close(work)`
  | deferDone    -- task.go:104, the deferred `wg.Done()`
  | exited
  deriving DecidableEq, Repr

/-- What a step of the rate limiter goroutine does. -/
inductive LimLabel
  | sleep        -- the sleep returns
  | recvTok      -- `case _, ok := <-oldwork` with `ok == true`
  | recvClosed   -- `case _, ok := <-oldwork` with `ok == false`
  | dflt         -- the `default` arm
  | send         -- the send on the paced channel completes, then `count++`
  | close        -- `close(work)` on the paced channel
  | done         -- `wg.Done()`
  deriving DecidableEq, Repr

/-- State of the rate limiter goroutine: its program point and the local `count`. -/
structure Limiter where
  pc : LimPc
  count : Int
  deriving DecidableEq, Repr

/-- One step of the rate limiter goroutine, task.go:101-121. -/
def Limiter.step (s : Limiter) : LimLabel → Option Limiter
  | .sleep => if s.pc = .sleep then some { s with pc := .select } else none
  | .recvTok => if s.pc = .select then some { s with pc := .send } else none
  | .recvClosed => if s.pc = .select then some { s with pc := .deferClose } else none
  | .dflt => if s.pc = .select then some { s with pc := .send } else none
  | .send => if s.pc = .send then some { pc := .sleep, count := s.count + 1 } else none
  | .close => if s.pc = .deferClose then some { s with pc := .deferDone } else none
  | .done => if s.pc = .deferDone then some { s with pc := .exited } else none

/-! ## Workers and the completion notifier -/

/-- Program points of a worker goroutine, task.go:127-130. -/
inductive WorkerPc
  | start                          -- spawned, `sub.Process` not yet called
  | inProcess (ch : Option Chan)   -- inside `sub.Process(ch)`
  | deferDone                      -- `sub.Process` returned, the deferred `wg.Done()` is next
  | exited
  deriving DecidableEq, Repr

/-- What a step of a worker goroutine does. -/
inductive WorkerLabel
  | call     -- `sub.Process(work)` is entered
  | recv     -- `sub.Process` takes a token from the paced channel
  | ret      -- `sub.Process` returns
  | done     -- `wg.Done()`
  deriving DecidableEq, Repr

/-- Program points of the goroutine of task.go:133-136. -/
inductive WaiterPc
  | wait      -- blocked in `wg.Wait()`
  | close     -- `close(allDone)` is next
  | exited
  deriving DecidableEq, Repr

/-! ## The controller and the whole system -/

/-- The arm of the `select` of task.go:138-145 that was taken. -/
inductive Arm
  | sig
  | allDone
  deriving DecidableEq, Repr

/-- Program points of the controller: `Task.Run` (task.go:148-156) with `Task.run`
(task.go:81-146) inlined. -/
inductive CtlPc
  | init                 -- task.go:149, `t.init()`
  | subInit              -- task.go:151, `sub.Init()`
  | producer             -- task.go:153, `t.producer()`
  | setup                -- task.go:82-92, signal registration, `interval`, `work := t.work`
  | limiter              -- task.go:94-123, the rate limiter stage
  | addWorkers           -- task.go:125, `wg.Add(t.Concurrent)`
  | spawn (i c : Int)    -- task.go:126, the loop test `i < c`
  | goWaiter             -- task.go:133, start the completion notifier
  | select               -- task.go:138, blocked in the final `select`
  | cancel (a : Arm)     -- task.go:140 / 143, `sub.Cancel()`
  | waitAll (a : Arm)    -- task.go:141 / 144, `sub.WaitAll()`
  | returned
  deriving DecidableEq, Repr

/-- Calls observed during a run: the controller's calls on the capability and its start of
the producer, the `WaitGroup` operations, and the workers' calls of `sub.Process`. -/
inductive Event
  | subInit
  | startProducer
  | cancel
  | waitAll
  | wgAdd (n : Int)
  | wgDone
  | process (i : Nat) (ch : Option Chan)
  deriving DecidableEq, Repr

/-- State of a run: the task, the controller's program point and locals, the channels and the
goroutines started so far. -/
structure Sys where
  t : Task
  ctl : CtlPc
  work : Option Chan            -- the local `work` of `Task.run`
  interval : Int                -- the local `interval` of `Task.run`
  notified : Bool               -- `signal.Notify(sig, os.Interrupt)` was executed
  sig : Bool                    -- the one-slot buffer of `sig` holds an interrupt
  allDone : Bool                -- `allDone` is closed
  pacedBuf : Nat                -- tokens in the buffer of the paced channel
  pacedClosed : Bool            -- the paced channel is closed
  prod : Option Producer
  lim : Option Limiter
  workers : List WorkerPc
  waiter : Option WaiterPc
  log : List Event
  crashed : Option String       -- the process died of this panic
  deriving DecidableEq, Repr

/-- A run of `Task.Run` on task `t` is about to start. -/
def Sys.initial (t : Task) : Sys :=
  { t := t, ctl := .init, work := none, interval := 0, notified := false, sig := false,
    allDone := false, pacedBuf := 0, pacedClosed := false, prod := none, lim := none,
    workers := [], waiter := none, log := [], crashed := none }

/-- A 32-bit signed integer of Go, wrapped around. -/
def wrap32 (x : Int) : Int :=
  (x + 2 ^ 31) % 2 ^ 32 - 2 ^ 31

/-- `wg.Add(n)` of `sync.WaitGroup`: the counter is the high half of a 64-bit word, to which
`uint64(n) << 32` is added, and is read back as an `int32`; the new value is stored, and a
negative one is then a panic that kills the process. -/
def Sys.wgAdd (s : Sys) (n : Int) : Sys :=
  let v := wrap32 (s.t.wg + n)
  if v < 0 then
    { s with t := { s.t with wg := v }, crashed := some "sync: negative WaitGroup counter" }
  else
    { s with t := { s.t with wg := v }, log := s.log ++ [.wgAdd n] }

/-- `wg.Done()`, which is `wg.Add(-1)`. -/
def Sys.wgDone (s : Sys) : Sys :=
  let v := wrap32 (s.t.wg - 1)
  if v < 0 then
    { s with t := { s.t with wg := v }, crashed := some "sync: negative WaitGroup counter" }
  else
    { s with t := { s.t with wg := v }, log := s.log ++ [.wgDone] }

/-- The token channel `t.work` is closed: the producer has run its deferred `close(work)`. -/
def Sys.tokenClosed (s : Sys) : Bool :=
  match s.prod with
  | some p => p.pc == .exited
  | none => false

/-- One step of the controller, which is sequential code up to its final `select`. -/
def Sys.ctlStep (s : Sys) : Option Sys :=
  match s.ctl with
  | .init => some { s with t := s.t.init, ctl := .subInit }
  | .subInit => some { s with log := s.log ++ [.subInit], ctl := .producer }
  | .producer =>
    match s.t.producer with
    | .error msg => some { s with crashed := some msg }
    | .ok p => some { s with prod := some p, log := s.log ++ [.startProducer], ctl := .setup }
  | .setup =>
    some { s with notified := true, interval := s.t.interval, work := s.t.work, ctl := .limiter }
  | .limiter =>
    if s.interval > 0 then
      let s1 := { s with work := some Chan.paced }.wgAdd 1
      if s1.crashed.isSome then some s1
      else some { s1 with lim := some { pc := .sleep, count := 0 }, ctl := .addWorkers }
    else some { s with ctl := .addWorkers }
  | .addWorkers =>
    let s1 := s.wgAdd s.t.Concurrent
    if s1.crashed.isSome then some s1
    else some { s1 with ctl := .spawn 0 s.t.Concurrent }
  | .spawn i c =>
    if i < c then some { s with workers := s.workers ++ [.start], ctl := .spawn (i + 1) c }
    else some { s with ctl := .goWaiter }
  | .goWaiter => some { s with waiter := some .wait, ctl := .select }
  | .select => none
  | .cancel a => some { s with log := s.log ++ [.cancel], ctl := .waitAll a }
  | .waitAll _ => some { s with log := s.log ++ [.waitAll], ctl := .returned }
  | .returned => none

/-- One step of worker `i`. -/
def Sys.workerStep (s : Sys) (i : Nat) (l : WorkerLabel) : Option Sys :=
  match s.workers[i]?, l with
  | some .start, .call =>
    some { s with workers := s.workers.set i (.inProcess s.work),
                  log := s.log ++ [.process i s.work] }
  | some (.inProcess (some .paced)), .recv =>
    if s.pacedBuf > 0 then some { s with pacedBuf := s.pacedBuf - 1 } else none
  | some (.inProcess _), .ret => some { s with workers := s.workers.set i .deferDone }
  | some .deferDone, .done => some { s with workers := s.workers.set i .exited }.wgDone
  | _, _ => none

/-- One step of the rate limiter other than receiving a token, within the system: closure of
the token channel is observed only when the producer closed it, and then the `default` arm is
not taken, the receive being ready; the send needs room in the buffer of the paced channel. -/
def Sys.limStep (s : Sys) (l : LimLabel) : Option Sys :=
  match s.lim with
  | none => none
  | some m =>
    match m.step l with
    | none => none
    | some m' =>
      match l with
      | .recvTok => none
      | .recvClosed => if s.tokenClosed then some { s with lim := some m' } else none
      | .dflt => if s.tokenClosed then none else some { s with lim := some m' }
      | .send =>
        if s.pacedBuf < 1 then some { s with lim := some m', pacedBuf := s.pacedBuf + 1 }
        else none
      | .close => some { s with lim := some m', pacedClosed := true }
      | .done => { s with lim := some m' }.wgDone
      | _ => some { s with lim := some m' }

/-- Labels of the steps of a run. -/
inductive SysLabel
  | ctl                                  -- the controller executes its next statement
  | sigint                               -- an interrupt is delivered to the process
  | selSig                               -- the final `select` takes `case <-sig`
  | selAllDone                           -- the final `select` takes `case <-allDone`
  | prod (l : Label)                     -- a producer step that is not a send
  | sendLim                              -- a producer send received by the rate limiter
  | sendWorker (i : Nat)                 -- a producer send received inside worker `i`
  | lim (l : LimLabel)                   -- a rate limiter step that is not a token receive
  | worker (i : Nat) (l : WorkerLabel)
  | waiter                               -- the completion notifier executes its next statement
  deriving DecidableEq, Repr

/-- The producer completes a send on the token channel. -/
def Sys.prodSend (s : Sys) : Option Sys :=
  match s.prod with
  | none => none
  | some p =>
    match p.step s.t .send with
    | none => none
    | some p' => some { s with prod := some p' }

/-- One step of a run. No step is enabled once the process has crashed. -/
def Sys.step (s : Sys) (l : SysLabel) : Option Sys :=
  if s.crashed.isSome then none
  else
    match l with
    | .ctl => s.ctlStep
    | .sigint => if s.notified then some { s with sig := true } else none
    | .selSig =>
      if s.ctl = .select ∧ s.sig = true then some { s with sig := false, ctl := .cancel .sig }
      else none
    | .selAllDone =>
      if s.ctl = .select ∧ s.allDone = true then some { s with ctl := .cancel .allDone }
      else none
    | .prod l =>
      match l, s.prod with
      | .send, _ => none
      | _, none => none
      | l, some p =>
        match p.step s.t l with
        | none => none
        | some p' => some { s with prod := some p' }
    | .sendLim =>
      match s.lim with
      | none => none
      | some m =>
        match m.step .recvTok, s.prodSend with
        | some m', some s' => some { s' with lim := some m' }
        | _, _ => none
    | .sendWorker i =>
      match s.workers[i]? with
      | some (.inProcess (some .token)) => s.prodSend
      | _ => none
    | .lim l => s.limStep l
    | .worker i l => s.workerStep i l
    | .waiter =>
      match s.waiter with
      | some .wait => if s.t.wg = 0 then some { s with waiter := some .close } else none
      | some .close => some { s with waiter := some .exited, allDone := true }
      | _ => none

/-- Run the system along a schedule; `none` when some step is not enabled. -/
def Sys.run (s : Sys) : List SysLabel → Option Sys
  | [] => some s
  | l :: ls =>
    match s.step l with
    | some s' => s'.run ls
    | none => none

/-- The controller's own entries of the log: its calls on the capability and its start of the
producer. -/
def ctlCalls (log : List Event) : List Event :=
  log.filter fun e => e == .subInit || e == .startProducer || e == .cancel || e == .waitAll

/-- Sum of the deltas of the `wg.Add` calls in the log. -/
def totalAdded : List Event → Int
  | [] => 0
  | .wgAdd n :: es => n + totalAdded es
  | _ :: es => totalAdded es

/-- Number of `wg.Done` calls in the log. -/
def totalDone (log : List Event) : Nat :=
  log.count .wgDone

/-- Number of calls `sub.Process` made by worker `i` in the log. -/
def processCalls (i : Nat) (log : List Event) : Nat :=
  (log.filter fun e => match e with
    | .process j _ => j == i
    | _ => false).length

/-- A default task with the given configuration, as the caller constructs it. -/
def Task.new (duration number concurrent rate : Int) : Task :=
  { Duration := duration, Number := number, Concurrent := concurrent, Rate := rate,
    work := none, ok := false, wg := 0 }

/-- The channel operations a producer goroutine of the count-bound code (task.go:61-77) still
has to perform from its current program point, when the count is not negative. -/
def Producer.remaining (t : Task) (s : Producer) : List Label :=
  match s.pc with
  | .switch => List.replicate t.Number.toNat .send ++ [.close]
  | .forLoop i n => List.replicate (n - i).toNat .send ++ [.close]
  | .deferred => [.close]
  | _ => []

/-- States of the count-bound code with a count that is not negative. -/
def Producer.counting (t : Task) (s : Producer) : Prop :=
  s.tkC = none ∧ s.pc ≠ .select ∧ s.pc ≠ .forever ∧ (s.pc = .switch → 0 ≤ t.Number)

/-- What holds of the duration-bound producer goroutine after the labels `tr`. -/
structure Producer.TimedInv (tr : List Label) (s : Producer) : Prop where
  pcs : s.pc = .select ∨ s.pc = .deferred ∨ s.pc = .exited
  tk : s.tkC = some true ∨ s.tkC = some false
  armed : s.pc = .select → Label.tick ∈ tr → s.tkC = some true
  fired : s.tkC = some true → Label.tick ∈ tr
  taken : tr.count .timeout = if s.pc = .select then 0 else 1
  closed : tr.count .close = if s.pc = .exited then 1 else 0

/-- The steps of a run that do not crash the process, as a relation: one rule for each
statement of the controller and of the goroutines, with the state after the step written out. -/
inductive Sys.Trans : Sys → SysLabel → Sys → Prop
  | init (s : Sys) : s.ctl = .init →
      Trans s .ctl { s with t := s.t.init, ctl := .subInit }
  | subInit (s : Sys) : s.ctl = .subInit →
      Trans s .ctl { s with log := s.log ++ [.subInit], ctl := .producer }
  | producer (s : Sys) (p : Producer) : s.ctl = .producer → s.t.producer = .ok p →
      Trans s .ctl { s with prod := some p, log := s.log ++ [.startProducer], ctl := .setup }
  | setup (s : Sys) : s.ctl = .setup →
      Trans s .ctl
        { s with notified := true, interval := s.t.interval, work := s.t.work, ctl := .limiter }
  | limiterOn (s : Sys) : s.ctl = .limiter → s.interval > 0 → 0 ≤ wrap32 (s.t.wg + 1) →
      Trans s .ctl
        { s with t := { s.t with wg := wrap32 (s.t.wg + 1) }, work := some .paced,
                 log := s.log ++ [.wgAdd 1], lim := some { pc := .sleep, count := 0 },
                 ctl := .addWorkers }
  | limiterOff (s : Sys) : s.ctl = .limiter → ¬ s.interval > 0 →
      Trans s .ctl { s with ctl := .addWorkers }
  | addWorkers (s : Sys) : s.ctl = .addWorkers → 0 ≤ wrap32 (s.t.wg + s.t.Concurrent) →
      Trans s .ctl
        { s with t := { s.t with wg := wrap32 (s.t.wg + s.t.Concurrent) },
                 log := s.log ++ [.wgAdd s.t.Concurrent], ctl := .spawn 0 s.t.Concurrent }
  | spawn (s : Sys) (i c : Int) : s.ctl = .spawn i c → i < c →
      Trans s .ctl { s with workers := s.workers ++ [.start], ctl := .spawn (i + 1) c }
  | spawnEnd (s : Sys) (i c : Int) : s.ctl = .spawn i c → ¬ i < c →
      Trans s .ctl { s with ctl := .goWaiter }
  | goWaiter (s : Sys) : s.ctl = .goWaiter →
      Trans s .ctl { s with waiter := some .wait, ctl := .select }
  | cancel (s : Sys) (a : Arm) : s.ctl = .cancel a →
      Trans s .ctl { s with log := s.log ++ [.cancel], ctl := .waitAll a }
  | waitAll (s : Sys) (a : Arm) : s.ctl = .waitAll a →
      Trans s .ctl { s with log := s.log ++ [.waitAll], ctl := .returned }
  | sigint (s : Sys) : s.notified = true →
      Trans s .sigint { s with sig := true }
  | selSig (s : Sys) : s.ctl = .select → s.sig = true →
      Trans s .selSig { s with sig := false, ctl := .cancel .sig }
  | selAllDone (s : Sys) : s.ctl = .select → s.allDone = true →
      Trans s .selAllDone { s with ctl := .cancel .allDone }
  | prod (s : Sys) (l : Label) (p p' : Producer) : s.prod = some p → l ≠ .send →
      p.step s.t l = some p' →
      Trans s (.prod l) { s with prod := some p' }
  | sendLim (s : Sys) (p p' : Producer) (m m' : Limiter) : s.prod = some p →
      p.step s.t .send = some p' → s.lim = some m → m.step .recvTok = some m' →
      Trans s .sendLim { s with prod := some p', lim := some m' }
  | sendWorker (s : Sys) (i : Nat) (p p' : Producer) :
      s.workers[i]? = some (.inProcess (some .token)) → s.prod = some p →
      p.step s.t .send = some p' →
      Trans s (.sendWorker i) { s with prod := some p' }
  | limTau (s : Sys) (l : LimLabel) (m m' : Limiter) : s.lim = some m → m.step l = some m' →
      l = .sleep ∨ (l = .dflt ∧ s.tokenClosed = false) ∨
        (l = .recvClosed ∧ s.tokenClosed = true) →
      Trans s (.lim l) { s with lim := some m' }
  | limSend (s : Sys) (m m' : Limiter) : s.lim = some m → m.step .send = some m' →
      s.pacedBuf < 1 →
      Trans s (.lim .send) { s with lim := some m', pacedBuf := s.pacedBuf + 1 }
  | limClose (s : Sys) (m m' : Limiter) : s.lim = some m → m.step .close = some m' →
      Trans s (.lim .close) { s with lim := some m', pacedClosed := true }
  | limDone (s : Sys) (m m' : Limiter) : s.lim = some m → m.step .done = some m' →
      0 ≤ wrap32 (s.t.wg - 1) →
      Trans s (.lim .done)
        { s with lim := some m', t := { s.t with wg := wrap32 (s.t.wg - 1) },
                 log := s.log ++ [.wgDone] }
  | workerCall (s : Sys) (i : Nat) : s.workers[i]? = some .start →
      Trans s (.worker i .call)
        { s with workers := s.workers.set i (.inProcess s.work),
                 log := s.log ++ [.process i s.work] }
  | workerRecv (s : Sys) (i : Nat) : s.workers[i]? = some (.inProcess (some .paced)) →
      s.pacedBuf > 0 →
      Trans s (.worker i .recv) { s with pacedBuf := s.pacedBuf - 1 }
  | workerRet (s : Sys) (i : Nat) (ch : Option Chan) : s.workers[i]? = some (.inProcess ch) →
      Trans s (.worker i .ret) { s with workers := s.workers.set i .deferDone }
  | workerDone (s : Sys) (i : Nat) : s.workers[i]? = some .deferDone →
      0 ≤ wrap32 (s.t.wg - 1) →
      Trans s (.worker i .done)
        { s with workers := s.workers.set i .exited,
                 t := { s.t with wg := wrap32 (s.t.wg - 1) },
                 log := s.log ++ [.wgDone] }
  | waiterWait (s : Sys) : s.waiter = some .wait → s.t.wg = 0 →
      Trans s .waiter { s with waiter := some .close }
  | waiterClose (s : Sys) : s.waiter = some .close →
      Trans s .waiter { s with waiter := some .exited, allDone := true }

/-! ## Invariants of a run -/

/-- Position of a program point of the controller in the text of `Task.Run`. -/
def CtlPc.stage : CtlPc → Nat
  | .init => 0
  | .subInit => 1
  | .producer => 2
  | .setup => 3
  | .limiter => 4
  | .addWorkers => 5
  | .spawn _ _ => 6
  | .goWaiter => 7
  | .select => 8
  | .cancel _ => 9
  | .waitAll _ => 10
  | .returned => 11

/-- The controller's own calls made before it reaches a program point. -/
def CtlPc.calls : CtlPc → List Event
  | .init => []
  | .subInit => []
  | .producer => [.subInit]
  | .waitAll _ => [.subInit, .startProducer, .cancel]
  | .returned => [.subInit, .startProducer, .cancel, .waitAll]
  | _ => [.subInit, .startProducer]

/-- Number of calls of `sub.Process` a worker at this program point has made. -/
def WorkerPc.calls : Option WorkerPc → Nat
  | none => 0
  | some .start => 0
  | some _ => 1

/-- The channel the workers are given: the paced one when the limiter stage is on. -/
def Task.workerChan (t : Task) : Chan :=
  if t.interval > 0 then .paced else .token

/-- Two tasks agree on everything but the counter of the wait group. -/
def Task.cfgEq (a b : Task) : Prop :=
  a.Duration = b.Duration ∧ a.Number = b.Number ∧ a.Rate = b.Rate ∧
  a.Concurrent = b.Concurrent ∧ a.work = b.work ∧ a.ok = b.ok

/-- What holds of the controller's log and of the producer in every state of a run. -/
structure Sys.CallInv (s : Sys) : Prop where
  calls : ctlCalls s.log = s.ctl.calls
  prod : s.prod.isSome = decide (3 ≤ s.ctl.stage)

/-- What holds of the controller's variables in every state of a run of task `t0` in which the
process is alive. -/
structure Sys.CtlInv (t0 : Task) (s : Sys) : Prop where
  cfg0 : s.ctl = .init → s.t.cfgEq t0
  cfg : s.ctl ≠ .init → s.t.cfgEq t0.init
  interval : 4 ≤ s.ctl.stage → s.interval = t0.interval
  work4 : s.ctl = .limiter → s.work = some .token
  work : 5 ≤ s.ctl.stage → s.work = some t0.workerChan
  lim : s.lim.isSome = decide (5 ≤ s.ctl.stage ∧ t0.interval > 0)
  early : s.ctl.stage ≤ 5 → s.workers.length = 0
  spawn : ∀ i c : Int, s.ctl = .spawn i c →
    c = t0.init.Concurrent ∧ 0 ≤ i ∧ s.workers.length = i.toNat ∧ (i ≤ c ∨ i = 0)
  pool : 7 ≤ s.ctl.stage → s.workers.length = t0.init.Concurrent.toNat

/-- What holds of the workers' calls of `sub.Process` in every state of a run in which the
process is alive. -/
structure Sys.ProcInv (s : Sys) : Prop where
  calls : ∀ i : Nat, processCalls i s.log = WorkerPc.calls s.workers[i]?
  chan : ∀ (i : Nat) (ch : Option Chan), Event.process i ch ∈ s.log → ch = s.work ∧ 6 ≤ s.ctl.stage
  inProc : ∀ (i : Nat) (ch : Option Chan), s.workers[i]? = some (WorkerPc.inProcess ch) → ch = s.work

/-- What holds of the counter of the wait group in every state of a run of task `t0` in which
the process is alive. -/
structure Sys.WgInv (t0 : Task) (s : Sys) : Prop where
  range : 0 ≤ s.t.wg ∧ s.t.wg < 2 ^ 31
  counter : s.t.wg = totalAdded s.log - totalDone s.log
  added : totalAdded s.log =
    (if 6 ≤ s.ctl.stage then t0.init.Concurrent else 0) + (if s.lim.isSome then 1 else 0)
  dones : totalDone s.log =
    s.workers.count .exited + (if s.lim.map (fun m => m.pc) = some .exited then 1 else 0)

/-- What the two `wg.Add` calls of a run of task `t` add to the counter: `concurrent` as
`init` leaves it, and 1 for the rate limiter goroutine when the limiter stage is on. -/
def Task.added (t : Task) : Int :=
  t.init.Concurrent + (if t.interval > 0 then 1 else 0)

/-- Neither `concurrent` nor the total added leaves the range of the 32-bit counter. -/
def Task.fits (t : Task) : Prop :=
  -(2 ^ 31) ≤ t.init.Concurrent ∧ t.added < 2 ^ 31

/-- The invariants of a run of task `t0`, for the states in which the process is alive; those
of the counter, when what is added to it fits its 32 bits. -/
structure Sys.Inv (t0 : Task) (s : Sys) : Prop where
  ctl : s.CtlInv t0
  proc : s.ProcInv
  wg : t0.fits → s.WgInv t0

/-- Number of controller steps from a state to the final `select`. -/
def Sys.toSelect (s : Sys) : Nat :=
  match s.ctl with
  | .init => 8 + s.t.init.Concurrent.toNat
  | .subInit => 7 + s.t.Concurrent.toNat
  | .producer => 6 + s.t.Concurrent.toNat
  | .setup => 5 + s.t.Concurrent.toNat
  | .limiter => 4 + s.t.Concurrent.toNat
  | .addWorkers => 3 + s.t.Concurrent.toNat
  | .spawn i c => 2 + (c - i).toNat
  | .goWaiter => 1
  | _ => 0

/-! ## Schedules of concrete runs -/

/-- A schedule of a run without rate limiter and with one worker: the controller starts
everything, the worker enters `sub.Process` and receives the two tokens of the producer, the
producer closes the token channel, the worker returns, the completion notifier closes
`allDone` and the controller shuts down. -/
def scheduleCounted : List SysLabel :=
  [.ctl, .ctl, .ctl, .ctl, .ctl, .ctl, .ctl, .ctl, .ctl,
   .worker 0 .call, .prod .tau, .sendWorker 0, .sendWorker 0, .prod .tau, .prod .close,
   .worker 0 .ret, .worker 0 .done, .waiter, .waiter, .selAllDone, .ctl, .ctl]

/-- A schedule of a run with rate limiter and one worker, up to the moment the worker has
called `wg.Done()`: the producer (with `number = 0`) closes the token channel, the limiter
observes it and closes the paced channel, the worker's `sub.Process` returns. The limiter's own
`wg.Done()` has not run yet. -/
def schedulePaced : List SysLabel :=
  [.ctl, .ctl, .ctl, .ctl, .ctl, .ctl, .ctl, .ctl, .ctl,
   .prod .tau, .prod .close, .lim .sleep, .lim .recvClosed, .lim .close,
   .worker 0 .call, .worker 0 .ret, .worker 0 .done]

/-- A schedule of an interrupted run with one worker: the controller starts everything, an
interrupt arrives before any goroutine has moved, and the controller shuts down. -/
def scheduleInterrupted : List SysLabel :=
  [.ctl, .ctl, .ctl, .ctl, .ctl, .ctl, .ctl, .ctl, .ctl, .sigint, .selSig, .ctl, .ctl]

/-- The rate limiter goroutine as `Task.run` starts it: at the head of its loop, `count = 0`. -/
def Limiter.initial : Limiter :=
  { pc := .sleep, count := 0 }

/-- Run the rate limiter goroutine along a list of labels; `none` when some step is not
enabled. -/
def Limiter.run (m : Limiter) : List LimLabel → Option Limiter
  | [] => some m
  | l :: ls =>
    match m.step l with
    | some m' => m'.run ls
    | none => none

/-- A 64-bit signed integer of Go, wrapped around. -/
def wrap64 (x : Int) : Int :=
  (x + 2 ^ 63) % 2 ^ 64 - 2 ^ 63

/-- The target time of task.go:108, `next := begin.Add(time.Duration(count * interval))`, with
times in nanoseconds; the product is a Go `int`. -/
def Limiter.next (begin interval : Int) (m : Limiter) : Int :=
  begin + wrap64 (m.count * interval)

/-- What holds of the rate limiter goroutine after the labels `tr`. -/
structure Limiter.LoopInv (tr : List LimLabel) (m : Limiter) : Prop where
  sent : (tr.count .send : Int) = m.count
  iter : tr.count .recvTok + tr.count .dflt = tr.count .send + (if m.pc = .send then 1 else 0)
  slept : tr.count .sleep = tr.count .send + tr.count .recvClosed +
    (if m.pc = .select ∨ m.pc = .send then 1 else 0)
  closure : tr.count .recvClosed =
    (if m.pc = .deferClose ∨ m.pc = .deferDone ∨ m.pc = .exited then 1 else 0)
  closed : tr.count .close = (if m.pc = .deferDone ∨ m.pc = .exited then 1 else 0)
  done : tr.count .done = (if m.pc = .exited then 1 else 0)

/-- The call `t.producer()` is about to run on task `t`, nothing else having run before. -/
def Sys.atProducer (t : Task) : Sys :=
  { Sys.initial t with ctl := .producer }

/-- A schedule of the start of a run with one worker, up to the worker's call of
`sub.Process`. -/
def scheduleStart : List SysLabel :=
  [.ctl, .ctl, .ctl, .ctl, .ctl, .ctl, .ctl, .ctl, .ctl, .worker 0 .call]

/-- The controller's steps of a run up to and including `wg.Add(t.Concurrent)`. -/
def scheduleAdd : List SysLabel :=
  [.ctl, .ctl, .ctl, .ctl, .ctl, .ctl]

/-- A schedule of a run with three workers, up to the moment each has called `sub.Process`:
the controller runs to its final `select`, spawning the pool, then the workers make their
calls, the last one first. -/
def schedulePool : List SysLabel :=
  [.ctl, .ctl, .ctl, .ctl, .ctl, .ctl, .ctl, .ctl, .ctl, .ctl, .ctl,
   .worker 2 .call, .worker 0 .call, .worker 1 .call]

/-- A schedule of a run with rate limiter and one worker in which the limiter forwards a first
token, receives a second one and finds the buffer of the paced channel full, while the worker
returns without having received. -/
def scheduleBlocked : List SysLabel :=
  [.ctl, .ctl, .ctl, .ctl, .ctl, .ctl, .ctl, .ctl, .ctl,
   .prod .tau, .lim .sleep, .sendLim, .lim .send, .lim .sleep, .sendLim,
   .worker 0 .call, .worker 0 .ret, .worker 0 .done]

/-- The rate limiter goroutine, in state `m`, is at its send, the buffer of the paced channel
is full, the pool is spawned and every worker has returned. -/
def Sys.Blocked (m : Limiter) (s : Sys) : Prop :=
  s.lim = some m ∧ m.pc = .send ∧ s.pacedBuf = 1 ∧ (∀ w ∈ s.workers, w = .exited) ∧
  8 ≤ s.ctl.stage

end Bench

namespace Gout

/-! ## Requests (`req.go`) and paths (`utils.go`) -/

/-- A Go string is a sequence of bytes: here the list of its bytes, each written as the
character with that code. All constants of the code are ASCII. -/
abbrev Str := List Char

/-- `strings.HasPrefix`. -/
def HasPrefix (s p : Str) : Bool :=
  p.isPrefixOf s

/-- The constant `httpProto` of utils.go:11. -/
def httpProto : Str := ['h', 't', 't', 'p', ':', '/', '/']

/-- The constant `httpsProto` of utils.go:12. -/
def httpsProto : Str := ['h', 't', 't', 'p', 's', ':', '/', '/']

/-- The text `http://127.0.0.1` of req.go:265 and 269. -/
def localhost : Str :=
  ['h', 't', 't', 'p', ':', '/', '/', '1', '2', '7', '.', '0', '.', '0', '.', '1']

/-- `modifyURL`, req.go:259-273. -/
def modifyURL (url : Str) : Str :=
  if HasPrefix url httpsProto || HasPrefix url httpProto then url
  else if HasPrefix url [':'] then localhost ++ url
  else if HasPrefix url ['/'] then localhost ++ url
  else httpProto ++ url

/-- What `reflect.ValueOf` distinguishes in the argument of `isString`. -/
inductive Value
  | str (s : Str)       -- a value of type `string`
  | named (s : Str)     -- a value of a defined type whose underlying type is `string`
  | nilPtr              -- a nil pointer
  | ptr (v : Value)     -- a pointer to `v`
  | other               -- a value of any other kind; the nil interface
  deriving DecidableEq, Repr

/-- The kinds of `reflect` that `isString` tests. -/
inductive Kind
  | Ptr
  | String
  | Other
  deriving DecidableEq, Repr

/-- `reflect.Value.Kind`. -/
def Value.kind : Value → Kind
  | .str _ => .String
  | .named _ => .String
  | .nilPtr => .Ptr
  | .ptr _ => .Ptr
  | .other => .Other

/-- The loop of req.go:74-76, `for p.Kind() == reflect.Ptr { p = p.Elem() }`; the `Elem` of a
nil pointer is the zero `Value`, whose kind is `Invalid`. -/
def Value.deref : Value → Value
  | .ptr v => v.deref
  | .nilPtr => .other
  | v => v

/-- `isString`, req.go:71-86. The assertion `p.Interface().(string)` panics when the dynamic
type is not `string` itself: the error of the result is that panic. -/
def isString (x : Value) : Except String (Str × Bool) :=
  match x.deref with
  | .str s => .ok (if HasPrefix s ['?'] then s.drop 1 else s, true)
  | .named _ => .error "interface conversion: interface {} is not string"
  | _ => .ok ([], false)

/-- A pointer of depth `n` to `v`. -/
def Value.ptrTo : Nat → Value → Value
  | 0, v => v
  | n + 1, v => .ptr (Value.ptrTo n v)

/-- A `context.Context`: the background, one supplied by the caller, or one derived by
`context.WithTimeout`. -/
inductive Context
  | background
  | caller (id : Nat)
  | withTimeout (parent : Context) (d : Int)
  deriving DecidableEq, Repr

/-- The fields of `Req` (req.go:15-50) read or written by `Reset`, by the query part of
`request` and by `getContext`. `queryEncode` and `c` are `none` for nil. -/
structure Req where
  url : Str
  queryEncode : Option Value
  timeout : Int
  index : Int
  timeoutIndex : Int
  ctxIndex : Int
  c : Option Context
  deriving DecidableEq, Repr

/-- The zero value of the fields of `Req`, with the given URL. -/
def Req.zero (url : Str) : Req :=
  { url := url, queryEncode := none, timeout := 0, index := 0, timeoutIndex := 0, ctxIndex := 0,
    c := none }

/-- Modelled from the spec: `SetTimeout` of the data flow, which is not among the sources. After
the comment of req.go:42-43 (`index` is an id that each of the mutually exclusive calls
increments, giving the later call priority) and `Test_DataFlow_Timeout`: the call takes the next
id as `timeoutIndex` and records the timeout. The id is a Go `int`. -/
def Req.SetTimeout (r : Req) (d : Int) : Req :=
  { r with index := Bench.wrap64 (r.index + 1), timeoutIndex := Bench.wrap64 (r.index + 1),
           timeout := d }

/-- Modelled from the spec: `WithContext` of the data flow, which is not among the sources. After
the comment of req.go:42-43 and `Test_DataFlow_Timeout`: the call takes the next id as
`ctxIndex` and records the context. -/
def Req.WithContext (r : Req) (ctx : Context) : Req :=
  { r with index := Bench.wrap64 (r.index + 1), ctxIndex := Bench.wrap64 (r.index + 1),
           c := some ctx }

/-- A call of one of the two mutually exclusive settings. -/
inductive Setting
  | timeout (d : Int)
  | context (ctx : Context)
  deriving DecidableEq, Repr

/-- The request after one setting. -/
def Req.set (r : Req) : Setting → Req
  | .timeout d => r.SetTimeout d
  | .context ctx => r.WithContext ctx

/-- The lines 141-143 of `request`: `if len(query) > 0 { r.url += "?" + query }`. -/
def Req.addQuery (r : Req) (query : Str) : Req :=
  if query.length > 0 then { r with url := r.url ++ ['?'] ++ query } else r

/-- How the query part of `request` fails: by a panic, or by returning an error. -/
inductive Failure
  | panic (msg : String)
  | err (msg : String)
  deriving DecidableEq, Repr

/-- The query part of `request`, req.go:128-144. `encode` stands for the encoder of the package
`encode`, applied to a query that is not a string: it yields the text of `q.End()` or an
error, which `request` returns; a panic of `isString` is not recovered. -/
def Req.requestQuery (encode : Value → Except String Str) (r : Req) : Except Failure Req :=
  match r.queryEncode with
  | none => .ok r
  | some x =>
    match isString x with
    | .error e => .error (.panic e)
    | .ok (q, true) => .ok (r.addQuery q)
    | .ok (_, false) =>
      match encode x with
      | .error e => .error (.err e)
      | .ok q => .ok (r.addQuery q)

/-- `lastChar`, utils.go:27-32. -/
def lastChar (str : Str) : Except String Char :=
  match str.getLast? with
  | none => .error "The length of the string can't be 0"
  | some ch => .ok ch

/-- `strings.Join(elems, "/")`. -/
def joinSlash : List Str → Str
  | [] => []
  | [e] => e
  | e :: rest => e ++ ['/'] ++ joinSlash rest

/-- The loop of `join`, utils.go:50-55: the elements from the first non-empty one on, joined
by `/`. -/
def joinFrom : List Str → Str
  | [] => []
  | e :: rest => if e ≠ [] then joinSlash (e :: rest) else joinFrom rest

/-- `join`, utils.go:34-56: the loop, then the deferred function applied to its result. `clean`
stands for `path.Clean` of the standard library. -/
def join (clean : Str → Str) (elem : List Str) : Str :=
  let rv := joinFrom elem
  if HasPrefix rv httpProto then httpProto ++ clean (rv.drop httpProto.length)
  else if HasPrefix rv httpsProto then httpsProto ++ clean (rv.drop httpsProto.length)
  else clean rv

/-- `joinPaths`, utils.go:58-69. The second `lastChar` is called only when the first
comparison holds. -/
def joinPaths (clean : Str → Str) (absolutePath relativePath : Str) : Except String Str :=
  if relativePath = [] then .ok absolutePath
  else
    let finalPath := join clean [absolutePath, relativePath]
    match lastChar relativePath with
    | .error e => .error e
    | .ok a =>
      if a = '/' then
        match lastChar finalPath with
        | .error e => .error e
        | .ok b => if b ≠ '/' then .ok (finalPath ++ ['/']) else .ok finalPath
      else .ok finalPath

/-- The components of a path between its slashes. -/
def splitSlash : Str → List Str
  | [] => [[]]
  | ch :: rest =>
    if ch = '/' then [] :: splitSlash rest
    else
      match splitSlash rest with
      | [] => [[ch]]
      | e :: es => (ch :: e) :: es

/-- The elements kept by `path.Clean`, last one first: empty elements and `.` are dropped, `..`
removes the element before it, is dropped at the root, and is kept otherwise. -/
def cleanElems (rooted : Bool) : List Str → List Str → List Str
  | acc, [] => acc
  | acc, e :: es =>
    if e = [] ∨ e = ['.'] then cleanElems rooted acc es
    else if e = ['.', '.'] then
      match acc with
      | [] => if rooted then cleanElems rooted [] es else cleanElems rooted [e] es
      | top :: below =>
        if top = ['.', '.'] then cleanElems rooted (e :: acc) es
        else cleanElems rooted below es
    else cleanElems rooted (e :: acc) es

/-- A model of `path.Clean` of the standard library, after the rules of its documentation;
the empty result is replaced by `.`. -/
def pathClean (path : Str) : Str :=
  let rooted := HasPrefix path ['/']
  let out := (if rooted then ['/'] else []) ++
    joinSlash (cleanElems rooted [] (splitSlash path)).reverse
  if out = [] then ['.'] else out

end Gout

namespace Bench

/-! ## Theorems: the producer -/

theorem events_nil : events [] = [] := rfl

theorem events_cons (l : Label) (tr : List Label) : events (l :: tr) = events [l] ++ events tr := by
  simp [events, List.filter_cons]
  split <;> simp

theorem Producer.run_cons (t : Task) (s : Producer) (l : Label) (ls : List Label) :
    s.run t (l :: ls) = (s.step t l).bind fun s' => s'.run t ls := by
  simp only [Producer.run]
  cases s.step t l <;> rfl

theorem Producer.run_concat (t : Task) (s : Producer) (xs ys : List Label) :
    s.run t (xs ++ ys) = (s.run t xs).bind fun s' => s'.run t ys := by
  induction xs generalizing s with
  | nil => rfl
  | cons x xs ih =>
    simp only [List.cons_append, Producer.run_cons]
    cases s.step t x with
    | none => rfl
    | some s' => simpa using ih s'

theorem Producer.step_remaining (t : Task) (s s' : Producer) (l : Label)
    (hs : s.counting t) (h : s.step t l = some s') :
    s'.counting t ∧ s.remaining t = events [l] ++ s'.remaining t := by
  obtain ⟨pc, tk⟩ := s
  obtain ⟨htk, hsel, hfor, hsw⟩ := hs
  simp only at htk hsel hfor hsw
  subst htk
  cases pc with
  | select => simp at hsel
  | forever => simp at hfor
  | exited => cases l <;> simp [Producer.step] at h
  | deferred =>
    cases l <;> simp [Producer.step] at h
    subst h
    exact ⟨by simp [Producer.counting], by simp [Producer.remaining, events]⟩
  | switch =>
    cases l <;> simp [Producer.step] at h
    have hN : 0 ≤ t.Number := hsw rfl
    by_cases h0 : t.Number = 0
    · simp [h0] at h
      subst h
      exact ⟨by simp [Producer.counting], by simp [Producer.remaining, events, h0]⟩
    · have hpos : 0 < t.Number := by omega
      simp [h0, hpos] at h
      subst h
      exact ⟨by simp [Producer.counting], by simp [Producer.remaining, events]⟩
  | forLoop i n =>
    cases l <;> simp [Producer.step] at h
    · -- a send of the counted loop
      obtain ⟨hlt, rfl⟩ := h
      refine ⟨by simp [Producer.counting], ?_⟩
      have hk : (n - i).toNat = (n - (i + 1)).toNat + 1 := by omega
      simp [Producer.remaining, events, hk, List.replicate_succ]
    · -- leaving the counted loop
      obtain ⟨hle, rfl⟩ := h
      refine ⟨by simp [Producer.counting], ?_⟩
      have hk : (n - i).toNat = 0 := by omega
      simp [Producer.remaining, events, hk]

theorem Producer.run_remaining (t : Task) (tr : List Label) :
    ∀ s s' : Producer, s.counting t → s.run t tr = some s' →
      s'.counting t ∧ s.remaining t = events tr ++ s'.remaining t := by
  induction tr with
  | nil =>
    intro s s' hs h
    simp [Producer.run] at h
    subst h
    exact ⟨hs, by simp [events]⟩
  | cons l ls ih =>
    intro s s' hs h
    rw [Producer.run_cons] at h
    cases hstep : s.step t l with
    | none => simp [hstep] at h
    | some s1 =>
      simp [hstep] at h
      obtain ⟨hs1, hr1⟩ := Producer.step_remaining t s s1 l hs hstep
      obtain ⟨hs2, hr2⟩ := ih s1 s' hs1 h
      refine ⟨hs2, ?_⟩
      rw [events_cons, hr1, hr2, List.append_assoc]

theorem Producer.remaining_eq_nil (t : Task) (s : Producer) (hs : s.counting t) :
    s.remaining t = [] ↔ s.pc = .exited := by
  obtain ⟨pc, tk⟩ := s
  obtain ⟨-, hsel, hfor, -⟩ := hs
  cases pc <;> simp [Producer.remaining] at hsel hfor ⊢

theorem Producer.run_sends (t : Task) (tk : Option Bool) (k : Nat) :
    ∀ i n : Int, i + k = n →
      Producer.run t { pc := .forLoop i n, tkC := tk } (List.replicate k .send)
        = some { pc := .forLoop n n, tkC := tk } := by
  induction k with
  | zero =>
    intro i n h
    have : i = n := by omega
    simp [Producer.run, this]
  | succ k ih =>
    intro i n h
    have hlt : i < n := by omega
    simp only [List.replicate_succ, Producer.run, Producer.step, hlt, if_true]
    exact ih (i + 1) n (by omega)

theorem Producer.run_forever (t : Task) (tk : Option Bool) (k : Nat) :
    Producer.run t { pc := .forever, tkC := tk } (List.replicate k .send)
      = some { pc := .forever, tkC := tk } := by
  induction k with
  | zero => rfl
  | succ k ih => simpa [List.replicate_succ, Producer.run, Producer.step] using ih

/-- C1: with `duration <= 0` and `number = N >= 0` the sends and closes of every run of the
producer goroutine form a prefix of `N` sends followed by one close, the goroutine has returned
exactly when all of them happened, and some run performs them all. In particular `N = 0` gives
the close alone, and the close comes after the `N`-th send. -/
theorem producer_counted_trace (t : Task) (hok : t.ok = true) (hd : t.Duration ≤ 0)
    (hn : 0 ≤ t.Number) :
    ∃ s0, t.producer = .ok s0 ∧
      (∀ tr s, s0.run t tr = some s →
        events tr <+: List.replicate t.Number.toNat .send ++ [.close] ∧
        (s.pc = .exited ↔ events tr = List.replicate t.Number.toNat .send ++ [.close])) ∧
      (∃ tr s, s0.run t tr = some s ∧ s.pc = .exited) := by
  have hd' : ¬ t.Duration > 0 := by omega
  refine ⟨{ pc := .switch, tkC := none }, by simp [Task.producer, hok, hd'], ?_, ?_⟩
  · intro tr s hrun
    have hc : Producer.counting t { pc := .switch, tkC := none } := by
      simp [Producer.counting, hn]
    obtain ⟨hs, hr⟩ := Producer.run_remaining t tr _ s hc hrun
    have hr' : List.replicate t.Number.toNat Label.send ++ [Label.close]
        = events tr ++ s.remaining t := hr
    refine ⟨⟨s.remaining t, hr'.symm⟩, ?_⟩
    rw [← Producer.remaining_eq_nil t s hs, hr']
    constructor
    · intro h
      simp [h]
    · intro h
      have := congrArg List.length h
      simp at this
      exact this
  · by_cases h0 : t.Number = 0
    · exact ⟨[.tau, .close], { pc := .exited, tkC := none },
        by simp [Producer.run, Producer.step, h0], rfl⟩
    · have hpos : 0 < t.Number := by omega
      refine ⟨.tau :: (List.replicate t.Number.toNat .send ++ [.tau, .close]),
        { pc := .exited, tkC := none }, ?_, rfl⟩
      rw [Producer.run_cons]
      simp only [Producer.step, beq_iff_eq, h0, if_false, gt_iff_lt, hpos, if_true,
        Option.some_bind]
      rw [Producer.run_concat,
        Producer.run_sends t none t.Number.toNat 0 t.Number (by omega)]
      simp [Producer.run, Producer.step]

/-- Witness of C1: three tokens. -/
theorem producer_counted_trace_witness :
    ∃ s0, (Task.new 0 3 1 0).init.producer = .ok s0 ∧
      (∀ tr s, s0.run (Task.new 0 3 1 0).init tr = some s →
        events tr <+: List.replicate (Task.new 0 3 1 0).init.Number.toNat .send ++ [.close] ∧
        (s.pc = .exited ↔
          events tr = List.replicate (Task.new 0 3 1 0).init.Number.toNat .send ++ [.close])) ∧
      (∃ tr s, s0.run (Task.new 0 3 1 0).init tr = some s ∧ s.pc = .exited) :=
  producer_counted_trace (Task.new 0 3 1 0).init (by decide) (by decide) (by decide)

/-- C2: the branch of the producer depends on `duration` and `number` only. A positive
duration selects the duration-bound branch whatever the number; otherwise the sign of the number
selects the empty, counted or unbounded branch; two initialized tasks with the same duration and
number run the same branch, so changing the rate changes nothing. -/
theorem producer_branch_selection (t : Task) (hok : t.ok = true) :
    (t.Duration > 0 → t.branch = some .durationBound) ∧
    (t.Duration ≤ 0 → t.Number = 0 → t.branch = some .empty) ∧
    (t.Duration ≤ 0 → t.Number > 0 → t.branch = some .counted) ∧
    (t.Duration ≤ 0 → t.Number < 0 → t.branch = some .unbounded) ∧
    (∀ u : Task, u.ok = true → u.Duration = t.Duration → u.Number = t.Number →
      u.branch = t.branch) ∧
    (∀ r : Int, { t with Rate := r }.branch = t.branch) := by
  refine ⟨?_, ?_, ?_, ?_, ?_, ?_⟩
  · intro hd
    simp [Task.branch, Task.producer, hok, hd]
  · intro hd h0
    have hd' : ¬ 0 < t.Duration := by omega
    simp [Task.branch, Task.producer, Producer.step, hok, hd', h0]
  · intro hd hpos
    have hd' : ¬ 0 < t.Duration := by omega
    have h0 : t.Number ≠ 0 := by omega
    simp [Task.branch, Task.producer, Producer.step, hok, hd', h0, hpos]
  · intro hd hneg
    have hd' : ¬ 0 < t.Duration := by omega
    have h0 : t.Number ≠ 0 := by omega
    have hpos : ¬ 0 < t.Number := by omega
    simp [Task.branch, Task.producer, Producer.step, hok, hd', h0, hpos]
  · intro u hu hd hn
    simp [Task.branch, Task.producer, Producer.step, hok, hu, hd, hn]
  · intro r
    simp [Task.branch, Task.producer, Producer.step, hok]

/-- Witness of C2: a task with both a duration and a number. -/
theorem producer_branch_selection_witness :
    (Task.new 5 7 1 0).init.branch = some .durationBound ∧
    ∀ r : Int, { (Task.new 5 7 1 0).init with Rate := r }.branch
      = (Task.new 5 7 1 0).init.branch :=
  ⟨(producer_branch_selection (Task.new 5 7 1 0).init (by decide)).1 (by decide),
   (producer_branch_selection (Task.new 5 7 1 0).init (by decide)).2.2.2.2.2⟩

theorem Producer.step_ne_select (t : Task) (s s' : Producer) (l : Label)
    (hs : s.pc ≠ .select) (h : s.step t l = some s') : s'.pc ≠ .select := by
  obtain ⟨pc, tk⟩ := s
  cases l <;> cases pc <;> cases tk <;> simp [Producer.step] at h hs ⊢
  all_goals first
    | (subst h; simp)
    | (obtain ⟨-, rfl⟩ := h; simp)
    | (split at h <;> first | (split at h <;> simp at h <;> subst h <;> simp) | (simp at h; subst h; simp))

theorem Producer.run_ne_select (t : Task) (tr : List Label) :
    ∀ s s' : Producer, s.pc ≠ .select → s.run t tr = some s' → s'.pc ≠ .select := by
  induction tr with
  | nil =>
    intro s s' hs h
    simp [Producer.run] at h
    subst h
    exact hs
  | cons l ls ih =>
    intro s s' hs h
    rw [Producer.run_cons] at h
    cases hstep : s.step t l with
    | none => simp [hstep] at h
    | some s1 =>
      simp [hstep] at h
      exact ih s1 s' (Producer.step_ne_select t s s1 l hs hstep) h

/-- While the goroutine is still at its `select`, all it did on the channel was to send. -/
theorem Producer.run_to_select (t : Task) (tr : List Label) :
    ∀ s s' : Producer, s.run t tr = some s' → s'.pc = .select →
      s.pc = .select ∧ Label.timeout ∉ tr ∧ ∀ l ∈ events tr, l = .send := by
  induction tr with
  | nil =>
    intro s s' h hsel
    simp [Producer.run] at h
    subst h
    exact ⟨hsel, by simp, by simp [events]⟩
  | cons l ls ih =>
    intro s s' h hsel
    rw [Producer.run_cons] at h
    cases hstep : s.step t l with
    | none => simp [hstep] at h
    | some s1 =>
      simp [hstep] at h
      obtain ⟨h1, hto, hev⟩ := ih s1 s' h hsel
      have hs : s.pc = .select := by
        by_contra hne
        exact Producer.step_ne_select t s s1 l hne hstep h1
      obtain ⟨pc, tk⟩ := s
      simp only at hs
      subst hs
      refine ⟨rfl, ?_, ?_⟩
      · cases l <;> cases tk <;> simp [Producer.step] at hstep ⊢
        all_goals first
          | exact hto
          | (rename_i b; cases b <;> simp at hstep; subst hstep; simp at h1)
      · intro x hx
        rw [events_cons] at hx
        rcases List.mem_append.mp hx with hx | hx
        · cases l <;> simp [events] at hx
          · exact hx
          · simp [Producer.step] at hstep
        · exact hev x hx

/-- Once the deferred close is pending, the goroutine sends nothing and closes once. -/
theorem Producer.run_from_deferred (t : Task) (tr : List Label) :
    ∀ s s' : Producer, s.pc = .deferred ∨ s.pc = .exited → s.run t tr = some s' →
      Label.send ∉ tr ∧ Label.timeout ∉ tr ∧
      ((events tr = [] ∧ s'.pc = s.pc) ∨
       (events tr = [.close] ∧ s.pc = .deferred ∧ s'.pc = .exited)) := by
  induction tr with
  | nil =>
    intro s s' hs h
    simp [Producer.run] at h
    subst h
    simp [events]
  | cons l ls ih =>
    intro s s' hs h
    rw [Producer.run_cons] at h
    cases hstep : s.step t l with
    | none => simp [hstep] at h
    | some s1 =>
      simp [hstep] at h
      obtain ⟨pc, tk⟩ := s
      simp only at hs
      rcases hs with hs | hs <;> subst hs
      · cases l <;> cases tk <;> simp [Producer.step] at hstep
        all_goals subst hstep
        all_goals obtain ⟨h1, h2, h3⟩ := ih _ s' (by simp) h
        all_goals simp [events_cons, events, h1, h2] at h3 ⊢
        all_goals exact h3
      · cases l <;> cases tk <;> simp [Producer.step] at hstep
        all_goals subst hstep
        all_goals obtain ⟨h1, h2, h3⟩ := ih _ s' (by simp) h
        all_goals simp [events_cons, events, h1, h2] at h3 ⊢
        all_goals exact h3

/-- Counterexample to C3: in a duration-bound run the timer fires (`tick`), the `select` then
has both arms ready and takes the send arm, so a token is sent after the timer fired; only the
next `select` takes the timer arm. -/
theorem producer_sends_after_timer_fired :
    (Task.new 5 0 1 0).init.producer = .ok { pc := .select, tkC := some false } ∧
    Producer.run (Task.new 5 0 1 0).init { pc := .select, tkC := some false }
      [.tick, .send, .timeout, .close] = some { pc := .exited, tkC := some false } := by
  decide

theorem Producer.timedInv_step (t : Task) (tr : List Label) (s s' : Producer) (l : Label)
    (hi : Producer.TimedInv tr s) (h : s.step t l = some s') :
    Producer.TimedInv (tr ++ [l]) s' := by
  obtain ⟨h1, h2, h3, h3', h4, h5⟩ := hi
  obtain ⟨pc, tk⟩ := s
  simp only at h1 h2 h3 h3' h4 h5
  rcases h1 with rfl | rfl | rfl <;> rcases h2 with rfl | rfl <;>
    cases l <;> simp [Producer.step] at h <;> subst h <;>
    constructor <;> simp_all [List.count_append]

theorem Producer.run_timedInv (t : Task) (tr : List Label) :
    ∀ s : Producer, Producer.run t { pc := .select, tkC := some false } tr = some s →
      Producer.TimedInv tr s := by
  induction tr using List.reverseRecOn with
  | nil =>
    intro s h
    simp [Producer.run] at h
    subst h
    constructor <;> simp
  | append_singleton tr l ih =>
    intro s h
    rw [Producer.run_concat] at h
    cases hm : Producer.run t { pc := .select, tkC := some false } tr with
    | none => simp [hm] at h
    | some m1 =>
      simp only [hm, Option.some_bind, Producer.run_cons] at h
      cases hs : m1.step t l with
      | none => simp [hs] at h
      | some m2 =>
        simp [hs, Producer.run] at h
        subst h
        exact Producer.timedInv_step t tr m1 m2 l (ih m1 hm) hs

/-- C3, amended: in the duration-bound producer, after the timer has fired (`tick`): whenever
the goroutine is at its `select` the timer arm is ready; from the state reached, taking the
timer arm and closing the channel, without a send, is a run that ends the goroutine, so it can
stop at once; wherever the timer arm (`timeout`) was taken, the timer had fired before, the
goroutine had only sent tokens until then, and no token is sent and that arm is not taken again
in any later step; the goroutine has left its loop exactly when the timer arm was taken; the
channel is closed never twice, once when the goroutine has returned and not at all before, and
after the timer arm was taken the close is enabled and a send is not. -/
theorem producer_timed_stops_on_timeout (t : Task) (hok : t.ok = true) (hd : t.Duration > 0)
    (pre post : List Label) (s : Producer)
    (hrun : Producer.run t { pc := .select, tkC := some false } (pre ++ .tick :: post)
      = some s) :
    t.producer = .ok { pc := .select, tkC := some false } ∧
    (s.pc = .select → s.step t .timeout = some { pc := .deferred, tkC := some false }) ∧
    (∃ s', s.run t (if s.pc = .select then [.timeout, .close]
        else if s.pc = .deferred then [.close] else []) = some s' ∧ s'.pc = .exited) ∧
    (∀ a b : List Label, pre ++ .tick :: post = a ++ .timeout :: b →
      Label.tick ∈ a ∧ (∀ l ∈ events a, l = .send) ∧ Label.send ∉ b ∧ Label.timeout ∉ b) ∧
    ((s.pc = .deferred ∨ s.pc = .exited) ↔ Label.timeout ∈ pre ++ .tick :: post) ∧
    (pre ++ .tick :: post).count .close = (if s.pc = .exited then 1 else 0) ∧
    (s.pc = .deferred →
      s.step t .close = some { s with pc := .exited } ∧ s.step t .send = none) := by
  have hinv := Producer.run_timedInv t _ s hrun
  obtain ⟨h1, h2, h3, h3', h4, h5⟩ := hinv
  have hready : s.pc = .select →
      s.step t .timeout = some { pc := .deferred, tkC := some false } := by
    intro hsel
    have htk := h3 hsel (by simp)
    obtain ⟨pc, tk⟩ := s
    simp only at hsel htk
    subst hsel; subst htk
    rfl
  refine ⟨by simp [Task.producer, hok, hd], hready, ?_, ?_, ?_, h5, ?_⟩
  · rcases h1 with hp | hp | hp
    · refine ⟨{ pc := .exited, tkC := some false }, ?_, rfl⟩
      simp only [hp, if_true, Producer.run_cons, hready hp, Option.some_bind]
      rfl
    · refine ⟨{ s with pc := .exited }, ?_, rfl⟩
      obtain ⟨pc, tk⟩ := s
      simp only at hp
      subst hp
      simp [Producer.run, Producer.step]
    · refine ⟨s, ?_, hp⟩
      simp [hp, Producer.run]
  · intro a b heq
    rw [heq, Producer.run_concat] at hrun
    cases hpre : Producer.run t { pc := .select, tkC := some false } a with
    | none => simp [hpre] at hrun
    | some s1 =>
      simp only [hpre, Option.some_bind, Producer.run_cons] at hrun
      cases hstep : s1.step t .timeout with
      | none => simp [hstep] at hrun
      | some s2 =>
        simp only [hstep, Option.some_bind] at hrun
        have hs1 : s1.pc = .select ∧ s1.tkC = some true ∧ s2.pc = .deferred := by
          obtain ⟨pc, tk⟩ := s1
          cases pc <;> simp [Producer.step] at hstep ⊢
          cases tk with
          | none => simp at hstep
          | some b =>
            cases b <;> simp at hstep
            subst hstep
            simp
        obtain ⟨-, -, hev⟩ := Producer.run_to_select t a _ s1 hpre hs1.1
        obtain ⟨hsend, hto2, -⟩ :=
          Producer.run_from_deferred t b s2 s (Or.inl hs1.2.2) hrun
        exact ⟨(Producer.run_timedInv t a s1 hpre).fired hs1.2.1, hev, hsend, hto2⟩
  · rw [← List.count_pos_iff, h4]
    rcases h1 with hp | hp | hp <;> simp [hp]
  · intro hp
    obtain ⟨pc, tk⟩ := s
    simp only at hp
    subst hp
    simp [Producer.step]

/-- Witness of C3, amended: a duration of five nanoseconds and the run in which the timer
fires, a token is still sent, the `select` takes the timer arm and the channel is closed. -/
theorem producer_timed_stops_on_timeout_witness :
    Producer.run (Task.new 5 0 1 0).init { pc := .select, tkC := some false }
      [.tick, .send, .timeout, .close] = some { pc := .exited, tkC := some false } ∧
    (Label.tick ∈ [Label.tick, .send] ∧ (∀ l ∈ events [Label.tick, .send], l = .send) ∧
      Label.send ∉ [Label.close] ∧ Label.timeout ∉ [Label.close]) ∧
    [Label.tick, .send, .timeout, .close].count .close = 1 :=
  ⟨by decide,
   (producer_timed_stops_on_timeout (Task.new 5 0 1 0).init (by decide) (by decide) []
      [.send, .timeout, .close] { pc := .exited, tkC := some false } (by decide)).2.2.2.1
      [.tick, .send] [.close] rfl,
   (producer_timed_stops_on_timeout (Task.new 5 0 1 0).init (by decide) (by decide) []
      [.send, .timeout, .close] { pc := .exited, tkC := some false } (by decide)).2.2.2.2.2.1⟩

/-- States of the unbounded loop. -/
theorem Producer.step_unbounded (t : Task) (hn : t.Number < 0) (s s' : Producer) (l : Label)
    (hs : s.tkC = none ∧ (s.pc = .switch ∨ s.pc = .forever)) (h : s.step t l = some s') :
    (s'.tkC = none ∧ (s'.pc = .switch ∨ s'.pc = .forever)) ∧ l ≠ .close := by
  obtain ⟨pc, tk⟩ := s
  obtain ⟨htk, hpc⟩ := hs
  simp only at htk hpc
  subst htk
  have h0 : t.Number ≠ 0 := by omega
  have hpos : ¬ 0 < t.Number := by omega
  rcases hpc with hpc | hpc <;> subst hpc <;> cases l <;>
    simp [Producer.step, h0, hpos] at h ⊢ <;> subst h <;> simp

theorem Producer.run_unbounded (t : Task) (hn : t.Number < 0) (tr : List Label) :
    ∀ s s' : Producer, s.tkC = none ∧ (s.pc = .switch ∨ s.pc = .forever) →
      s.run t tr = some s' →
      (s'.pc = .switch ∨ s'.pc = .forever) ∧ Label.close ∉ tr := by
  induction tr with
  | nil =>
    intro s s' hs h
    simp [Producer.run] at h
    subst h
    exact ⟨hs.2, by simp⟩
  | cons l ls ih =>
    intro s s' hs h
    rw [Producer.run_cons] at h
    cases hstep : s.step t l with
    | none => simp [hstep] at h
    | some s1 =>
      simp [hstep] at h
      obtain ⟨hs1, hl⟩ := Producer.step_unbounded t hn s s1 l hs hstep
      obtain ⟨hpc, hcl⟩ := ih s1 s' hs1 h
      refine ⟨hpc, ?_⟩
      simp only [List.mem_cons, not_or]
      exact ⟨fun e => hl e.symm, hcl⟩

/-- C4: with `duration <= 0` and `number < 0` the producer never closes the token channel: no
run of the goroutine contains a close, all its channel operations are sends, the goroutine
neither reaches its deferred close nor returns, and it sends any number of tokens. -/
theorem producer_unbounded_never_closes (t : Task) (hok : t.ok = true) (hd : t.Duration ≤ 0)
    (hn : t.Number < 0) :
    ∃ s0, t.producer = .ok s0 ∧
      (∀ tr s, s0.run t tr = some s →
        Label.close ∉ tr ∧ (∀ l ∈ events tr, l = .send) ∧
        s.pc ≠ .deferred ∧ s.pc ≠ .exited) ∧
      (∀ k : Nat, ∃ tr s, s0.run t tr = some s ∧ events tr = List.replicate k .send) := by
  have hd' : ¬ t.Duration > 0 := by omega
  refine ⟨{ pc := .switch, tkC := none }, by simp [Task.producer, hok, hd'], ?_, ?_⟩
  · intro tr s hrun
    obtain ⟨hpc, hcl⟩ := Producer.run_unbounded t hn tr _ s ⟨rfl, Or.inl rfl⟩ hrun
    refine ⟨hcl, ?_, ?_, ?_⟩
    · intro l hl
      simp only [events, List.mem_filter, Bool.or_eq_true, beq_iff_eq] at hl
      rcases hl with ⟨hmem, hl | hl⟩
      · exact hl
      · exact absurd (hl ▸ hmem) hcl
    · rcases hpc with h | h <;> simp [h]
    · rcases hpc with h | h <;> simp [h]
  · intro k
    have h0 : t.Number ≠ 0 := by omega
    have hpos : ¬ 0 < t.Number := by omega
    refine ⟨.tau :: List.replicate k .send, { pc := .forever, tkC := none }, ?_, ?_⟩
    · rw [Producer.run_cons]
      simp only [Producer.step, beq_iff_eq, h0, if_false, gt_iff_lt, hpos, Option.some_bind]
      exact Producer.run_forever t none k
    · rw [events_cons]
      simp [events]

/-- Witness of C4: `number = -1`. -/
theorem producer_unbounded_never_closes_witness :
    ∃ s0, (Task.new 0 (-1) 1 0).init.producer = .ok s0 ∧
      (∀ tr s, s0.run (Task.new 0 (-1) 1 0).init tr = some s →
        Label.close ∉ tr ∧ (∀ l ∈ events tr, l = .send) ∧
        s.pc ≠ .deferred ∧ s.pc ≠ .exited) ∧
      (∀ k : Nat, ∃ tr s, s0.run (Task.new 0 (-1) 1 0).init tr = some s ∧
        events tr = List.replicate k .send) :=
  producer_unbounded_never_closes (Task.new 0 (-1) 1 0).init (by decide) (by decide) (by decide)

theorem Producer.step_exited (t : Task) (s s' : Producer) (l : Label)
    (h : s.step t l = some s') :
    (s.pc = .exited → s'.pc = .exited ∧ l = .tick) ∧
    (l = .close → s.pc = .deferred ∧ s'.pc = .exited) ∧
    (l ≠ .close → s.pc ≠ .exited → s'.pc ≠ .exited) := by
  obtain ⟨pc, tk⟩ := s
  cases l <;> cases pc <;> cases tk <;> simp [Producer.step] at h ⊢
  all_goals first
    | (subst h; simp)
    | (obtain ⟨-, rfl⟩ := h; simp)
    | (rename_i b; cases b <;> simp at h; subst h; simp)
    | (by_cases h0 : t.Number = 0 <;> by_cases hp : 0 < t.Number <;> simp [h0, hp] at h <;>
        subst h <;> simp)

theorem events_send : events [.send] = [.send] := rfl

theorem events_close : events [.close] = [.close] := rfl

/-- Shape of the channel operations of any run of the goroutine from any state: sends only
while it has not returned, sends and then one close once it has, nothing after that. -/
theorem Producer.run_shape (t : Task) (tr : List Label) :
    ∀ s s' : Producer, s.run t tr = some s' →
      ∃ k : Nat,
        (events tr = List.replicate k .send ∧ s.pc ≠ .exited ∧ s'.pc ≠ .exited) ∨
        (events tr = List.replicate k .send ++ [.close] ∧ s.pc ≠ .exited ∧ s'.pc = .exited) ∨
        (events tr = [] ∧ s.pc = .exited ∧ s'.pc = .exited) := by
  induction tr with
  | nil =>
    intro s s' h
    simp [Producer.run] at h
    subst h
    refine ⟨0, ?_⟩
    by_cases he : s.pc = .exited <;> simp [events, he]
  | cons l ls ih =>
    intro s s' h
    rw [Producer.run_cons] at h
    cases hstep : s.step t l with
    | none => simp [hstep] at h
    | some s1 =>
      simp [hstep] at h
      obtain ⟨hex, hcl, hne⟩ := Producer.step_exited t s s1 l hstep
      obtain ⟨k, hk⟩ := ih s1 s' h
      rw [events_cons]
      by_cases hsx : s.pc = .exited
      · obtain ⟨h1, rfl⟩ := hex hsx
        refine ⟨0, Or.inr (Or.inr ?_)⟩
        rcases hk with ⟨-, h2, -⟩ | ⟨-, h2, -⟩ | ⟨h2, -, h3⟩
        · exact absurd h1 h2
        · exact absurd h1 h2
        · exact ⟨by rw [h2]; rfl, hsx, h3⟩
      · by_cases hlc : l = .close
        · subst hlc
          obtain ⟨-, h1⟩ := hcl rfl
          refine ⟨0, Or.inr (Or.inl ?_)⟩
          rcases hk with ⟨-, h2, -⟩ | ⟨-, h2, -⟩ | ⟨h2, -, h3⟩
          · exact absurd h1 h2
          · exact absurd h1 h2
          · exact ⟨by rw [h2]; rfl, hsx, h3⟩
        · have h1 := hne hlc hsx
          by_cases hls : l = .send
          · subst hls
            refine ⟨k + 1, ?_⟩
            rcases hk with ⟨h2, -, h3⟩ | ⟨h2, -, h3⟩ | ⟨-, h2, -⟩
            · exact Or.inl ⟨by rw [h2, events_send]; rfl, hsx, h3⟩
            · exact Or.inr (Or.inl ⟨by rw [h2, events_send]; rfl, hsx, h3⟩)
            · exact absurd h2 h1
          · have hel : events [l] = [] := by
              cases l <;> simp [events] at hlc hls ⊢
            refine ⟨k, ?_⟩
            rcases hk with ⟨h2, -, h3⟩ | ⟨h2, -, h3⟩ | ⟨-, h2, -⟩
            · exact Or.inl ⟨by simp [hel, h2], hsx, h3⟩
            · exact Or.inr (Or.inl ⟨by simp [hel, h2], hsx, h3⟩)
            · exact absurd h2 h1

/-! ## Theorems: the steps of a run -/

theorem wrap32_of_range (x : Int) (h0 : -(2 ^ 31) ≤ x) (h1 : x < 2 ^ 31) : wrap32 x = x := by
  unfold wrap32
  omega

theorem wrap32_lt (x : Int) : wrap32 x < 2 ^ 31 := by
  unfold wrap32
  omega

theorem Sys.wgAdd_ok (s : Sys) (n : Int) (h : (s.wgAdd n).crashed = none) :
    0 ≤ wrap32 (s.t.wg + n) ∧
    s.wgAdd n =
      { s with t := { s.t with wg := wrap32 (s.t.wg + n) }, log := s.log ++ [.wgAdd n] } := by
  unfold Sys.wgAdd at h ⊢
  simp only at h ⊢
  split
  · rename_i hneg
    simp [hneg] at h
  · rename_i hneg
    exact ⟨by omega, rfl⟩

theorem Sys.wgDone_ok (s : Sys) (h : s.wgDone.crashed = none) :
    0 ≤ wrap32 (s.t.wg - 1) ∧
    s.wgDone =
      { s with t := { s.t with wg := wrap32 (s.t.wg - 1) }, log := s.log ++ [.wgDone] } := by
  unfold Sys.wgDone at h ⊢
  simp only at h ⊢
  split
  · rename_i hneg
    simp [hneg] at h
  · rename_i hneg
    exact ⟨by omega, rfl⟩

theorem Sys.ctlStep_trans (s s' : Sys) (h : s.ctlStep = some s') (hc : s'.crashed = none) :
    Sys.Trans s .ctl s' := by
  unfold Sys.ctlStep at h
  split at h
  · rename_i hctl
    simp at h; subst h
    exact .init s hctl
  · rename_i hctl
    simp at h; subst h
    exact .subInit s hctl
  · rename_i hctl
    split at h
    · simp at h; subst h
      simp at hc
    · rename_i p hp
      simp at h; subst h
      exact .producer s p hctl hp
  · rename_i hctl
    simp at h; subst h
    exact .setup s hctl
  · rename_i hctl
    split at h
    · rename_i hpos
      simp only at h
      split at h
      · rename_i hcr
        simp at h; subst h
        simp [hc] at hcr
      · simp at h; subst h
        simp only at hc
        obtain ⟨h1, h2⟩ := Sys.wgAdd_ok _ 1 hc
        rw [h2]
        exact .limiterOn s hctl hpos h1
    · rename_i hpos
      simp at h; subst h
      exact .limiterOff s hctl hpos
  · rename_i hctl
    simp only at h
    split at h
    · rename_i hcr
      simp at h; subst h
      simp [hc] at hcr
    · simp at h; subst h
      simp only at hc
      obtain ⟨h1, h2⟩ := Sys.wgAdd_ok _ _ hc
      rw [h2]
      exact .addWorkers s hctl h1
  · rename_i i c hctl
    split at h
    · rename_i hlt
      simp at h; subst h
      exact .spawn s i c hctl hlt
    · rename_i hlt
      simp at h; subst h
      exact .spawnEnd s i c hctl hlt
  · rename_i hctl
    simp at h; subst h
    exact .goWaiter s hctl
  · simp at h
  · rename_i a hctl
    simp at h; subst h
    exact .cancel s a hctl
  · rename_i a hctl
    simp at h; subst h
    exact .waitAll s a hctl
  · simp at h

theorem Sys.workerStep_trans (s s' : Sys) (i : Nat) (l : WorkerLabel)
    (h : s.workerStep i l = some s') (hc : s'.crashed = none) :
    Sys.Trans s (.worker i l) s' := by
  unfold Sys.workerStep at h
  split at h
  · rename_i hw
    simp at h; subst h
    exact .workerCall s i hw
  · rename_i hw
    split at h
    · rename_i hb
      simp at h; subst h
      exact .workerRecv s i hw hb
    · simp at h
  · rename_i ch hw
    simp at h; subst h
    exact .workerRet s i ch hw
  · rename_i hw
    simp at h; subst h
    obtain ⟨h1, h2⟩ := Sys.wgDone_ok _ hc
    rw [h2]
    exact .workerDone s i hw h1
  · simp at h

theorem Sys.limStep_trans (s s' : Sys) (l : LimLabel)
    (h : s.limStep l = some s') (hc : s'.crashed = none) :
    Sys.Trans s (.lim l) s' := by
  unfold Sys.limStep at h
  split at h
  · simp at h
  · rename_i m hm
    split at h
    · simp at h
    · rename_i m' hm'
      cases l with
      | recvTok => simp at h
      | recvClosed =>
        simp only at h
        split at h
        · rename_i hcl
          simp at h; subst h
          exact .limTau s _ m m' hm hm' (Or.inr (Or.inr ⟨rfl, hcl⟩))
        · simp at h
      | send =>
        simp only at h
        split at h
        · rename_i hb
          simp at h; subst h
          exact .limSend s m m' hm hm' hb
        · simp at h
      | close =>
        simp at h; subst h
        exact .limClose s m m' hm hm'
      | done =>
        simp at h; subst h
        obtain ⟨h1, h2⟩ := Sys.wgDone_ok _ hc
        rw [h2]
        exact .limDone s m m' hm hm' h1
      | sleep =>
        simp at h; subst h
        exact .limTau s _ m m' hm hm' (Or.inl rfl)
      | dflt =>
        simp only at h
        split at h
        · simp at h
        · rename_i hcl
          simp at h; subst h
          exact .limTau s _ m m' hm hm' (Or.inr (Or.inl ⟨rfl, by simpa using hcl⟩))

/-- Every step that leaves the process alive is one of the rules of `Sys.Trans`. -/
theorem Sys.step_trans (s s' : Sys) (l : SysLabel) (h : s.step l = some s')
    (hc : s'.crashed = none) : s.crashed = none ∧ Sys.Trans s l s' := by
  unfold Sys.step at h
  split at h
  · simp at h
  · rename_i hcr
    refine ⟨by simpa using hcr, ?_⟩
    cases l with
    | ctl => exact Sys.ctlStep_trans s s' h hc
    | sigint =>
      simp only at h
      split at h
      · rename_i hn
        simp at h; subst h
        exact .sigint s hn
      · simp at h
    | selSig =>
      simp only at h
      split at h
      · rename_i hn
        simp at h; subst h
        exact .selSig s hn.1 hn.2
      · simp at h
    | selAllDone =>
      simp only at h
      split at h
      · rename_i hn
        simp at h; subst h
        exact .selAllDone s hn.1 hn.2
      · simp at h
    | prod l =>
      simp only at h
      split at h
      · simp at h
      · simp at h
      · rename_i l' p hl hp
        split at h
        · simp at h
        · rename_i p' hp'
          simp at h; subst h
          exact .prod s _ p p' hp (fun e => hl (by rw [e])) hp'
    | sendLim =>
      simp only at h
      split at h
      · simp at h
      · rename_i m hm
        split at h
        · rename_i m' s1 hm' hs1
          simp at h; subst h
          unfold Sys.prodSend at hs1
          split at hs1
          · simp at hs1
          · rename_i p hp
            split at hs1
            · simp at hs1
            · rename_i p' hp'
              simp at hs1; subst hs1
              exact .sendLim s p p' m m' hp hp' hm hm'
        · simp at h
    | sendWorker i =>
      simp only at h
      split at h
      · rename_i hw
        unfold Sys.prodSend at h
        split at h
        · simp at h
        · rename_i p hp
          split at h
          · simp at h
          · rename_i p' hp'
            simp at h; subst h
            exact .sendWorker s i p p' hw hp hp'
      · simp at h
    | lim l => exact Sys.limStep_trans s s' l h hc
    | worker i l => exact Sys.workerStep_trans s s' i l h hc
    | waiter =>
      simp only at h
      split at h
      · rename_i hw
        split at h
        · rename_i hz
          simp at h; subst h
          exact .waiterWait s hw hz
        · simp at h
      · rename_i hw
        simp at h; subst h
        exact .waiterClose s hw
      · simp at h

/-- Induction over the states a run goes through. -/
theorem Sys.run_induction (P : Sys → Prop)
    (hstep : ∀ (s s' : Sys) (l : SysLabel), P s → s.step l = some s' → P s')
    (tr : List SysLabel) : ∀ s s' : Sys, P s → s.run tr = some s' → P s' := by
  induction tr with
  | nil =>
    intro s s' hs h
    simp [Sys.run] at h
    subst h
    exact hs
  | cons l ls ih =>
    intro s s' hs h
    simp only [Sys.run] at h
    split at h
    · rename_i s1 h1
      exact ih s1 s' (hstep s s1 l hs h1) h
    · simp at h

theorem Sys.wgAdd_crash (s : Sys) (n : Int) (msg : String)
    (h : (s.wgAdd n).crashed = some msg) (h0 : s.crashed = none) :
    s.wgAdd n = { s with t := { s.t with wg := wrap32 (s.t.wg + n) }, crashed := some msg } ∧
    wrap32 (s.t.wg + n) < 0 := by
  unfold Sys.wgAdd at h ⊢
  simp only at h ⊢
  split
  · rename_i hneg
    simp [hneg] at h
    exact ⟨by rw [h], hneg⟩
  · rename_i hneg
    simp [hneg, h0] at h

theorem Sys.wgDone_crash (s : Sys) (msg : String)
    (h : s.wgDone.crashed = some msg) (h0 : s.crashed = none) :
    s.wgDone = { s with t := { s.t with wg := wrap32 (s.t.wg - 1) }, crashed := some msg } ∧
    wrap32 (s.t.wg - 1) < 0 := by
  unfold Sys.wgDone at h ⊢
  simp only at h ⊢
  split
  · rename_i hneg
    simp [hneg] at h
    exact ⟨by rw [h], hneg⟩
  · rename_i hneg
    simp [hneg, h0] at h

/-- A step that crashes the process is one of five: the panic of `Task.producer`, a `wg.Add`
of the controller, or a `wg.Done` of a worker or of the rate limiter, the counter becoming
negative. It leaves the task but for the counter, the producer, the log and the controller as
they were. -/
theorem Sys.step_crash (s s' : Sys) (l : SysLabel) (msg : String) (h : s.step l = some s')
    (hc : s'.crashed = some msg) :
    (s'.t = { s.t with wg := s'.t.wg } ∧ s'.prod = s.prod ∧ s'.log = s.log ∧
      s'.ctl = s.ctl) ∧
    ((l = .ctl ∧ s.ctl = .producer ∧ s.t.producer = .error msg) ∨
     (l = .ctl ∧ s.ctl = .limiter ∧ wrap32 (s.t.wg + 1) < 0) ∨
     (l = .ctl ∧ s.ctl = .addWorkers ∧ wrap32 (s.t.wg + s.t.Concurrent) < 0) ∨
     (∃ i, l = .worker i .done ∧ s.workers[i]? = some .deferDone ∧ wrap32 (s.t.wg - 1) < 0) ∨
     (∃ m, l = .lim .done ∧ s.lim = some m ∧ m.pc = .deferDone ∧
       wrap32 (s.t.wg - 1) < 0)) := by
  unfold Sys.step at h
  split at h
  · simp at h
  · rename_i hcr
    have h0 : s.crashed = none := by simpa using hcr
    cases l with
    | ctl =>
      change s.ctlStep = some s' at h
      unfold Sys.ctlStep at h
      split at h
      · simp at h; subst h; simp [h0] at hc
      · simp at h; subst h; simp [h0] at hc
      · rename_i hctl
        split at h
        · rename_i m hm
          simp at h; subst h
          simp at hc
          subst hc
          simp [hctl, hm]
        · simp at h; subst h; simp [h0] at hc
      · simp at h; subst h; simp [h0] at hc
      · rename_i hctl
        split at h
        · simp only at h
          split at h
          · simp at h; subst h
            obtain ⟨h1, h2⟩ := Sys.wgAdd_crash _ 1 msg hc h0
            rw [h1]
            simp only at h2
            simp [hctl, h2]
          · rename_i hn
            simp at h; subst h
            simp only at hc
            simp [hc] at hn
        · simp at h; subst h; simp [h0] at hc
      · rename_i hctl
        simp only at h
        split at h
        · simp at h; subst h
          obtain ⟨h1, h2⟩ := Sys.wgAdd_crash _ _ msg hc h0
          rw [h1]
          simp [hctl, h2]
        · rename_i hn
          simp at h; subst h
          simp only at hc
          simp [hc] at hn
      · split at h <;> simp at h <;> subst h <;> simp [h0] at hc
      · simp at h; subst h; simp [h0] at hc
      · simp at h
      · simp at h; subst h; simp [h0] at hc
      · simp at h; subst h; simp [h0] at hc
      · simp at h
    | sigint => simp only at h; split at h <;> simp at h; subst h; simp [h0] at hc
    | selSig => simp only at h; split at h <;> simp at h; subst h; simp [h0] at hc
    | selAllDone => simp only at h; split at h <;> simp at h; subst h; simp [h0] at hc
    | prod l =>
      simp only at h
      split at h <;> try simp at h
      split at h <;> simp at h
      subst h; simp [h0] at hc
    | sendLim =>
      simp only [Sys.prodSend] at h
      split at h <;> try simp at h
      split at h <;> try simp at h
      rename_i hs1
      split at hs1 <;> try simp at hs1
      split at hs1 <;> simp at hs1
      subst hs1; subst h; simp [h0] at hc
    | sendWorker i =>
      simp only [Sys.prodSend] at h
      split at h <;> try simp at h
      split at h <;> try simp at h
      split at h <;> simp at h
      subst h; simp [h0] at hc
    | lim l =>
      change s.limStep l = some s' at h
      unfold Sys.limStep at h
      split at h <;> try simp at h
      rename_i m hm
      split at h <;> try simp at h
      rename_i m' hm'
      cases l <;> simp only at h
      case done =>
        simp at h; subst h
        obtain ⟨h1, h2⟩ := Sys.wgDone_crash _ msg hc h0
        simp only at h2
        have hpc : m.pc = .deferDone := by
          unfold Limiter.step at hm'
          simp only at hm'
          split at hm'
          · assumption
          · simp at hm'
        simp [h1, hm, hpc, h2]
      all_goals (try split at h) <;> simp at h <;> subst h <;> simp [h0] at hc
    | worker i l =>
      change s.workerStep i l = some s' at h
      unfold Sys.workerStep at h
      split at h
      · simp at h; subst h; simp [h0] at hc
      · split at h <;> simp at h; subst h; simp [h0] at hc
      · simp at h; subst h; simp [h0] at hc
      · rename_i hw
        simp at h; subst h
        obtain ⟨h1, h2⟩ := Sys.wgDone_crash _ msg hc h0
        simp only at h2
        simp [h1, hw, h2]
      · simp at h
    | waiter =>
      simp only at h
      split at h
      · split at h <;> simp at h; subst h; simp [h0] at hc
      · simp at h; subst h; simp [h0] at hc
      · simp at h

/-- Only the producer's deferred `close(work)` turns the token channel from open to closed. -/
theorem Sys.step_tokenClosed (s s' : Sys) (l : SysLabel) (h : s.step l = some s')
    (h0 : s.tokenClosed = false) (h1 : s'.tokenClosed = true) : l = .prod .close := by
  cases hc : s'.crashed with
  | some msg =>
    obtain ⟨⟨-, hp, -, -⟩, -⟩ := Sys.step_crash s s' l msg h hc
    simp [Sys.tokenClosed, hp] at h0 h1
    rw [h0] at h1
    exact absurd h1 (by simp)
  | none =>
    obtain ⟨-, htr⟩ := Sys.step_trans s s' l h hc
    cases htr
    case producer p hctl hp =>
      exfalso
      unfold Task.producer at hp
      split at hp
      · simp at hp
      · split at hp <;> simp at hp <;> subst hp <;> simp [Sys.tokenClosed] at h1
    case prod l p p' hp hl hstep =>
      obtain ⟨-, -, hne⟩ := Producer.step_exited s.t p p' l hstep
      by_cases hlc : l = .close
      · rw [hlc]
      · exfalso
        simp [Sys.tokenClosed, hp] at h0 h1
        exact hne hlc h0 h1
    case sendLim p p' m m' hp hstep hm hm' =>
      exfalso
      obtain ⟨-, -, hne⟩ := Producer.step_exited s.t p p' .send hstep
      simp [Sys.tokenClosed, hp] at h0 h1
      exact hne (by simp) h0 h1
    case sendWorker i p p' hw hp hstep =>
      exfalso
      obtain ⟨-, -, hne⟩ := Producer.step_exited s.t p p' .send hstep
      simp [Sys.tokenClosed, hp] at h0 h1
      exact hne (by simp) h0 h1
    all_goals
      exfalso
      simp [Sys.tokenClosed] at h0 h1
      rw [h0] at h1
      exact absurd h1 (by simp)

theorem Sys.run_tokenClosed (tr : List SysLabel) :
    ∀ s s' : Sys, s.run tr = some s' → s.tokenClosed = false → s'.tokenClosed = true →
      SysLabel.prod .close ∈ tr := by
  induction tr with
  | nil =>
    intro s s' h h0 h1
    simp [Sys.run] at h
    subst h
    rw [h0] at h1
    exact absurd h1 (by simp)
  | cons l ls ih =>
    intro s s' h h0 h1
    simp only [Sys.run] at h
    split at h
    · rename_i s1 hstep
      cases hs1 : s1.tokenClosed with
      | true =>
        have := Sys.step_tokenClosed s s1 l hstep h0 hs1
        simp [this]
      | false =>
        exact List.mem_cons_of_mem _ (ih s1 s' h hs1 h1)
    · simp at h

/-- C5: in every run of the producer goroutine the token channel is closed at most once and
nothing is sent on it after the close: the channel operations are `k` sends, followed by one
close exactly when the goroutine has returned. The close is the producer's: in a run of the
whole system the token channel is found closed only if the producer's step `close` was taken. -/
theorem token_channel_closed_once (t : Task) :
    (∀ (s0 : Producer) (tr : List Label) (s : Producer),
      t.producer = .ok s0 → s0.run t tr = some s →
      ∃ k : Nat, (events tr = List.replicate k .send ∧ s.pc ≠ .exited) ∨
                 (events tr = List.replicate k .send ++ [.close] ∧ s.pc = .exited)) ∧
    (∀ (tr : List SysLabel) (s : Sys), (Sys.initial t).run tr = some s →
      s.tokenClosed = true → SysLabel.prod .close ∈ tr) := by
  constructor
  · intro s0 tr s h0 hrun
    have hne : s0.pc ≠ .exited := by
      unfold Task.producer at h0
      split at h0
      · simp at h0
      · split at h0 <;> simp at h0 <;> subst h0 <;> simp
    obtain ⟨k, hk⟩ := Producer.run_shape t tr s0 s hrun
    refine ⟨k, ?_⟩
    rcases hk with ⟨h1, -, h2⟩ | ⟨h1, -, h2⟩ | ⟨-, h1, -⟩
    · exact Or.inl ⟨h1, h2⟩
    · exact Or.inr ⟨h1, h2⟩
    · exact absurd h1 hne
  · intro tr s hrun hcl
    exact Sys.run_tokenClosed tr _ s hrun rfl hcl

/-- Witness of C5: a duration-bound run that sends twice and is closed by the timer. -/
theorem token_channel_closed_once_witness :
    ∃ k : Nat,
      (events [Label.send, .tick, .send, .timeout, .close] = List.replicate k .send ∧
        (Producer.mk .exited (some false)).pc ≠ .exited) ∨
      (events [Label.send, .tick, .send, .timeout, .close] = List.replicate k .send ++ [.close] ∧
        (Producer.mk .exited (some false)).pc = .exited) :=
  (token_channel_closed_once (Task.new 5 0 1 0).init).1 { pc := .select, tkC := some false }
    [.send, .tick, .send, .timeout, .close] { pc := .exited, tkC := some false }
    (by decide) (by decide)

/-! ## Theorems: initialization -/

/-- C6: `init` replaces `concurrent` by 1 when it was 0 and leaves it otherwise, allocates the
token channel and marks the task initialized; duration, number and rate (and the counter of the
wait group) are unchanged. -/
theorem init_resolves_default (t : Task) :
    t.init = { t with Concurrent := if t.Concurrent = 0 then 1 else t.Concurrent,
                      work := some .token, ok := true } ∧
    t.init.Concurrent = (if t.Concurrent = 0 then 1 else t.Concurrent) ∧
    t.init.Duration = t.Duration ∧ t.init.Number = t.Number ∧ t.init.Rate = t.Rate ∧
    t.init.ok = true := by
  unfold Task.init
  by_cases h : t.Concurrent = 0 <;> simp [h]

/-! ## Theorems: invariants of a run -/

theorem ctlCalls_append (xs ys : List Event) : ctlCalls (xs ++ ys) = ctlCalls xs ++ ctlCalls ys := by
  simp [ctlCalls]

theorem Sys.callInv_initial (t : Task) : (Sys.initial t).CallInv :=
  ⟨rfl, rfl⟩

theorem Sys.callInv_trans (s s' : Sys) (l : SysLabel) (htr : Sys.Trans s l s')
    (hi : s.CallInv) : s'.CallInv := by
  obtain ⟨h1, h2⟩ := hi
  cases htr <;> constructor <;>
    simp_all [ctlCalls_append, CtlPc.calls, CtlPc.stage] <;> simp [ctlCalls]

theorem Sys.callInv_step (s s' : Sys) (l : SysLabel) (hi : s.CallInv)
    (h : s.step l = some s') : s'.CallInv := by
  cases hc : s'.crashed with
  | some msg =>
    obtain ⟨⟨-, hp, hl, hctl⟩, -⟩ := Sys.step_crash s s' l msg h hc
    exact ⟨by rw [hl, hctl]; exact hi.calls, by rw [hp, hctl]; exact hi.prod⟩
  | none => exact Sys.callInv_trans s s' l (Sys.step_trans s s' l h hc).2 hi

/-- In every state of a run the controller has made exactly the calls that precede its program
point, and the producer runs exactly from `setup` on. -/
theorem Sys.run_callInv (t : Task) (tr : List SysLabel) (s : Sys)
    (h : (Sys.initial t).run tr = some s) : s.CallInv :=
  Sys.run_induction Sys.CallInv Sys.callInv_step tr _ s (Sys.callInv_initial t) h

theorem Task.init_interval (t : Task) : t.init.interval = t.interval := by
  unfold Task.init Task.interval
  by_cases h : t.Concurrent = 0 <;> simp [h]

theorem Task.cfgEq_init (a b : Task) (h : a.cfgEq b) : a.init.cfgEq b.init := by
  obtain ⟨h1, h2, h3, h4, h5, h6⟩ := h
  unfold Task.init Task.cfgEq
  by_cases hc : b.Concurrent = 0 <;> simp [h4, hc, h1, h2, h3]

theorem Task.cfgEq_interval (a b : Task) (h : a.cfgEq b) : a.interval = b.interval := by
  obtain ⟨h1, h2, h3, h4, h5, h6⟩ := h
  simp [Task.interval, h3]

theorem Sys.ctlInv_initial (t : Task) : (Sys.initial t).CtlInv t := by
  constructor <;> simp [Sys.initial, CtlPc.stage, Task.cfgEq]

/-- The controller's invariant only looks at these components of the state. -/
theorem Sys.ctlInv_of_same (t0 : Task) (s s' : Sys) (hctl : s'.ctl = s.ctl)
    (ht : s'.t.cfgEq s.t) (hint : s'.interval = s.interval) (hw : s'.work = s.work)
    (hlim : s'.lim.isSome = s.lim.isSome) (hlen : s'.workers.length = s.workers.length)
    (hi : s.CtlInv t0) : s'.CtlInv t0 := by
  obtain ⟨h1, h2, h3, h4, h5, h6, h7, h8, h9⟩ := hi
  have hcfg : ∀ u : Task, s.t.cfgEq u → s'.t.cfgEq u := by
    intro u hu
    obtain ⟨a1, a2, a3, a4, a5, a6⟩ := ht
    obtain ⟨b1, b2, b3, b4, b5, b6⟩ := hu
    exact ⟨a1.trans b1, a2.trans b2, a3.trans b3, a4.trans b4, a5.trans b5, a6.trans b6⟩
  constructor
  · intro h; rw [hctl] at h; exact hcfg _ (h1 h)
  · intro h; rw [hctl] at h; exact hcfg _ (h2 h)
  · rw [hctl, hint]; exact h3
  · rw [hctl, hw]; exact h4
  · rw [hctl, hw]; exact h5
  · rw [hctl, hlim]; exact h6
  · rw [hctl, hlen]; exact h7
  · rw [hctl, hlen]; exact h8
  · rw [hctl, hlen]; exact h9

theorem Task.cfgEq_refl (a : Task) : a.cfgEq a := ⟨rfl, rfl, rfl, rfl, rfl, rfl⟩

theorem Task.cfgEq_wg (a : Task) (w : Int) : Task.cfgEq { a with wg := w } a :=
  ⟨rfl, rfl, rfl, rfl, rfl, rfl⟩

theorem Task.init_work (t : Task) : t.init.work = some .token := by
  unfold Task.init
  by_cases h : t.Concurrent = 0 <;> simp [h]

theorem Task.init_ok (t : Task) : t.init.ok = true := by
  unfold Task.init
  by_cases h : t.Concurrent = 0 <;> simp [h]

theorem Sys.ctlInv_trans (t0 : Task) (s s' : Sys) (l : SysLabel) (htr : Sys.Trans s l s')
    (hi : s.CtlInv t0) : s'.CtlInv t0 := by
  cases htr
  case sigint => exact Sys.ctlInv_of_same t0 s _ rfl (Task.cfgEq_refl _) rfl rfl rfl rfl hi
  case prod => exact Sys.ctlInv_of_same t0 s _ rfl (Task.cfgEq_refl _) rfl rfl rfl rfl hi
  case sendWorker => exact Sys.ctlInv_of_same t0 s _ rfl (Task.cfgEq_refl _) rfl rfl rfl rfl hi
  case sendLim p p' m m' hp hs hm hm' =>
    exact Sys.ctlInv_of_same t0 s _ rfl (Task.cfgEq_refl _) rfl rfl (by simp [hm]) rfl hi
  case limTau l m m' hm hm' hl =>
    exact Sys.ctlInv_of_same t0 s _ rfl (Task.cfgEq_refl _) rfl rfl (by simp [hm]) rfl hi
  case limSend m m' hm hm' hb =>
    exact Sys.ctlInv_of_same t0 s _ rfl (Task.cfgEq_refl _) rfl rfl (by simp [hm]) rfl hi
  case limClose m m' hm hm' =>
    exact Sys.ctlInv_of_same t0 s _ rfl (Task.cfgEq_refl _) rfl rfl (by simp [hm]) rfl hi
  case limDone m m' hm hm' hwg =>
    exact Sys.ctlInv_of_same t0 s _ rfl (Task.cfgEq_wg _ _) rfl rfl (by simp [hm]) rfl hi
  case workerCall i hw =>
    exact Sys.ctlInv_of_same t0 s _ rfl (Task.cfgEq_refl _) rfl rfl rfl (by simp) hi
  case workerRecv => exact Sys.ctlInv_of_same t0 s _ rfl (Task.cfgEq_refl _) rfl rfl rfl rfl hi
  case workerRet i ch hw =>
    exact Sys.ctlInv_of_same t0 s _ rfl (Task.cfgEq_refl _) rfl rfl rfl (by simp) hi
  case workerDone i hw hwg =>
    exact Sys.ctlInv_of_same t0 s _ rfl (Task.cfgEq_wg _ _) rfl rfl rfl (by simp) hi
  case waiterWait => exact Sys.ctlInv_of_same t0 s _ rfl (Task.cfgEq_refl _) rfl rfl rfl rfl hi
  case waiterClose => exact Sys.ctlInv_of_same t0 s _ rfl (Task.cfgEq_refl _) rfl rfl rfl rfl hi
  case init hctl =>
    obtain ⟨h1, h2, h3, h4, h5, h6, h7, h8, h9⟩ := hi
    simp [hctl, CtlPc.stage] at h1 h6 h7
    constructor <;> simp [CtlPc.stage, h6, h7]
    exact Task.cfgEq_init _ _ h1
  case subInit hctl =>
    obtain ⟨h1, h2, h3, h4, h5, h6, h7, h8, h9⟩ := hi
    simp [hctl, CtlPc.stage] at h2 h6 h7
    constructor <;> simp [CtlPc.stage, h6, h7, h2]
  case producer p hctl hp =>
    obtain ⟨h1, h2, h3, h4, h5, h6, h7, h8, h9⟩ := hi
    simp [hctl, CtlPc.stage] at h2 h6 h7
    constructor <;> simp [CtlPc.stage, h6, h7, h2]
  case setup hctl =>
    obtain ⟨h1, h2, h3, h4, h5, h6, h7, h8, h9⟩ := hi
    simp [hctl, CtlPc.stage] at h2 h6 h7
    constructor <;> simp [CtlPc.stage, h6, h7, h2]
    · exact (Task.cfgEq_interval _ _ h2).trans (Task.init_interval t0)
    · exact h2.2.2.2.2.1.trans (Task.init_work t0)
  case limiterOn hctl hpos hwg =>
    obtain ⟨h1, h2, h3, h4, h5, h6, h7, h8, h9⟩ := hi
    simp [hctl, CtlPc.stage] at h2 h3 h4 h6 h7
    constructor <;> simp [CtlPc.stage, h6, h7, h2]
    · exact h2
    · exact h3
    · simp [Task.workerChan, ← h3, hpos]
    · rw [← h3]; exact hpos
  case limiterOff hctl hpos =>
    obtain ⟨h1, h2, h3, h4, h5, h6, h7, h8, h9⟩ := hi
    simp [hctl, CtlPc.stage] at h2 h3 h4 h6 h7
    constructor <;> simp [CtlPc.stage, h6, h7, h2]
    · exact h3
    · simp [Task.workerChan, ← h3, hpos, h4]
    · omega
  case addWorkers hctl hwg =>
    obtain ⟨h1, h2, h3, h4, h5, h6, h7, h8, h9⟩ := hi
    simp [hctl, CtlPc.stage] at h2 h3 h5 h6 h7
    constructor <;> simp [CtlPc.stage, h6, h7, h2]
    · exact h2
    · exact h3
    · exact h5
    · exact h2.2.2.2.1
  case spawn i c hctl hlt =>
    obtain ⟨h1, h2, h3, h4, h5, h6, h7, h8, h9⟩ := hi
    simp [hctl, CtlPc.stage] at h2 h3 h5 h6 h8
    constructor <;> simp [CtlPc.stage, h6, h2]
    · exact h3
    · exact h5
    · omega
  case spawnEnd i c hctl hlt =>
    obtain ⟨h1, h2, h3, h4, h5, h6, h7, h8, h9⟩ := hi
    simp [hctl, CtlPc.stage] at h2 h3 h5 h6 h8
    constructor <;> simp [CtlPc.stage, h6, h2]
    · exact h3
    · exact h5
    · omega
  case goWaiter hctl =>
    obtain ⟨h1, h2, h3, h4, h5, h6, h7, h8, h9⟩ := hi
    simp [hctl, CtlPc.stage] at h2 h3 h5 h6 h9
    constructor <;> simp [CtlPc.stage, h6, h2, h3, h5, h9]
  case selSig hctl hsig =>
    obtain ⟨h1, h2, h3, h4, h5, h6, h7, h8, h9⟩ := hi
    simp [hctl, CtlPc.stage] at h2 h3 h5 h6 h9
    constructor <;> simp [CtlPc.stage, h6, h2, h3, h5, h9]
  case selAllDone hctl hsig =>
    obtain ⟨h1, h2, h3, h4, h5, h6, h7, h8, h9⟩ := hi
    simp [hctl, CtlPc.stage] at h2 h3 h5 h6 h9
    constructor <;> simp [CtlPc.stage, h6, h2, h3, h5, h9]
  case cancel a hctl =>
    obtain ⟨h1, h2, h3, h4, h5, h6, h7, h8, h9⟩ := hi
    simp [hctl, CtlPc.stage] at h2 h3 h5 h6 h9
    constructor <;> simp [CtlPc.stage, h6, h2, h3, h5, h9]
  case waitAll a hctl =>
    obtain ⟨h1, h2, h3, h4, h5, h6, h7, h8, h9⟩ := hi
    simp [hctl, CtlPc.stage] at h2 h3 h5 h6 h9
    constructor <;> simp [CtlPc.stage, h6, h2, h3, h5, h9]

theorem Sys.ctlInv_step (t0 : Task) (s s' : Sys) (l : SysLabel) (hc : s'.crashed = none)
    (hi : s.CtlInv t0) (h : s.step l = some s') : s'.CtlInv t0 :=
  Sys.ctlInv_trans t0 s s' l (Sys.step_trans s s' l h hc).2 hi

theorem processCalls_append (i : Nat) (xs ys : List Event) :
    processCalls i (xs ++ ys) = processCalls i xs + processCalls i ys := by
  simp [processCalls]

theorem processCalls_process (i j : Nat) (ch : Option Chan) :
    processCalls j [Event.process i ch] = if i = j then 1 else 0 := by
  by_cases h : i = j <;> simp [processCalls, h]

theorem processCalls_wgDone (j : Nat) : processCalls j [Event.wgDone] = 0 := rfl

theorem totalAdded_append (xs ys : List Event) :
    totalAdded (xs ++ ys) = totalAdded xs + totalAdded ys := by
  induction xs with
  | nil => simp [totalAdded]
  | cons e es ih =>
    cases e <;> simp [totalAdded, ih]
    omega

theorem totalDone_append (xs ys : List Event) :
    totalDone (xs ++ ys) = totalDone xs + totalDone ys := by
  simp [totalDone]

/-- The invariant of the workers' calls only looks at these components of the state. -/
theorem Sys.procInv_of_same (s s' : Sys) (hw : s'.workers = s.workers) (hk : s'.work = s.work)
    (hctl : s.ctl.stage ≤ s'.ctl.stage)
    (hlog : s'.log = s.log ∨ ∃ e, s'.log = s.log ++ [e] ∧ ∀ i ch, e ≠ .process i ch)
    (hi : s.ProcInv) : s'.ProcInv := by
  obtain ⟨h1, h2, h3⟩ := hi
  have hcalls : ∀ i, processCalls i s'.log = processCalls i s.log := by
    intro i
    rcases hlog with h | ⟨e, h, he⟩
    · rw [h]
    · rw [h, processCalls_append]
      cases e <;> simp [processCalls]
      rename_i j ch
      exact absurd rfl (he j ch)
  have hmem : ∀ i ch, Event.process i ch ∈ s'.log → Event.process i ch ∈ s.log := by
    intro i ch hm
    rcases hlog with h | ⟨e, h, he⟩
    · rwa [h] at hm
    · rw [h] at hm
      rcases List.mem_append.mp hm with hm | hm
      · exact hm
      · simp at hm
        exact absurd hm.symm (he i ch)
  constructor
  · intro i
    rw [hcalls, hw]
    exact h1 i
  · intro i ch hm
    obtain ⟨a, b⟩ := h2 i ch (hmem i ch hm)
    exact ⟨by rw [hk]; exact a, by omega⟩
  · intro i ch hm
    rw [hw] at hm
    rw [hk]
    exact h3 i ch hm

theorem Sys.procInv_initial (t : Task) : (Sys.initial t).ProcInv := by
  constructor <;> simp [Sys.initial, processCalls, WorkerPc.calls]

theorem Sys.procInv_trans (t0 : Task) (s s' : Sys) (l : SysLabel) (htr : Sys.Trans s l s')
    (hc : s.CtlInv t0) (hi : s.ProcInv) : s'.ProcInv := by
  cases htr
  case init hctl =>
    exact Sys.procInv_of_same s _ rfl rfl (by simp [hctl, CtlPc.stage]) (Or.inl rfl) hi
  case subInit hctl =>
    exact Sys.procInv_of_same s _ rfl rfl (by simp [hctl, CtlPc.stage])
      (Or.inr ⟨_, rfl, by simp⟩) hi
  case producer p hctl hp =>
    exact Sys.procInv_of_same s _ rfl rfl (by simp [hctl, CtlPc.stage])
      (Or.inr ⟨_, rfl, by simp⟩) hi
  case limiterOff hctl hpos =>
    exact Sys.procInv_of_same s _ rfl rfl (by simp [hctl, CtlPc.stage]) (Or.inl rfl) hi
  case addWorkers hctl hwg =>
    exact Sys.procInv_of_same s _ rfl rfl (by simp [hctl, CtlPc.stage])
      (Or.inr ⟨_, rfl, by simp⟩) hi
  case spawnEnd i c hctl hlt =>
    exact Sys.procInv_of_same s _ rfl rfl (by simp [hctl, CtlPc.stage]) (Or.inl rfl) hi
  case goWaiter hctl =>
    exact Sys.procInv_of_same s _ rfl rfl (by simp [hctl, CtlPc.stage]) (Or.inl rfl) hi
  case cancel a hctl =>
    exact Sys.procInv_of_same s _ rfl rfl (by simp [hctl, CtlPc.stage])
      (Or.inr ⟨_, rfl, by simp⟩) hi
  case waitAll a hctl =>
    exact Sys.procInv_of_same s _ rfl rfl (by simp [hctl, CtlPc.stage])
      (Or.inr ⟨_, rfl, by simp⟩) hi
  case sigint => exact Sys.procInv_of_same s _ rfl rfl (Nat.le_refl _) (Or.inl rfl) hi
  case selSig hctl hsig =>
    exact Sys.procInv_of_same s _ rfl rfl (by simp [hctl, CtlPc.stage]) (Or.inl rfl) hi
  case selAllDone hctl hsig =>
    exact Sys.procInv_of_same s _ rfl rfl (by simp [hctl, CtlPc.stage]) (Or.inl rfl) hi
  case prod => exact Sys.procInv_of_same s _ rfl rfl (Nat.le_refl _) (Or.inl rfl) hi
  case sendLim => exact Sys.procInv_of_same s _ rfl rfl (Nat.le_refl _) (Or.inl rfl) hi
  case sendWorker => exact Sys.procInv_of_same s _ rfl rfl (Nat.le_refl _) (Or.inl rfl) hi
  case limTau => exact Sys.procInv_of_same s _ rfl rfl (Nat.le_refl _) (Or.inl rfl) hi
  case limSend => exact Sys.procInv_of_same s _ rfl rfl (Nat.le_refl _) (Or.inl rfl) hi
  case limClose => exact Sys.procInv_of_same s _ rfl rfl (Nat.le_refl _) (Or.inl rfl) hi
  case limDone =>
    exact Sys.procInv_of_same s _ rfl rfl (Nat.le_refl _) (Or.inr ⟨_, rfl, by simp⟩) hi
  case workerRecv => exact Sys.procInv_of_same s _ rfl rfl (Nat.le_refl _) (Or.inl rfl) hi
  case waiterWait => exact Sys.procInv_of_same s _ rfl rfl (Nat.le_refl _) (Or.inl rfl) hi
  case waiterClose => exact Sys.procInv_of_same s _ rfl rfl (Nat.le_refl _) (Or.inl rfl) hi
  case setup hctl =>
    obtain ⟨h1, h2, h3⟩ := hi
    have hlen := hc.early (by simp [hctl, CtlPc.stage])
    have hnil : s.workers = [] := List.length_eq_zero.mp hlen
    constructor
    · intro i; exact h1 i
    · intro i ch hm
      have := (h2 i ch hm).2
      simp [hctl, CtlPc.stage] at this
    · intro i ch hm
      simp [hnil] at hm
  case limiterOn hctl hpos hwg =>
    obtain ⟨h1, h2, h3⟩ := hi
    have hlen := hc.early (by simp [hctl, CtlPc.stage])
    have hnil : s.workers = [] := List.length_eq_zero.mp hlen
    constructor
    · intro i
      simp only [processCalls_append]
      simpa [processCalls] using h1 i
    · intro i ch hm
      simp at hm
      have := (h2 i ch hm).2
      simp [hctl, CtlPc.stage] at this
    · intro i ch hm
      simp [hnil] at hm
  case spawn i c hctl hlt =>
    obtain ⟨h1, h2, h3⟩ := hi
    constructor
    · intro j
      dsimp only
      rw [h1 j]
      by_cases hj : j < s.workers.length
      · rw [List.getElem?_append_left hj]
      · rw [List.getElem?_append_right (by omega), List.getElem?_eq_none (by omega)]
        cases hk : j - s.workers.length with
        | zero => simp [WorkerPc.calls]
        | succ k => simp [WorkerPc.calls]
    · intro j ch hm
      obtain ⟨a, b⟩ := h2 j ch hm
      exact ⟨a, by simp [CtlPc.stage]⟩
    · intro j ch hm
      dsimp only at hm ⊢
      by_cases hj : j < s.workers.length
      · rw [List.getElem?_append_left hj] at hm
        exact h3 j ch hm
      · rw [List.getElem?_append_right (by omega)] at hm
        cases hk : j - s.workers.length with
        | zero => simp [hk] at hm
        | succ k => simp [hk] at hm
  case workerCall i hw =>
    obtain ⟨h1, h2, h3⟩ := hi
    have hlt : i < s.workers.length := (List.getElem?_eq_some.mp hw).1
    have hst : 6 ≤ s.ctl.stage := by
      by_contra hlow
      have := hc.early (by omega)
      omega
    constructor
    · intro j
      dsimp only
      rw [processCalls_append, processCalls_process, h1 j, List.getElem?_set]
      by_cases hij : i = j
      · subst hij
        simp [hw, hlt, WorkerPc.calls]
      · simp [hij]
    · intro j ch hm
      dsimp only at hm ⊢
      rcases List.mem_append.mp hm with hm | hm
      · exact h2 j ch hm
      · simp at hm
        exact ⟨hm.2, hst⟩
    · intro j ch hm
      dsimp only at hm ⊢
      rw [List.getElem?_set] at hm
      by_cases hij : i = j
      · simp [hij, hij ▸ hlt] at hm
        exact hm.symm
      · simp [hij] at hm
        exact h3 j ch hm
  case workerRet i ch hw =>
    obtain ⟨h1, h2, h3⟩ := hi
    have hlt : i < s.workers.length := (List.getElem?_eq_some.mp hw).1
    constructor
    · intro j
      dsimp only
      rw [h1 j, List.getElem?_set]
      by_cases hij : i = j
      · subst hij
        simp [hw, hlt, WorkerPc.calls]
      · simp [hij]
    · exact h2
    · intro j ch' hm
      dsimp only at hm ⊢
      rw [List.getElem?_set] at hm
      by_cases hij : i = j
      · simp [hij, hij ▸ hlt] at hm
      · simp [hij] at hm
        exact h3 j ch' hm
  case workerDone i hw hwg =>
    obtain ⟨h1, h2, h3⟩ := hi
    have hlt : i < s.workers.length := (List.getElem?_eq_some.mp hw).1
    constructor
    · intro j
      dsimp only
      rw [processCalls_append, processCalls_wgDone, h1 j, List.getElem?_set]
      by_cases hij : i = j
      · subst hij
        simp [hw, hlt, WorkerPc.calls]
      · simp [hij]
    · intro j ch hm
      dsimp only at hm ⊢
      rcases List.mem_append.mp hm with hm | hm
      · exact h2 j ch hm
      · simp at hm
    · intro j ch' hm
      dsimp only at hm ⊢
      rw [List.getElem?_set] at hm
      by_cases hij : i = j
      · simp [hij, hij ▸ hlt] at hm
      · simp [hij] at hm
        exact h3 j ch' hm

theorem Sys.procInv_step (t0 : Task) (s s' : Sys) (l : SysLabel) (hc : s'.crashed = none)
    (hctl : s.CtlInv t0) (hi : s.ProcInv) (h : s.step l = some s') : s'.ProcInv :=
  Sys.procInv_trans t0 s s' l (Sys.step_trans s s' l h hc).2 hctl hi

theorem Limiter.step_returned (m m' : Limiter) (l : LimLabel) (h : m.step l = some m') :
    m.pc ≠ .exited ∧ (m'.pc = .exited ↔ l = .done) ∧ (l = .done → m.pc = .deferDone) := by
  obtain ⟨pc, n⟩ := m
  cases l <;> cases pc <;> simp [Limiter.step] at h ⊢ <;> subst h <;> simp

theorem Task.init_wg (t : Task) : t.init.wg = t.wg := by
  unfold Task.init
  by_cases h : t.Concurrent = 0 <;> simp [h]

theorem List.count_set_of_ne {α : Type} [DecidableEq α] (l : List α) (i : Nat) (a b x : α)
    (h : l[i]? = some a) (ha : a ≠ x) (hb : b ≠ x) : (l.set i b).count x = l.count x := by
  obtain ⟨hlt, hget⟩ := List.getElem?_eq_some.mp h
  rw [List.count_set _ _ _ _ hlt]
  simp [hget, ha, hb]

theorem List.count_set_to {α : Type} [DecidableEq α] (l : List α) (i : Nat) (a x : α)
    (h : l[i]? = some a) (ha : a ≠ x) : (l.set i x).count x = l.count x + 1 := by
  obtain ⟨hlt, hget⟩ := List.getElem?_eq_some.mp h
  rw [List.count_set _ _ _ _ hlt]
  simp [hget, ha]

theorem List.count_lt_length_of_ne {α : Type} [DecidableEq α] (l : List α) (i : Nat) (a x : α)
    (h : l[i]? = some a) (ha : a ≠ x) : l.count x < l.length := by
  have h1 := List.count_set_to l i a x h ha
  have h2 := List.count_le_length x (l.set i x)
  simp at h2
  omega

/-- The invariant of the wait group only looks at these components of the state. -/
theorem Sys.wgInv_of_same (t0 : Task) (s s' : Sys) (hwg : s'.t.wg = s.t.wg)
    (hlog : s'.log = s.log ∨
      ∃ e, s'.log = s.log ++ [e] ∧ totalAdded [e] = 0 ∧ totalDone [e] = 0)
    (hstage : 6 ≤ s'.ctl.stage ↔ 6 ≤ s.ctl.stage)
    (hlim : s'.lim.isSome = s.lim.isSome)
    (hex : s'.lim.map (fun m => m.pc) = some .exited ↔ s.lim.map (fun m => m.pc) = some .exited)
    (hcount : s'.workers.count .exited = s.workers.count .exited)
    (hi : s.WgInv t0) : s'.WgInv t0 := by
  obtain ⟨h0, h1, h2, h3⟩ := hi
  have ha : totalAdded s'.log = totalAdded s.log := by
    rcases hlog with h | ⟨e, h, he, -⟩
    · rw [h]
    · rw [h, totalAdded_append, he]; omega
  have hd : totalDone s'.log = totalDone s.log := by
    rcases hlog with h | ⟨e, h, -, he⟩
    · rw [h]
    · rw [h, totalDone_append, he]; omega
  constructor
  · rw [hwg]; exact h0
  · rw [hwg, ha, hd]; exact h1
  · rw [ha, hlim, h2]
    simp only [hstage]
  · rw [hd, hcount, h3]
    simp only [hex]

theorem Sys.wgInv_initial (t : Task) (h : t.wg = 0) : (Sys.initial t).WgInv t := by
  constructor
  · simp [Sys.initial, h]
  · simp [Sys.initial, totalAdded, totalDone, h]
  · simp [Sys.initial, totalAdded, CtlPc.stage]
  · simp [Sys.initial, totalDone]

/-- A `wg.Done()` on a counter that the invariant describes does not wrap around. -/
theorem Sys.wgInv_done (t0 : Task) (s : Sys) (hi : s.WgInv t0) :
    wrap32 (s.t.wg - 1) = s.t.wg - 1 := by
  obtain ⟨⟨h0, h1⟩, -⟩ := hi
  exact wrap32_of_range _ (by omega) (by omega)

theorem Sys.wgInv_trans (t0 : Task) (hfit : t0.fits) (s s' : Sys) (l : SysLabel)
    (htr : Sys.Trans s l s') (hc : s.CtlInv t0) (hi : s.WgInv t0) : s'.WgInv t0 := by
  cases htr
  case init hctl =>
    exact Sys.wgInv_of_same t0 s _ (Task.init_wg _) (Or.inl rfl)
      (by simp [hctl, CtlPc.stage]) rfl Iff.rfl rfl hi
  case subInit hctl =>
    exact Sys.wgInv_of_same t0 s _ rfl (Or.inr ⟨_, rfl, rfl, rfl⟩)
      (by simp [hctl, CtlPc.stage]) rfl Iff.rfl rfl hi
  case producer p hctl hp =>
    exact Sys.wgInv_of_same t0 s _ rfl (Or.inr ⟨_, rfl, rfl, rfl⟩)
      (by simp [hctl, CtlPc.stage]) rfl Iff.rfl rfl hi
  case setup hctl =>
    exact Sys.wgInv_of_same t0 s _ rfl (Or.inl rfl)
      (by simp [hctl, CtlPc.stage]) rfl Iff.rfl rfl hi
  case limiterOff hctl hpos =>
    exact Sys.wgInv_of_same t0 s _ rfl (Or.inl rfl)
      (by simp [hctl, CtlPc.stage]) rfl Iff.rfl rfl hi
  case spawn i c hctl hlt =>
    exact Sys.wgInv_of_same t0 s _ rfl (Or.inl rfl)
      (by simp [hctl, CtlPc.stage]) rfl Iff.rfl (by simp) hi
  case spawnEnd i c hctl hlt =>
    exact Sys.wgInv_of_same t0 s _ rfl (Or.inl rfl)
      (by simp [hctl, CtlPc.stage]) rfl Iff.rfl rfl hi
  case goWaiter hctl =>
    exact Sys.wgInv_of_same t0 s _ rfl (Or.inl rfl)
      (by simp [hctl, CtlPc.stage]) rfl Iff.rfl rfl hi
  case cancel a hctl =>
    exact Sys.wgInv_of_same t0 s _ rfl (Or.inr ⟨_, rfl, rfl, rfl⟩)
      (by simp [hctl, CtlPc.stage]) rfl Iff.rfl rfl hi
  case waitAll a hctl =>
    exact Sys.wgInv_of_same t0 s _ rfl (Or.inr ⟨_, rfl, rfl, rfl⟩)
      (by simp [hctl, CtlPc.stage]) rfl Iff.rfl rfl hi
  case sigint => exact Sys.wgInv_of_same t0 s _ rfl (Or.inl rfl) Iff.rfl rfl Iff.rfl rfl hi
  case selSig hctl hsig =>
    exact Sys.wgInv_of_same t0 s _ rfl (Or.inl rfl)
      (by simp [hctl, CtlPc.stage]) rfl Iff.rfl rfl hi
  case selAllDone hctl hsig =>
    exact Sys.wgInv_of_same t0 s _ rfl (Or.inl rfl)
      (by simp [hctl, CtlPc.stage]) rfl Iff.rfl rfl hi
  case prod => exact Sys.wgInv_of_same t0 s _ rfl (Or.inl rfl) Iff.rfl rfl Iff.rfl rfl hi
  case sendWorker => exact Sys.wgInv_of_same t0 s _ rfl (Or.inl rfl) Iff.rfl rfl Iff.rfl rfl hi
  case workerRecv => exact Sys.wgInv_of_same t0 s _ rfl (Or.inl rfl) Iff.rfl rfl Iff.rfl rfl hi
  case waiterWait => exact Sys.wgInv_of_same t0 s _ rfl (Or.inl rfl) Iff.rfl rfl Iff.rfl rfl hi
  case waiterClose => exact Sys.wgInv_of_same t0 s _ rfl (Or.inl rfl) Iff.rfl rfl Iff.rfl rfl hi
  case sendLim p p' m m' hp hs hm hm' =>
    obtain ⟨a1, a2, -⟩ := Limiter.step_returned m m' _ hm'
    exact Sys.wgInv_of_same t0 s _ rfl (Or.inl rfl) Iff.rfl (by simp [hm])
      (by simp [hm, a1, a2]) rfl hi
  case limTau l m m' hm hm' hl =>
    obtain ⟨a1, a2, -⟩ := Limiter.step_returned m m' _ hm'
    have hnd : l ≠ .done := by
      rcases hl with h | ⟨h, -⟩ | ⟨h, -⟩ <;> simp [h]
    exact Sys.wgInv_of_same t0 s _ rfl (Or.inl rfl) Iff.rfl (by simp [hm])
      (by simp [hm, a1, a2, hnd]) rfl hi
  case limSend m m' hm hm' hb =>
    obtain ⟨a1, a2, -⟩ := Limiter.step_returned m m' _ hm'
    exact Sys.wgInv_of_same t0 s _ rfl (Or.inl rfl) Iff.rfl (by simp [hm])
      (by simp [hm, a1, a2]) rfl hi
  case limClose m m' hm hm' =>
    obtain ⟨a1, a2, -⟩ := Limiter.step_returned m m' _ hm'
    exact Sys.wgInv_of_same t0 s _ rfl (Or.inl rfl) Iff.rfl (by simp [hm])
      (by simp [hm, a1, a2]) rfl hi
  case workerCall i hw =>
    exact Sys.wgInv_of_same t0 s _ rfl (Or.inr ⟨_, rfl, rfl, rfl⟩) Iff.rfl rfl Iff.rfl
      (List.count_set_of_ne _ _ _ _ _ hw (by simp) (by simp)) hi
  case workerRet i ch hw =>
    exact Sys.wgInv_of_same t0 s _ rfl (Or.inl rfl) Iff.rfl rfl Iff.rfl
      (List.count_set_of_ne _ _ _ _ _ hw (by simp) (by simp)) hi
  case limiterOn hctl hpos hwg =>
    obtain ⟨h0, h1, h2, h3⟩ := hi
    have hl := hc.lim
    simp [hctl, CtlPc.stage] at hl
    simp [hctl, CtlPc.stage, hl] at h2
    have hw : wrap32 (s.t.wg + 1) = s.t.wg + 1 :=
      wrap32_of_range _ (by omega) (by rw [h1, h2]; omega)
    rw [hw] at hwg ⊢
    constructor
    · show 0 ≤ s.t.wg + 1 ∧ s.t.wg + 1 < 2 ^ 31
      rw [h1, h2] at hwg ⊢
      omega
    · simp [totalAdded_append, totalDone_append, totalAdded, totalDone, h1]
      omega
    · simp [totalAdded_append, totalAdded, CtlPc.stage, h2]
    · simp [totalDone_append, totalDone, hl] at h3 ⊢
      exact h3
  case addWorkers hctl hwg =>
    obtain ⟨h0, h1, h2, h3⟩ := hi
    have hcfg := (hc.cfg (by simp [hctl])).2.2.2.1
    have hl := hc.lim
    simp [hctl, CtlPc.stage] at h2 hl
    have hL : totalAdded s.log = (if t0.interval > 0 then 1 else 0) := by
      rw [h2, hl]
      by_cases hi0 : 0 < t0.interval <;> simp [hi0]
    obtain ⟨hf0, hf1⟩ := hfit
    unfold Task.added at hf1
    have hw : wrap32 (s.t.wg + s.t.Concurrent) = s.t.wg + s.t.Concurrent := by
      apply wrap32_of_range
      · rw [hcfg]; omega
      · rw [hcfg, h1, hL]; omega
    rw [hw] at hwg ⊢
    constructor
    · show 0 ≤ s.t.wg + s.t.Concurrent ∧ s.t.wg + s.t.Concurrent < 2 ^ 31
      refine ⟨hwg, ?_⟩
      rw [hcfg, h1, hL]; omega
    · simp [totalAdded_append, totalDone_append, totalAdded, totalDone, h1]
      omega
    · simp [totalAdded_append, totalAdded, CtlPc.stage, h2, hcfg]
      omega
    · simp [totalDone_append, totalDone] at h3 ⊢
      exact h3
  case limDone m m' hm hm' hwg =>
    have hw := Sys.wgInv_done t0 s hi
    obtain ⟨h0, h1, h2, h3⟩ := hi
    obtain ⟨a1, a2, a3⟩ := Limiter.step_returned m m' _ hm'
    rw [hw] at hwg ⊢
    constructor
    · show 0 ≤ s.t.wg - 1 ∧ s.t.wg - 1 < 2 ^ 31
      omega
    · simp [totalAdded_append, totalDone_append, totalAdded, totalDone, h1]
      omega
    · simp [totalAdded_append, totalAdded, h2, hm]
    · simp [totalDone_append, totalDone, hm, a1, a2] at h3 ⊢
      omega
  case workerDone i hw hwg =>
    have hw32 := Sys.wgInv_done t0 s hi
    obtain ⟨h0, h1, h2, h3⟩ := hi
    rw [hw32] at hwg ⊢
    constructor
    · show 0 ≤ s.t.wg - 1 ∧ s.t.wg - 1 < 2 ^ 31
      omega
    · simp [totalAdded_append, totalDone_append, totalAdded, totalDone, h1]
      omega
    · simp [totalAdded_append, totalAdded, h2]
    · simp only [totalDone_append]
      rw [List.count_set_to _ _ _ _ hw (by simp), h3]
      simp [totalDone]
      omega

theorem Sys.wgInv_step (t0 : Task) (hfit : t0.fits) (s s' : Sys) (l : SysLabel)
    (hc : s'.crashed = none) (hctl : s.CtlInv t0) (hi : s.WgInv t0) (h : s.step l = some s') :
    s'.WgInv t0 :=
  Sys.wgInv_trans t0 hfit s s' l (Sys.step_trans s s' l h hc).2 hctl hi

/-- Every state of a run of a task whose wait group is unused satisfies the invariants, as
long as the process is alive. -/
theorem Sys.run_inv (t0 : Task) (hwg : t0.wg = 0) (tr : List SysLabel) (s : Sys)
    (h : (Sys.initial t0).run tr = some s) (hc : s.crashed = none) : s.Inv t0 := by
  refine Sys.run_induction (fun s => s.crashed = none → s.Inv t0) ?_ tr _ s ?_ h hc
  · intro s s' l hs hstep hc'
    obtain ⟨hc0, -⟩ := Sys.step_trans s s' l hstep hc'
    obtain ⟨h1, h2, h3⟩ := hs hc0
    exact ⟨Sys.ctlInv_step t0 s s' l hc' h1 hstep, Sys.procInv_step t0 s s' l hc' h1 h2 hstep,
      fun hfit => Sys.wgInv_step t0 hfit s s' l hc' h1 (h3 hfit) hstep⟩
  · intro _
    exact ⟨Sys.ctlInv_initial t0, Sys.procInv_initial t0, fun _ => Sys.wgInv_initial t0 hwg⟩

/-- The workers started so far are at most `concurrent`, and none before the spawn loop. -/
theorem Sys.ctlInv_workers_le (t0 : Task) (s : Sys) (hi : s.CtlInv t0)
    (hc : 0 ≤ t0.init.Concurrent) :
    (s.workers.length : Int) ≤ (if 6 ≤ s.ctl.stage then t0.init.Concurrent else 0) := by
  obtain ⟨h1, h2, h3, h4, h5, h6, h7, h8, h9⟩ := hi
  cases hctl : s.ctl <;> simp [hctl, CtlPc.stage] at h7 h8 h9 ⊢
  all_goals first
    | simp [h7]
    | omega

/-- The counter of the wait group counts the goroutines registered with it that have not yet
called `wg.Done()`. -/
theorem Sys.inv_wg_eq (t0 : Task) (s : Sys) (hi : s.WgInv t0) :
    s.t.wg = (if 6 ≤ s.ctl.stage then t0.init.Concurrent else 0)
      - (s.workers.count .exited : Int)
      + (if s.lim.isSome = true ∧ s.lim.map (fun m => m.pc) ≠ some .exited then 1 else 0) := by
  obtain ⟨-, h1, h2, h3⟩ := hi
  rw [h1, h2, h3]
  cases hl : s.lim with
  | none => simp
  | some m =>
    by_cases hm : m.pc = .exited <;> simp [hm]
    omega

theorem Task.init_concurrent_pos (t : Task) (h : 0 ≤ t.Concurrent) : 1 ≤ t.init.Concurrent := by
  unfold Task.init
  by_cases h0 : t.Concurrent = 0 <;> simp [h0]
  omega

/-- With `concurrent >= 0`, and what is added to the counter below `2^31`, no panic occurs: the
process stays alive in every state of a run. -/
theorem Sys.run_alive (t0 : Task) (hwg : t0.wg = 0) (hc : 0 ≤ t0.Concurrent)
    (hb : t0.added < 2 ^ 31) (tr : List SysLabel) (s : Sys)
    (h : (Sys.initial t0).run tr = some s) : s.crashed = none := by
  have hC := Task.init_concurrent_pos t0 hc
  have hfit : t0.fits := ⟨by omega, hb⟩
  unfold Task.added at hb
  refine Sys.run_induction (fun s => s.crashed = none ∧ s.Inv t0) ?_ tr _ s ?_ h |>.1
  · intro s s' l hs hstep
    obtain ⟨hc0, hinv⟩ := hs
    have halive : s'.crashed = none := by
      cases hcr : s'.crashed with
      | none => rfl
      | some msg =>
        exfalso
        obtain ⟨-, hcause⟩ := Sys.step_crash s s' l msg hstep hcr
        have hwi := hinv.wg hfit
        have hwgeq := Sys.inv_wg_eq t0 s hwi
        have hdone := Sys.wgInv_done t0 s hwi
        have hle := Sys.ctlInv_workers_le t0 s hinv.ctl (by omega)
        have hcnt := List.count_le_length WorkerPc.exited s.workers
        have hlim := hinv.ctl.lim
        rcases hcause with ⟨-, hctl, hp⟩ | ⟨-, hctl, hneg⟩ | ⟨-, hctl, hneg⟩ |
          ⟨i, -, hw, hneg⟩ | ⟨m, -, hm, hpc, hneg⟩
        · have hok := (hinv.ctl.cfg (by simp [hctl])).2.2.2.2.2
          rw [Task.init_ok] at hok
          simp [Task.producer, hok] at hp
          split at hp <;> simp at hp
        · have hA : (if 6 ≤ s.ctl.stage then t0.init.Concurrent else 0) = 0 := by
            simp [hctl, CtlPc.stage]
          rw [hA] at hwgeq hle
          simp [hctl, CtlPc.stage] at hlim
          simp [hlim] at hwgeq
          have h0 : s.t.wg = 0 := by omega
          rw [h0] at hneg
          exact absurd hneg (by decide)
        · have hcfg := (hinv.ctl.cfg (by simp [hctl])).2.2.2.1
          have hA : (if 6 ≤ s.ctl.stage then t0.init.Concurrent else 0) = 0 := by
            simp [hctl, CtlPc.stage]
          rw [hA] at hwgeq hle
          have hr := hwi.range
          have hup : s.t.wg ≤ (if t0.interval > 0 then 1 else 0) := by
            simp [hctl, CtlPc.stage] at hlim
            by_cases hi0 : 0 < t0.interval
            · simp only [gt_iff_lt, hi0, if_true]
              split at hwgeq <;> omega
            · simp only [hi0, decide_False] at hlim
              simp [hlim] at hwgeq
              simp only [gt_iff_lt, hi0, if_false]
              omega
          rw [wrap32_of_range _ (by rw [hcfg]; omega) (by rw [hcfg]; omega), hcfg] at hneg
          omega
        · have hlt := List.count_lt_length_of_ne s.workers i _ WorkerPc.exited hw (by simp)
          rw [hdone] at hneg
          split at hwgeq <;> split at hle <;> omega
        · have hL : (if s.lim.isSome = true ∧ s.lim.map (fun m => m.pc) ≠ some .exited
              then (1 : Int) else 0) = 1 := by
            simp [hm, hpc]
          rw [hL] at hwgeq
          rw [hdone] at hneg
          split at hle <;> omega
    obtain ⟨h1, h2, h3⟩ := hinv
    exact ⟨halive, Sys.ctlInv_step t0 s s' l halive h1 hstep,
      Sys.procInv_step t0 s s' l halive h1 h2 hstep,
      fun hf => Sys.wgInv_step t0 hf s s' l halive h1 (h3 hf) hstep⟩
  · exact ⟨rfl, Sys.ctlInv_initial t0, Sys.procInv_initial t0, fun _ => Sys.wgInv_initial t0 hwg⟩

theorem Sys.step_alive (s s' : Sys) (l : SysLabel) (h : s.step l = some s') :
    s.crashed = none := by
  unfold Sys.step at h
  split at h
  · simp at h
  · rename_i hcr
    simpa using hcr

/-- The configuration and the bound of the spawn loop in every state of a run, whether the
process is alive or not: a panic leaves them as they were. -/
theorem Sys.run_cfg (t0 : Task) (tr : List SysLabel) (s : Sys)
    (h : (Sys.initial t0).run tr = some s) :
    (s.ctl ≠ .init → s.t.cfgEq t0.init) ∧
    (∀ i k : Int, s.ctl = .spawn i k → k = t0.init.Concurrent) := by
  refine (Sys.run_induction
    (fun s => (s.crashed = none → s.CtlInv t0) ∧ (s.ctl ≠ .init → s.t.cfgEq t0.init) ∧
      (∀ i k : Int, s.ctl = .spawn i k → k = t0.init.Concurrent)) ?_ tr _ s ?_ h).2
  · intro s s' l hs hstep
    obtain ⟨hs1, hs2, hs3⟩ := hs
    have h0 := Sys.step_alive s s' l hstep
    have hci := hs1 h0
    cases hcr : s'.crashed with
    | none =>
      have hci' := Sys.ctlInv_step t0 s s' l hcr hci hstep
      exact ⟨fun _ => hci', hci'.cfg, fun i k hk => (hci'.spawn i k hk).1⟩
    | some msg =>
      obtain ⟨⟨ht, -, -, hctl⟩, -⟩ := Sys.step_crash s s' l msg hstep hcr
      refine ⟨fun hn => by simp at hn, ?_, ?_⟩
      · intro hne
        rw [hctl] at hne
        obtain ⟨a1, a2, a3, a4, a5, a6⟩ := hs2 hne
        rw [ht]
        exact ⟨a1, a2, a3, a4, a5, a6⟩
      · intro i k hk
        rw [hctl] at hk
        exact hs3 i k hk
  · refine ⟨fun _ => Sys.ctlInv_initial t0, fun hne => ?_, fun i k hk => ?_⟩
    · exact absurd rfl hne
    · simp [Sys.initial] at hk

/-- What `Task.added` is for a task as the caller constructs it. -/
theorem Task.added_new_lt (d n c r : Int)
    (hb : c + (if (Task.new d n c r).interval > 0 then 1 else 0) < 2 ^ 31) :
    (Task.new d n c r).added < 2 ^ 31 := by
  unfold Task.added
  by_cases h0 : c = 0
  · have hi : (Task.new d n c r).init.Concurrent = 1 := by simp [Task.init, Task.new, h0]
    rw [hi]
    split <;> omega
  · have hi : (Task.new d n c r).init.Concurrent = c := by simp [Task.init, Task.new, h0]
    rw [hi]
    exact hb

theorem Task.fits_new (d n c r : Int) (hlo : -(2 ^ 31) ≤ c)
    (hb : c + (if (Task.new d n c r).interval > 0 then 1 else 0) < 2 ^ 31) :
    (Task.new d n c r).fits := by
  refine ⟨?_, Task.added_new_lt d n c r hb⟩
  by_cases h0 : c = 0
  · have hi : (Task.new d n c r).init.Concurrent = 1 := by simp [Task.init, Task.new, h0]
    rw [hi]
    omega
  · have hi : (Task.new d n c r).init.Concurrent = c := by simp [Task.init, Task.new, h0]
    rw [hi]
    exact hlo

/-! ## Theorems: the worker count -/

/-- Counterexample to C7: `init` leaves a negative `concurrent` as it is, and the controller
reaches `wg.Add(t.Concurrent)` with `concurrent = -1`. -/
theorem concurrent_negative_after_init :
    (Task.new 0 1 (-1) 0).init.Concurrent = -1 ∧
    ((Sys.initial (Task.new 0 1 (-1) 0)).run [.ctl, .ctl, .ctl, .ctl, .ctl]).map
      (fun s => (s.ctl, s.t.Concurrent, s.crashed)) = some (.addWorkers, -1, none) := by
  decide

/-- C7, amended: for every configuration with `concurrent >= 0` the worker count is at least 1
at run time: it is at least 1 after `init`, it keeps that value in every later state of the
run, and the bound of the spawn loop is at least 1. -/
theorem worker_count_at_least_one (d n c r : Int) (hc : 0 ≤ c) :
    1 ≤ (Task.new d n c r).init.Concurrent ∧
    ∀ (tr : List SysLabel) (s : Sys), (Sys.initial (Task.new d n c r)).run tr = some s →
      (s.ctl ≠ .init → s.t.Concurrent = (Task.new d n c r).init.Concurrent) ∧
      (s.ctl ≠ .init → 1 ≤ s.t.Concurrent) ∧
      (∀ i k : Int, s.ctl = .spawn i k → 1 ≤ k) := by
  have hC := Task.init_concurrent_pos (Task.new d n c r) hc
  refine ⟨hC, ?_⟩
  intro tr s h
  obtain ⟨h1, h2⟩ := Sys.run_cfg (Task.new d n c r) tr s h
  refine ⟨?_, ?_, ?_⟩
  · intro hne
    exact (h1 hne).2.2.2.1
  · intro hne
    rw [(h1 hne).2.2.2.1]
    exact hC
  · intro i k hk
    rw [h2 i k hk]
    exact hC

/-- Witness of C7, amended: `concurrent` unset. -/
theorem worker_count_at_least_one_witness :
    1 ≤ (Task.new 0 1 0 0).init.Concurrent ∧
    ∀ (tr : List SysLabel) (s : Sys), (Sys.initial (Task.new 0 1 0 0)).run tr = some s →
      (s.ctl ≠ .init → s.t.Concurrent = (Task.new 0 1 0 0).init.Concurrent) ∧
      (s.ctl ≠ .init → 1 ≤ s.t.Concurrent) ∧
      (∀ i k : Int, s.ctl = .spawn i k → 1 ≤ k) :=
  worker_count_at_least_one 0 1 0 0 (by decide)

/-! ## Theorems: the controller -/

theorem Sys.run_append (s : Sys) (xs ys : List SysLabel) :
    s.run (xs ++ ys) = (s.run xs).bind fun s' => s'.run ys := by
  induction xs generalizing s with
  | nil => rfl
  | cons x xs ih =>
    simp only [List.cons_append, Sys.run]
    cases s.step x with
    | none => rfl
    | some s' => exact ih s'

/-- The interrupt listener is registered from `setup` on. -/
theorem Sys.run_notified (t : Task) (tr : List SysLabel) (s : Sys)
    (h : (Sys.initial t).run tr = some s) (hc : s.crashed = none) (hst : 4 ≤ s.ctl.stage) :
    s.notified = true := by
  refine Sys.run_induction
    (fun s => s.crashed = none → 4 ≤ s.ctl.stage → s.notified = true) ?_ tr _ s ?_ h hc hst
  · intro s s' l hs hstep hc' hst'
    obtain ⟨hc0, htr⟩ := Sys.step_trans s s' l hstep hc'
    have hs0 := hs hc0
    cases htr <;> simp_all [CtlPc.stage]
  · intro _ hst
    simp [Sys.initial, CtlPc.stage] at hst

/-- A controller step before the final `select` brings the controller one step closer to it. -/
theorem Sys.trans_toSelect (s s' : Sys) (htr : Sys.Trans s .ctl s') (h0 : s.toSelect ≠ 0) :
    s'.toSelect + 1 = s.toSelect ∧ (s'.toSelect = 0 → s'.ctl = .select) := by
  cases htr <;> rename_i hctl <;> simp [Sys.toSelect, *] at h0 ⊢
  all_goals omega

/-- The controller is never blocked before its final `select`. -/
theorem Sys.ctl_enabled (s : Sys) (hc : s.crashed = none) (h : s.toSelect ≠ 0) :
    ∃ s', s.step .ctl = some s' := by
  simp only [Sys.step, hc, Option.isSome_none, Bool.false_eq_true, if_false, Sys.ctlStep]
  cases hctl : s.ctl <;> simp [Sys.toSelect, hctl] at h ⊢
  all_goals (repeat' split) <;> exact ⟨_, rfl⟩

/-- With `concurrent >= 0`, and what is added to the counter below `2^31`, the controller
reaches its final `select` from every state before it, by controller steps alone. -/
theorem Sys.run_reaches_select (t : Task) (hwg : t.wg = 0) (hc : 0 ≤ t.Concurrent)
    (hb : t.added < 2 ^ 31) (k : Nat) :
    ∀ (tr : List SysLabel) (s : Sys), (Sys.initial t).run tr = some s → s.toSelect = k + 1 →
      ∃ s', (Sys.initial t).run (tr ++ List.replicate (k + 1) .ctl) = some s' ∧
        s'.ctl = .select := by
  induction k with
  | zero =>
    intro tr s h hk
    have halive := Sys.run_alive t hwg hc hb tr s h
    obtain ⟨s', hs'⟩ := Sys.ctl_enabled s halive (by omega)
    have hrun : (Sys.initial t).run (tr ++ [.ctl]) = some s' := by
      rw [Sys.run_append, h]
      simp [Sys.run, hs']
    have halive' := Sys.run_alive t hwg hc hb _ s' hrun
    obtain ⟨h1, h2⟩ := Sys.trans_toSelect s s' (Sys.step_trans s s' _ hs' halive').2 (by omega)
    exact ⟨s', hrun, h2 (by omega)⟩
  | succ k ih =>
    intro tr s h hk
    have halive := Sys.run_alive t hwg hc hb tr s h
    obtain ⟨s', hs'⟩ := Sys.ctl_enabled s halive (by omega)
    have hrun : (Sys.initial t).run (tr ++ [.ctl]) = some s' := by
      rw [Sys.run_append, h]
      simp [Sys.run, hs']
    have halive' := Sys.run_alive t hwg hc hb _ s' hrun
    obtain ⟨h1, -⟩ := Sys.trans_toSelect s s' (Sys.step_trans s s' _ hs' halive').2 (by omega)
    obtain ⟨s2, hs2, hsel⟩ := ih (tr ++ [.ctl]) s' hrun (by omega)
    refine ⟨s2, ?_, hsel⟩
    rw [List.replicate_succ, ← List.singleton_append, ← List.append_assoc]
    exact hs2

/-- With `concurrent >= 0`, and what is added to the counter below `2^31`, some run is ended by
an interrupt and returns. -/
theorem Sys.run_returns_on_interrupt (t : Task) (hwg : t.wg = 0) (hc : 0 ≤ t.Concurrent)
    (hb : t.added < 2 ^ 31) :
    ∃ (tr : List SysLabel) (s : Sys), (Sys.initial t).run tr = some s ∧ s.ctl = .returned ∧
      SysLabel.selSig ∈ tr := by
  obtain ⟨s1, h1, hsel⟩ :=
    Sys.run_reaches_select t hwg hc hb (7 + t.init.Concurrent.toNat) [] _ rfl
    (by simp [Sys.toSelect, Sys.initial]; omega)
  have halive := Sys.run_alive t hwg hc hb _ s1 h1
  have hnot := Sys.run_notified t _ s1 h1 halive (by simp [hsel, CtlPc.stage])
  refine ⟨List.replicate (7 + t.init.Concurrent.toNat + 1) .ctl ++ [.sigint, .selSig, .ctl, .ctl],
    { s1 with sig := false, log := s1.log ++ [.cancel] ++ [.waitAll], ctl := .returned },
    ?_, rfl, by simp⟩
  rw [List.nil_append] at h1
  rw [Sys.run_append, h1]
  simp [Sys.run, Sys.step, Sys.ctlStep, halive, hnot, hsel]

/-- C8: in every state of every run the controller's own calls are a prefix of `Init`, start
of the producer, `Cancel`, `WaitAll`, each made once and in this order; the producer goroutine
exists exactly when its start is in the log, so `Init` precedes it; whichever arm ended the
wait, the calls made when `Cancel` is about to run, when `WaitAll` is about to run and when
`Run` has returned are the same. With `concurrent >= 0`, and `concurrent` plus 1 for the rate
limiter below `2^31`, the range of the counter of the wait group, a run ended by the interrupt
returns. -/
theorem controller_call_sequence (d n c r : Int) :
    (∀ (tr : List SysLabel) (s : Sys), (Sys.initial (Task.new d n c r)).run tr = some s →
      ctlCalls s.log <+: [.subInit, .startProducer, .cancel, .waitAll] ∧
      (s.prod.isSome = true ↔ Event.startProducer ∈ ctlCalls s.log) ∧
      (∀ a, s.ctl = .cancel a → ctlCalls s.log = [.subInit, .startProducer]) ∧
      (∀ a, s.ctl = .waitAll a → ctlCalls s.log = [.subInit, .startProducer, .cancel]) ∧
      (s.ctl = .returned → ctlCalls s.log = [.subInit, .startProducer, .cancel, .waitAll])) ∧
    (0 ≤ c → c + (if (Task.new d n c r).interval > 0 then 1 else 0) < 2 ^ 31 →
      ∃ (tr : List SysLabel) (s : Sys),
        (Sys.initial (Task.new d n c r)).run tr = some s ∧ s.ctl = .returned ∧
        SysLabel.selSig ∈ tr) := by
  constructor
  · intro tr s h
    obtain ⟨h1, h2⟩ := Sys.run_callInv _ tr s h
    rw [h1, h2]
    refine ⟨?_, ?_, ?_, ?_, ?_⟩
    · cases s.ctl <;> simp [CtlPc.calls, List.prefix_iff_eq_take]
    · cases s.ctl <;> simp [CtlPc.calls, CtlPc.stage]
    · intro a ha; simp [ha, CtlPc.calls]
    · intro a ha; simp [ha, CtlPc.calls]
    · intro ha; simp [ha, CtlPc.calls]
  · intro hc hb
    exact Sys.run_returns_on_interrupt (Task.new d n c r) rfl hc (Task.added_new_lt d n c r hb)

/-- Witness of C8: a run ended by `allDone`, after two tokens, and a run ended by the
interrupt, both with the same calls of the controller. -/
theorem controller_call_sequence_witness :
    (∃ s, (Sys.initial (Task.new 0 2 1 0)).run scheduleCounted = some s ∧ s.ctl = .returned ∧
      ctlCalls s.log = [.subInit, .startProducer, .cancel, .waitAll]) ∧
    (∃ s, (Sys.initial (Task.new 0 2 1 0)).run scheduleInterrupted = some s ∧
      s.ctl = .returned ∧ ctlCalls s.log = [.subInit, .startProducer, .cancel, .waitAll]) := by
  constructor
  · cases h : (Sys.initial (Task.new 0 2 1 0)).run scheduleCounted with
    | none => exact absurd h (by decide)
    | some s =>
      have hret : s.ctl = .returned := by
        have hd : ((Sys.initial (Task.new 0 2 1 0)).run scheduleCounted).map (fun s => s.ctl)
            = some .returned := by decide
        rw [h] at hd
        simpa using hd
      exact ⟨s, rfl, hret,
        ((controller_call_sequence 0 2 1 0).1 scheduleCounted s h).2.2.2.2 hret⟩
  · cases h : (Sys.initial (Task.new 0 2 1 0)).run scheduleInterrupted with
    | none => exact absurd h (by decide)
    | some s =>
      have hret : s.ctl = .returned := by
        have hd : ((Sys.initial (Task.new 0 2 1 0)).run scheduleInterrupted).map
            (fun s => s.ctl) = some .returned := by decide
        rw [h] at hd
        simpa using hd
      exact ⟨s, rfl, hret,
        ((controller_call_sequence 0 2 1 0).1 scheduleInterrupted s h).2.2.2.2 hret⟩

/-! ## Theorems: the worker pool and its counter -/

theorem processCalls_pos (i : Nat) (ch : Option Chan) (log : List Event)
    (h : Event.process i ch ∈ log) : 0 < processCalls i log := by
  unfold processCalls
  apply List.length_pos_of_mem (a := Event.process i ch)
  simp [List.mem_filter, h]

theorem WorkerPc.calls_le (w : Option WorkerPc) : WorkerPc.calls w ≤ 1 := by
  rcases w with _ | w
  · simp [WorkerPc.calls]
  · cases w <;> simp [WorkerPc.calls]

/-- Counterexample to C9: with `concurrent = 2^31`, which `init` leaves as it is, the
controller panics in `wg.Add(t.Concurrent)`, the 32-bit counter of the wait group becoming
negative: no worker has been spawned, and no step of the run follows. -/
theorem worker_pool_not_spawned_at_overflow :
    (Task.new 0 0 2147483648 0).init.Concurrent = 2147483648 ∧
    ((Sys.initial (Task.new 0 0 2147483648 0)).run scheduleAdd).map
      (fun s => (s.ctl, s.workers, s.crashed)) =
      some (.addWorkers, [], some "sync: negative WaitGroup counter") ∧
    (∀ s, (Sys.initial (Task.new 0 0 2147483648 0)).run scheduleAdd = some s →
      ∀ l, s.step l = none) := by
  have h2 : ((Sys.initial (Task.new 0 0 2147483648 0)).run scheduleAdd).map
      (fun s => (s.ctl, s.workers, s.crashed)) =
      some (.addWorkers, [], some "sync: negative WaitGroup counter") := by decide
  refine ⟨by decide, h2, ?_⟩
  intro s hs l
  rw [hs] at h2
  simp at h2
  simp [Sys.step, h2.2.2]

/-- C9, amended: with `concurrent = C >= 1` after initialization, and `C`, plus 1 for the rate
limiter, below `2^31`, the range of the counter of the wait group: no run panics; the pool
never holds more than `C` workers, holds exactly `C` once the spawn loop is over, and from
every state the controller's own steps lead to a state past the spawn loop, with exactly `C`
workers; every worker calls `sub.Process` at most once, exactly once as soon as it has left its start, and a
worker at its start can always make the call; every call is made by a spawned worker and
receives the same channel, the paced channel when the rate limiter goroutine exists and the
producer's channel otherwise. -/
theorem worker_pool_spawns_concurrent (d n c r : Int)
    (hC : 1 ≤ (Task.new d n c r).init.Concurrent)
    (hb : (Task.new d n c r).init.Concurrent +
      (if (Task.new d n c r).interval > 0 then 1 else 0) < 2 ^ 31)
    (tr : List SysLabel) (s : Sys)
    (h : (Sys.initial (Task.new d n c r)).run tr = some s) :
    s.crashed = none ∧
    (s.workers.length : Int) ≤ (Task.new d n c r).init.Concurrent ∧
    (7 ≤ s.ctl.stage → (s.workers.length : Int) = (Task.new d n c r).init.Concurrent) ∧
    (∃ s', (Sys.initial (Task.new d n c r)).run (tr ++ List.replicate s.toSelect .ctl) =
        some s' ∧ s'.crashed = none ∧ 8 ≤ s'.ctl.stage ∧
        (s'.workers.length : Int) = (Task.new d n c r).init.Concurrent) ∧
    (∀ i : Nat, processCalls i s.log ≤ 1) ∧
    (∀ (i : Nat) (w : WorkerPc), s.workers[i]? = some w → w ≠ .start →
      processCalls i s.log = 1) ∧
    (∀ i : Nat, s.workers[i]? = some .start →
      ∃ s', s.step (.worker i .call) = some s' ∧ processCalls i s'.log = 1) ∧
    (∀ (i : Nat) (ch : Option Chan), Event.process i ch ∈ s.log →
      i < s.workers.length ∧ ch = some (if s.lim.isSome then Chan.paced else Chan.token)) := by
  have hc : 0 ≤ (Task.new d n c r).Concurrent := by
    have : (Task.new d n c r).Concurrent = c := rfl
    rw [this]
    by_contra hneg
    have h0 : c ≠ 0 := by omega
    have hinit : (Task.new d n c r).init.Concurrent = c := by
      simp [Task.init, Task.new, h0]
    omega
  have hadd : (Task.new d n c r).added < 2 ^ 31 := hb
  have halive := Sys.run_alive _ rfl hc hadd tr s h
  obtain ⟨hctl, hproc, hwg⟩ := Sys.run_inv _ rfl tr s h halive
  have hle := Sys.ctlInv_workers_le _ s hctl (by omega)
  have hpool : ∀ s1 : Sys, s1.CtlInv (Task.new d n c r) → 7 ≤ s1.ctl.stage →
      (s1.workers.length : Int) = (Task.new d n c r).init.Concurrent := by
    intro s1 h1 hst
    have := h1.pool hst
    omega
  refine ⟨halive, ?_, hpool s hctl, ?_, ?_, ?_, ?_, ?_⟩
  · split at hle <;> omega
  · cases hk : s.toSelect with
    | zero =>
      refine ⟨s, by simpa using h, halive, ?_, ?_⟩
      · cases hpc : s.ctl <;> simp [Sys.toSelect, hpc, CtlPc.stage] at hk ⊢
      · apply hpool s hctl
        cases hpc : s.ctl <;> simp [Sys.toSelect, hpc, CtlPc.stage] at hk ⊢
    | succ k =>
      obtain ⟨s', hs', hsel⟩ := Sys.run_reaches_select _ rfl hc hadd k tr s h hk
      have halive' := Sys.run_alive _ rfl hc hadd _ s' hs'
      have hctl' := (Sys.run_inv _ rfl _ s' hs' halive').ctl
      exact ⟨s', hs', halive', by simp [hsel, CtlPc.stage],
        hpool s' hctl' (by simp [hsel, CtlPc.stage])⟩
  · intro i
    rw [hproc.calls i]
    exact WorkerPc.calls_le _
  · intro i w hw hne
    rw [hproc.calls i, hw]
    cases w <;> simp [WorkerPc.calls] at hne ⊢
  · intro i hw
    refine ⟨_, by simp [Sys.step, halive, Sys.workerStep, hw]; rfl, ?_⟩
    have := hproc.calls i
    rw [hw] at this
    simp only [WorkerPc.calls] at this
    rw [processCalls_append, processCalls_process, this]
    simp
  · intro i ch hm
    obtain ⟨hch, hst⟩ := hproc.chan i ch hm
    constructor
    · have hpos := processCalls_pos i ch s.log hm
      rw [hproc.calls i] at hpos
      by_contra hlt
      rw [List.getElem?_eq_none (by omega)] at hpos
      simp [WorkerPc.calls] at hpos
    · rw [hch, hctl.work (by omega), hctl.lim]
      have h5 : 5 ≤ s.ctl.stage := by omega
      by_cases hi : (Task.new d n c r).interval > 0 <;> simp [Task.workerChan, hi, h5]

/-- Witness of C9, amended: three workers, no rate limiter; the pool holds three workers, each has
called `sub.Process` once, and each call received the producer's channel. -/
theorem worker_pool_spawns_concurrent_witness :
    ∃ s, (Sys.initial (Task.new 0 0 3 0)).run schedulePool = some s ∧
      s.crashed = none ∧ (s.workers.length : Int) = 3 ∧
      processCalls 0 s.log = 1 ∧ processCalls 1 s.log = 1 ∧ processCalls 2 s.log = 1 ∧
      (∀ (i : Nat) (ch : Option Chan), Event.process i ch ∈ s.log → ch = some Chan.token) := by
  cases h : (Sys.initial (Task.new 0 0 3 0)).run schedulePool with
  | none => exact absurd h (by decide)
  | some s =>
    have hd : ((Sys.initial (Task.new 0 0 3 0)).run schedulePool).map
        (fun s => (s.ctl, s.workers, s.lim)) =
        some (.select, [.inProcess (some .token), .inProcess (some .token),
          .inProcess (some .token)], none) := by decide
    rw [h] at hd
    simp at hd
    obtain ⟨h1, h2, h3⟩ := hd
    obtain ⟨hal, -, hlen, -, -, hcalls, -, hchan⟩ :=
      worker_pool_spawns_concurrent 0 0 3 0 (by decide) (by decide) schedulePool s h
    have hone : (Task.new 0 0 3 0).init.Concurrent = 3 := by decide
    refine ⟨s, rfl, hal, ?_, ?_, ?_, ?_, ?_⟩
    · rw [hlen (by simp [h1, CtlPc.stage]), hone]
    · exact hcalls 0 (.inProcess (some .token)) (by simp [h2]) (by simp)
    · exact hcalls 1 (.inProcess (some .token)) (by simp [h2]) (by simp)
    · exact hcalls 2 (.inProcess (some .token)) (by simp [h2]) (by simp)
    · intro i ch hm
      rw [(hchan i ch hm).2, h3]
      rfl

/-- Counterexample to C10: with `rate = 1` and `concurrent = 1` the counter is incremented
twice, by `wg.Add(1)` for the rate limiter goroutine and by `wg.Add(t.Concurrent)`, so the
total added is 2; when the only worker has returned and called `wg.Done()` the counter is 1,
not 0, the limiter's `wg.Done()` being still to come. The counter has 32 bits: with
`concurrent = 2^31` the call `wg.Add(t.Concurrent)` leaves it at `-2^31` and panics, and with
`concurrent = -2^32` it leaves the counter at 0 without a panic, the total added being
`-2^32`. -/
theorem limiter_counted_in_wait_group :
    ((Sys.initial (Task.new 0 0 1 1)).run schedulePaced).map
      (fun s => (s.crashed, s.t.Concurrent, totalAdded s.log, s.workers, s.t.wg)) =
      some (none, 1, 2, [.exited], 1) ∧
    ((Sys.initial (Task.new 0 0 2147483648 0)).run scheduleAdd).map
      (fun s => (s.crashed, s.t.Concurrent, s.t.wg)) =
      some (some "sync: negative WaitGroup counter", 2147483648, -2147483648) ∧
    ((Sys.initial (Task.new 0 0 (-4294967296) 0)).run scheduleAdd).map
      (fun s => (s.crashed, totalAdded s.log, totalDone s.log, s.t.wg)) =
      some (none, -4294967296, 0, 0) :=
  ⟨by decide, by decide, by decide⟩

/-- C10, amended: for `concurrent` and `concurrent` plus 1 for the rate limiter within the
range of the 32-bit counter, as long as the process is alive (it always is when moreover
`concurrent >= 0`) the counter is the total added minus the number of `wg.Done` calls; once
`wg.Add(t.Concurrent)` has run the total added is `concurrent`, plus 1 when the rate limiter
goroutine exists; every `wg.Done` is that of a returned worker or of the returned limiter; and
with `concurrent >= 0`, once the pool is spawned, the counter is zero exactly when every worker
and the limiter, if there is one, have returned. -/
theorem wait_group_counter (d n c r : Int) (hlo : -(2 ^ 31) ≤ c)
    (hb : c + (if (Task.new d n c r).interval > 0 then 1 else 0) < 2 ^ 31)
    (tr : List SysLabel) (s : Sys)
    (h : (Sys.initial (Task.new d n c r)).run tr = some s) :
    (0 ≤ c → s.crashed = none) ∧
    (s.crashed = none →
      s.t.wg = totalAdded s.log - totalDone s.log ∧
      (6 ≤ s.ctl.stage → totalAdded s.log =
        (Task.new d n c r).init.Concurrent + (if s.lim.isSome then 1 else 0)) ∧
      totalDone s.log = s.workers.count .exited +
        (if s.lim.map (fun m => m.pc) = some .exited then 1 else 0) ∧
      (0 ≤ c → 7 ≤ s.ctl.stage →
        (s.t.wg = 0 ↔ (∀ w ∈ s.workers, w = .exited) ∧
          ∀ m, s.lim = some m → m.pc = .exited))) := by
  have hfit := Task.fits_new d n c r hlo hb
  constructor
  · intro hc
    exact Sys.run_alive _ rfl hc hfit.2 tr s h
  · intro halive
    have hinv := Sys.run_inv _ rfl tr s h halive
    have hwgeq := Sys.inv_wg_eq _ s (hinv.wg hfit)
    obtain ⟨hctl, -, hwi⟩ := hinv
    obtain ⟨-, h1, h2, h3⟩ := hwi hfit
    refine ⟨h1, ?_, h3, ?_⟩
    · intro hst
      rw [h2]
      simp [hst]
    · intro hc hst
      have hC := Task.init_concurrent_pos (Task.new d n c r) hc
      have hlen := hctl.pool hst
      have hcnt := List.count_le_length WorkerPc.exited s.workers
      have h6 : 6 ≤ s.ctl.stage := by omega
      simp only [h6, if_true] at hwgeq
      have hall : s.workers.count .exited = s.workers.length ↔ ∀ w ∈ s.workers, w = .exited := by
        rw [List.count_eq_length]
        constructor
        · intro hh w hw; exact (hh w hw).symm
        · intro hh w hw; exact (hh w hw).symm
      rw [← hall]
      cases hl : s.lim with
      | none =>
        simp [hl] at hwgeq ⊢
        omega
      | some m =>
        by_cases hm : m.pc = .exited <;> simp [hl, hm] at hwgeq ⊢ <;> omega

/-- Witness of C10, amended: the state in which the worker has returned and the limiter has
not: the counter is 1 and the total added is 2. -/
theorem wait_group_counter_witness :
    ∃ s, (Sys.initial (Task.new 0 0 1 1)).run schedulePaced = some s ∧
      s.t.wg = totalAdded s.log - totalDone s.log ∧
      (s.t.wg = 0 ↔ (∀ w ∈ s.workers, w = .exited) ∧ ∀ m, s.lim = some m → m.pc = .exited) := by
  cases h : (Sys.initial (Task.new 0 0 1 1)).run schedulePaced with
  | none => exact absurd h (by decide)
  | some s =>
    have hd : ((Sys.initial (Task.new 0 0 1 1)).run schedulePaced).map
        (fun s => (s.ctl, s.crashed)) = some (.select, none) := by decide
    rw [h] at hd
    simp at hd
    obtain ⟨h1, h2⟩ := hd
    obtain ⟨-, hw⟩ := wait_group_counter 0 0 1 1 (by decide) (by decide) schedulePaced s h
    obtain ⟨a, -, -, b⟩ := hw h2
    exact ⟨s, rfl, a, b (by decide) (by simp [h1, CtlPc.stage])⟩

/-! ## Theorems: the rate limiter stage -/

theorem Task.interval_pos_iff (t : Task) : t.interval > 0 ↔ 0 < t.Rate ∧ t.Rate ≤ second := by
  unfold Task.interval
  by_cases h : t.Rate > 0
  · simp only [h, if_true, true_and]
    rw [Int.tdiv_eq_ediv (by decide) (by omega)]
    constructor
    · intro hpos
      by_contra hgt
      have : second / t.Rate = 0 := Int.ediv_eq_zero_of_lt (by decide) (by omega)
      omega
    · intro hle
      have : second / t.Rate ≥ 1 := by
        have := Int.ediv_le_ediv (a := t.Rate) (b := second) (c := t.Rate) h hle
        rw [Int.ediv_self (by omega)] at this
        exact this
      omega
  · simp [h]

/-- Counterexample to C11: with `rate = 1000000001 > 0` the interval `10^9 / rate` is 0, no rate
limiter goroutine is started, and the worker's `sub.Process` is given the producer's channel. -/
theorem limiter_off_at_high_rate :
    ((Sys.initial (Task.new 0 1 1 1000000001)).run scheduleStart).map
      (fun s => (s.crashed, s.t.Rate, s.interval)) = some (none, 1000000001, 0) ∧
    ((Sys.initial (Task.new 0 1 1 1000000001)).run scheduleStart).map
      (fun s => (s.lim, s.work)) = some (none, some .token) ∧
    ((Sys.initial (Task.new 0 1 1 1000000001)).run scheduleStart).map
      (fun s => (s.workers, s.log)) =
      some ([.inProcess (some .token)],
        [.subInit, .startProducer, .wgAdd 1, .process 0 (some .token)]) := by
  decide

/-- C11, amended: the rate limiter stage is active exactly when the interval `10^9 / rate` is
positive, that is when `0 < rate <= 10^9`: in every state of a run past the limiter stage in
which the process is alive, the limiter goroutine exists exactly for these rates, the channel
the workers are given is the paced channel for these rates and the producer's channel for all
others, and every call of `sub.Process` made so far received that channel. -/
theorem limiter_active_iff (d n c r : Int) (tr : List SysLabel) (s : Sys)
    (h : (Sys.initial (Task.new d n c r)).run tr = some s) (hc : s.crashed = none)
    (hst : 5 ≤ s.ctl.stage) :
    (s.lim.isSome = true ↔ 0 < r ∧ r ≤ 1000000000) ∧
    (0 < r ∧ r ≤ 1000000000 → s.work = some .paced) ∧
    (¬ (0 < r ∧ r ≤ 1000000000) → s.work = some .token) ∧
    (r ≤ 0 → s.lim = none ∧ s.work = some .token) ∧
    (∀ (i : Nat) (ch : Option Chan), Event.process i ch ∈ s.log → ch = s.work) := by
  obtain ⟨hctl, hproc, -⟩ := Sys.run_inv _ rfl tr s h hc
  have hiff := Task.interval_pos_iff (Task.new d n c r)
  have hr : (Task.new d n c r).Rate = r := rfl
  rw [hr] at hiff
  have hs : second = 1000000000 := rfl
  rw [hs] at hiff
  have hlim := hctl.lim
  have hwork := hctl.work hst
  simp only [hst, true_and] at hlim
  refine ⟨?_, ?_, ?_, ?_, ?_⟩
  · rw [hlim]
    simp only [decide_eq_true_eq]
    exact hiff
  · intro hr'
    rw [hwork]
    simp [Task.workerChan, hiff.mpr hr']
  · intro hr'
    rw [hwork]
    have : ¬ (Task.new d n c r).interval > 0 := fun hp => hr' (hiff.mp hp)
    simp [Task.workerChan, this]
  · intro hr'
    have hn : ¬ (Task.new d n c r).interval > 0 := fun hp => by
      have := (hiff.mp hp).1
      omega
    constructor
    · have : s.lim.isSome = false := by rw [hlim]; simp [hn]
      simpa using this
    · rw [hwork]
      simp [Task.workerChan, hn]
  · intro i ch hm
    exact (hproc.chan i ch hm).1

/-- Witness of C11, amended: `rate = 1`, one worker behind the limiter. -/
theorem limiter_active_iff_witness :
    ∃ s, (Sys.initial (Task.new 0 0 1 1)).run schedulePaced = some s ∧
      s.lim.isSome = true ∧ s.work = some .paced := by
  cases h : (Sys.initial (Task.new 0 0 1 1)).run schedulePaced with
  | none => exact absurd h (by decide)
  | some s =>
    have hd : ((Sys.initial (Task.new 0 0 1 1)).run schedulePaced).map
        (fun s => (s.ctl, s.crashed)) = some (.select, none) := by decide
    rw [h] at hd
    simp at hd
    obtain ⟨h1, h2⟩ := hd
    obtain ⟨a, b, -⟩ := limiter_active_iff 0 0 1 1 schedulePaced s h h2
      (by simp [h1, CtlPc.stage])
    exact ⟨s, rfl, a.mpr (by decide), b (by decide)⟩

/-! ## Theorems: the fatal conditions -/

/-- C14: `Task.producer` panics exactly when the task is not initialized; when it panics, no
producer goroutine exists, so nothing is sent on the token channel and it is not closed: the
process is dead with the producer, the channel state and the log as before the call. -/
theorem producer_panics_iff_uninitialized (t : Task) :
    ((∃ msg, t.producer = .error msg) ↔ t.ok = false) ∧
    (t.ok = false → t.producer = .error "task must be init") ∧
    (t.ok = false →
      ∃ s', (Sys.atProducer t).step .ctl = some s' ∧
        s'.crashed = some "task must be init" ∧ s'.prod = none ∧ s'.tokenClosed = false ∧
        s'.log = [] ∧ ∀ l, s'.step l = none) := by
  have hpanic : t.ok = false → t.producer = .error "task must be init" := by
    intro h
    simp [Task.producer, h]
  refine ⟨?_, hpanic, ?_⟩
  · constructor
    · rintro ⟨msg, hm⟩
      cases hok : t.ok with
      | false => rfl
      | true =>
        simp [Task.producer, hok] at hm
        split at hm <;> simp at hm
    · intro h
      exact ⟨_, hpanic h⟩
  · intro h
    refine ⟨{ Sys.atProducer t with crashed := some "task must be init" }, ?_, rfl, rfl, rfl, rfl,
      ?_⟩
    · simp [Sys.step, Sys.ctlStep, Sys.atProducer, Sys.initial, hpanic h]
    · intro l
      simp [Sys.step]

/-- Witness of C14: a task as the caller constructs it. -/
theorem producer_panics_iff_uninitialized_witness :
    (Task.new 0 3 1 0).producer = .error "task must be init" ∧
    (Task.new 0 3 1 0).init.producer = .ok { pc := .switch, tkC := none } :=
  ⟨(producer_panics_iff_uninitialized (Task.new 0 3 1 0)).2.1 (by decide), by decide⟩

/-- Counterexample to C15: `Run` on the configuration `concurrent = -1` (no rate, no duration)
initializes, starts the producer and then panics in `wg.Add(t.Concurrent)`, the counter
becoming `-1`; on `concurrent = 2^31` it panics in the same call, the 32-bit counter becoming
`-2^31`. -/
theorem run_panics_on_negative_concurrent :
    ((Sys.initial (Task.new 0 0 (-1) 0)).run scheduleAdd).map
      (fun s => (s.t.ok, s.t.Concurrent, s.t.wg, s.ctl, s.crashed)) =
      some (true, -1, -1, .addWorkers, some "sync: negative WaitGroup counter") ∧
    ((Sys.initial (Task.new 0 0 2147483648 0)).run scheduleAdd).map
      (fun s => (s.t.ok, s.t.Concurrent, s.t.wg, s.ctl, s.crashed)) =
      some (true, 2147483648, -2147483648, .addWorkers,
        some "sync: negative WaitGroup counter") :=
  ⟨by decide, by decide⟩

/-- C15, amended: for every configuration with `concurrent >= 0` and `concurrent`, plus 1 when
the rate limiter is active, below `2^31`, whatever the duration, the number and the rate, no
state of a run of `Run` is a panic, the producer is started on an initialized task, and the
counter of the wait group is never negative. -/
theorem run_never_aborts (d n c r : Int) (hc : 0 ≤ c)
    (hb : c + (if (Task.new d n c r).interval > 0 then 1 else 0) < 2 ^ 31)
    (tr : List SysLabel) (s : Sys)
    (h : (Sys.initial (Task.new d n c r)).run tr = some s) :
    s.crashed = none ∧ 0 ≤ s.t.wg ∧ (s.ctl = .producer → s.t.ok = true) := by
  have hfit := Task.fits_new d n c r (by omega) hb
  have halive := Sys.run_alive _ rfl hc hfit.2 tr s h
  have hinv := Sys.run_inv _ rfl tr s h halive
  refine ⟨halive, (hinv.wg hfit).range.1, ?_⟩
  intro hctl
  have := (hinv.ctl.cfg (by simp [hctl])).2.2.2.2.2
  rw [this]
  exact Task.init_ok _

/-- Witness of C15, amended: the run of `schedulePaced`. -/
theorem run_never_aborts_witness :
    ∃ s, (Sys.initial (Task.new 0 0 1 1)).run schedulePaced = some s ∧
      s.crashed = none ∧ 0 ≤ s.t.wg := by
  cases h : (Sys.initial (Task.new 0 0 1 1)).run schedulePaced with
  | none => exact absurd h (by decide)
  | some s =>
    obtain ⟨a, b, -⟩ := run_never_aborts 0 0 1 1 (by decide) (by decide) schedulePaced s h
    exact ⟨s, rfl, a, b⟩

/-! ## Theorems: the rate limiter loop -/

theorem Limiter.run_snoc (m : Limiter) (xs ys : List LimLabel) :
    m.run (xs ++ ys) = (m.run xs).bind fun m' => m'.run ys := by
  induction xs generalizing m with
  | nil => rfl
  | cons x xs ih =>
    simp only [List.cons_append, Limiter.run]
    cases m.step x with
    | none => rfl
    | some m' => exact ih m'

theorem Limiter.loopInv_step (tr : List LimLabel) (m m' : Limiter) (l : LimLabel)
    (hi : Limiter.LoopInv tr m) (h : m.step l = some m') : Limiter.LoopInv (tr ++ [l]) m' := by
  obtain ⟨h1, h2, h3, h4, h5, h6⟩ := hi
  obtain ⟨pc, n⟩ := m
  cases l <;> cases pc <;> simp [Limiter.step] at h <;> subst h <;>
    constructor <;> simp_all [List.count_append] <;> omega

theorem Limiter.run_loopInv (tr : List LimLabel) :
    ∀ m : Limiter, Limiter.initial.run tr = some m → Limiter.LoopInv tr m := by
  induction tr using List.reverseRecOn with
  | nil =>
    intro m h
    simp [Limiter.run] at h
    subst h
    constructor <;> simp [Limiter.initial]
  | append_singleton xs x ih =>
    intro m h
    rw [Limiter.run_snoc] at h
    cases hxs : Limiter.initial.run xs with
    | none => simp [hxs] at h
    | some m1 =>
      simp only [hxs, Option.some_bind, Limiter.run] at h
      cases hstep : m1.step x with
      | none => simp [hstep] at h
      | some m2 =>
        simp [hstep] at h
        subst h
        exact Limiter.loopInv_step xs m1 m2 x (ih m1 hxs) hstep

theorem Limiter.run_after_closure (post : List LimLabel) (m m' : Limiter)
    (hpc : m.pc = .deferClose) (h : m.run post = some m') : post <+: [.close, .done] := by
  obtain ⟨pc, n⟩ := m
  simp only at hpc
  subst hpc
  match post, h with
  | [], _ => simp
  | [l], h =>
    cases l <;> simp [Limiter.run, Limiter.step] at h
    exact ⟨[.done], rfl⟩
  | [l1, l2], h =>
    cases l1 <;> simp [Limiter.run, Limiter.step] at h
    cases l2 <;> simp [Limiter.run, Limiter.step] at h
    exact ⟨[], rfl⟩
  | l1 :: l2 :: l3 :: rest, h =>
    exfalso
    cases l1 <;> simp [Limiter.run, Limiter.step] at h
    cases l2 <;> simp [Limiter.run, Limiter.step] at h
    cases l3 <;> simp [Limiter.run, Limiter.step] at h

theorem Sys.blocked_worker (m : Limiter) (s : Sys) (hb : s.Blocked m) (i : Nat) (w : WorkerPc)
    (hw : s.workers[i]? = some w) : w = .exited := by
  obtain ⟨-, -, -, h4, -⟩ := hb
  obtain ⟨hlt, hget⟩ := List.getElem?_eq_some.mp hw
  rw [← hget]
  exact h4 _ (List.getElem_mem _)

theorem Sys.blocked_step (m : Limiter) (s s' : Sys) (l : SysLabel) (hb : s.Blocked m)
    (h : s.step l = some s') : s'.Blocked m := by
  have hbw := Sys.blocked_worker m s hb
  obtain ⟨h1, h2, h3, h4, h5⟩ := hb
  have hm : ∀ (l : LimLabel) (m' : Limiter), m.step l = some m' → l = .send := by
    intro l m' hs
    obtain ⟨pc, k⟩ := m
    simp only at h2
    subst h2
    cases l <;> simp [Limiter.step] at hs ⊢
  cases hc : s'.crashed with
  | some msg =>
    exfalso
    obtain ⟨-, hcause⟩ := Sys.step_crash s s' l msg h hc
    rcases hcause with ⟨-, hctl, -⟩ | ⟨-, hctl, -⟩ | ⟨-, hctl, -⟩ | ⟨i, -, hw, -⟩ |
      ⟨m1, -, hm1, hpc, -⟩
    · simp [hctl, CtlPc.stage] at h5
    · simp [hctl, CtlPc.stage] at h5
    · simp [hctl, CtlPc.stage] at h5
    · exact absurd (hbw i _ hw) (by simp)
    · rw [h1] at hm1
      simp at hm1
      subst hm1
      rw [h2] at hpc
      exact absurd hpc (by simp)
  | none =>
    obtain ⟨-, htr⟩ := Sys.step_trans s s' l h hc
    cases htr
    case init hctl => simp [hctl, CtlPc.stage] at h5
    case subInit hctl => simp [hctl, CtlPc.stage] at h5
    case producer hctl _ => simp [hctl, CtlPc.stage] at h5
    case setup hctl => simp [hctl, CtlPc.stage] at h5
    case limiterOn hctl _ _ => simp [hctl, CtlPc.stage] at h5
    case limiterOff hctl _ => simp [hctl, CtlPc.stage] at h5
    case addWorkers hctl _ => simp [hctl, CtlPc.stage] at h5
    case spawn hctl _ => simp [hctl, CtlPc.stage] at h5
    case spawnEnd hctl _ => simp [hctl, CtlPc.stage] at h5
    case goWaiter hctl => simp [hctl, CtlPc.stage] at h5
    case cancel a hctl => exact ⟨h1, h2, h3, h4, by simp [CtlPc.stage]⟩
    case waitAll a hctl => exact ⟨h1, h2, h3, h4, by simp [CtlPc.stage]⟩
    case sigint => exact ⟨h1, h2, h3, h4, h5⟩
    case selSig hctl hsig => exact ⟨h1, h2, h3, h4, by simp [CtlPc.stage]⟩
    case selAllDone hctl hsig => exact ⟨h1, h2, h3, h4, by simp [CtlPc.stage]⟩
    case prod => exact ⟨h1, h2, h3, h4, h5⟩
    case sendLim p p' m1 m' hp hs hm1 hm' =>
      rw [h1] at hm1
      simp at hm1
      subst hm1
      exact absurd (hm _ _ hm') (by simp)
    case sendWorker i p p' hw hp hs => exact absurd (hbw i _ hw) (by simp)
    case limTau l1 m1 m' hm1 hm' hl =>
      rw [h1] at hm1
      simp at hm1
      subst hm1
      have := hm _ _ hm'
      rcases hl with hl | ⟨hl, -⟩ | ⟨hl, -⟩ <;> rw [hl] at this <;> simp at this
    case limSend m1 m' hm1 hm' hbuf => omega
    case limClose m1 m' hm1 hm' =>
      rw [h1] at hm1
      simp at hm1
      subst hm1
      exact absurd (hm _ _ hm') (by simp)
    case limDone m1 m' hm1 hm' _ =>
      rw [h1] at hm1
      simp at hm1
      subst hm1
      exact absurd (hm _ _ hm') (by simp)
    case workerCall i hw => exact absurd (hbw i _ hw) (by simp)
    case workerRecv i hw _ => exact absurd (hbw i _ hw) (by simp)
    case workerRet i ch hw => exact absurd (hbw i _ hw) (by simp)
    case workerDone i hw _ => exact absurd (hbw i _ hw) (by simp)
    case waiterWait => exact ⟨h1, h2, h3, h4, h5⟩
    case waiterClose => exact ⟨h1, h2, h3, h4, h5⟩

/-- Once blocked, the rate limiter stays blocked in every continuation of the run. -/
theorem Sys.blocked_run (m : Limiter) (tr : List SysLabel) (s s' : Sys) (hb : s.Blocked m)
    (h : s.run tr = some s') : s'.Blocked m :=
  Sys.run_induction (fun s => s.Blocked m)
    (fun s s' l hs hstep => Sys.blocked_step m s s' l hs hstep) tr s s' hb h

/-- In a run of the system the rate limiter goroutine is in a state of its loop: one that
`Limiter.run` reaches from the loop head. -/
theorem Sys.run_lim (t0 : Task) (tr : List SysLabel) (s : Sys)
    (h : (Sys.initial t0).run tr = some s) (hc : s.crashed = none) (m : Limiter)
    (hm : s.lim = some m) : ∃ ltr : List LimLabel, Limiter.initial.run ltr = some m := by
  refine Sys.run_induction
    (fun s => s.crashed = none → ∀ m, s.lim = some m →
      ∃ ltr : List LimLabel, Limiter.initial.run ltr = some m) ?_ tr _ s ?_ h hc m hm
  · intro s s' l hs hstep hc' m' hm'
    obtain ⟨hc0, htr⟩ := Sys.step_trans s s' l hstep hc'
    have hs0 := hs hc0
    have ext : ∀ (m1 m2 : Limiter) (l1 : LimLabel), s.lim = some m1 → m1.step l1 = some m2 →
        ∃ ltr : List LimLabel, Limiter.initial.run ltr = some m2 := by
      intro m1 m2 l1 h1 h2
      obtain ⟨ltr, hl⟩ := hs0 m1 h1
      refine ⟨ltr ++ [l1], ?_⟩
      rw [Limiter.run_snoc, hl]
      simp [Limiter.run, h2]
    cases htr
    case limiterOn =>
      simp at hm'
      subst hm'
      exact ⟨[], rfl⟩
    case sendLim p p' m1 m2 hp hsd h1 h2 =>
      simp at hm'
      subst hm'
      exact ext m1 _ _ h1 h2
    case limTau l1 m1 m2 h1 h2 hl =>
      simp at hm'
      subst hm'
      exact ext m1 _ _ h1 h2
    case limSend m1 m2 h1 h2 hb =>
      simp at hm'
      subst hm'
      exact ext m1 _ _ h1 h2
    case limClose m1 m2 h1 h2 =>
      simp at hm'
      subst hm'
      exact ext m1 _ _ h1 h2
    case limDone m1 m2 h1 h2 hw =>
      simp at hm'
      subst hm'
      exact ext m1 _ _ h1 h2
    all_goals exact hs0 m' hm'
  · intro _ m' hm'
    simp [Sys.initial] at hm'

theorem Sys.lim_send_enabled (s : Sys) (m : Limiter) (hc : s.crashed = none)
    (hm : s.lim = some m) (hpc : m.pc = .send) :
    (∃ s', s.step (.lim .send) = some s') ↔ s.pacedBuf < 1 := by
  simp only [Sys.step, hc, Option.isSome_none, Bool.false_eq_true, if_false, Sys.limStep, hm,
    Limiter.step, hpc, if_true]
  by_cases hb : s.pacedBuf < 1 <;> simp [hb]

/-- Counterexample to C18: after `sleep` and the receive of a token the goroutine has received
one token and sent none. In the system, with `rate = 1`, `number = 2` and one worker, the run
of `scheduleBlocked` leaves the limiter at its send with a second token received, the buffer of
the paced channel full and the only worker returned; in every continuation of that run the
limiter is still there and its send is not enabled, so the token received is never
forwarded. -/
theorem limiter_holds_received_token :
    (Limiter.initial.run [.sleep, .recvTok] = some { pc := .send, count := 0 } ∧
      [LimLabel.sleep, .recvTok].count .recvTok = 1 ∧
      [LimLabel.sleep, .recvTok].count .send = 0) ∧
    ((Sys.initial (Task.new 0 2 1 1)).run scheduleBlocked).map
      (fun s => (s.crashed, s.lim, s.pacedBuf)) =
      some (none, some { pc := .send, count := 1 }, 1) ∧
    ((Sys.initial (Task.new 0 2 1 1)).run scheduleBlocked).map
      (fun s => (s.workers, s.ctl)) = some ([.exited], .select) ∧
    (∀ (tr : List SysLabel) (s s' : Sys),
      (Sys.initial (Task.new 0 2 1 1)).run scheduleBlocked = some s → s.run tr = some s' →
      s'.lim = some { pc := .send, count := 1 } ∧ s'.pacedBuf = 1 ∧
      s'.step (.lim .send) = none) := by
  have ha : ((Sys.initial (Task.new 0 2 1 1)).run scheduleBlocked).map
      (fun s => (s.crashed, s.lim, s.pacedBuf)) =
      some (none, some { pc := .send, count := 1 }, 1) := by decide
  have hb : ((Sys.initial (Task.new 0 2 1 1)).run scheduleBlocked).map
      (fun s => (s.workers, s.ctl)) = some ([.exited], .select) := by decide
  refine ⟨⟨by decide, by decide, by decide⟩, ha, hb, ?_⟩
  intro tr s s' hs hrun
  rw [hs] at ha hb
  simp at ha hb
  have hbl : s.Blocked { pc := .send, count := 1 } :=
    ⟨ha.2.1, rfl, ha.2.2, by simp [hb.1], by simp [hb.2, CtlPc.stage]⟩
  obtain ⟨h1, h2, h3, -, -⟩ := Sys.blocked_run _ tr s s' hbl hrun
  refine ⟨h1, h3, ?_⟩
  cases hst : s'.step (.lim .send) with
  | none => rfl
  | some s2 =>
    exfalso
    cases hc : s2.crashed with
    | some msg =>
      obtain ⟨-, hcause⟩ := Sys.step_crash s' s2 _ msg hst hc
      rcases hcause with ⟨h, -⟩ | ⟨h, -⟩ | ⟨h, -⟩ | ⟨i, h, -⟩ | ⟨m1, h, -⟩ <;> simp at h
    | none =>
      obtain ⟨-, htr⟩ := Sys.step_trans s' s2 _ hst hc
      cases htr
      case limTau hl => simp at hl
      case limSend hbuf => omega

/-- C18, amended: after any labels `tr` of the rate limiter goroutine, started at its loop head
with `count = 0`: the number of sends on the paced channel is `count`; the iterations that took
the receive or the `default` arm are the sends made plus the one send that is pending, so each
such iteration has exactly one forward, whether or not it received a token; at the loop head
and after the loop the tokens received are at most the tokens sent, and in between a received
token is at most one ahead; after a receive the send is the only step of the goroutine, and in
the system that send is enabled exactly when the buffer of the paced channel has room; the
goroutine has left its loop exactly when it observed the closure; after that observation it
only closes the paced channel and calls `wg.Done()`, so it forwards nothing; the paced channel
is closed at most once, and exactly once when the goroutine has returned. Every state of the
goroutine in a run of the system is one of these states. -/
theorem limiter_loop_forwards (tr : List LimLabel) (m : Limiter)
    (h : Limiter.initial.run tr = some m) :
    (tr.count .send : Int) = m.count ∧
    tr.count .recvTok + tr.count .dflt = tr.count .send + (if m.pc = .send then 1 else 0) ∧
    (m.pc ≠ .send → tr.count .recvTok ≤ tr.count .send) ∧
    tr.count .recvTok ≤ tr.count .send + 1 ∧
    (m.pc = .send → ∀ (l : LimLabel) (m' : Limiter), m.step l = some m' → l = .send) ∧
    (m.pc = .send → ∀ s : Sys, s.crashed = none → s.lim = some m →
      ((∃ s', s.step (.lim .send) = some s') ↔ s.pacedBuf < 1)) ∧
    ((m.pc = .deferClose ∨ m.pc = .deferDone ∨ m.pc = .exited) ↔ LimLabel.recvClosed ∈ tr) ∧
    (∀ pre post : List LimLabel, tr = pre ++ .recvClosed :: post → post <+: [.close, .done]) ∧
    tr.count .close ≤ 1 ∧
    (m.pc = .exited → tr.count .close = 1) ∧
    (m.pc = .deferClose → m.step .close = some { m with pc := .deferDone }) ∧
    (∀ (t0 : Task) (str : List SysLabel) (s : Sys) (m' : Limiter),
      (Sys.initial t0).run str = some s → s.crashed = none → s.lim = some m' →
      ∃ ltr : List LimLabel, Limiter.initial.run ltr = some m') := by
  obtain ⟨h1, h2, h3, h4, h5, h6⟩ := Limiter.run_loopInv tr m h
  refine ⟨h1, h2, ?_, ?_, ?_, ?_, ?_, ?_, ?_, ?_, ?_, ?_⟩
  · intro hne
    simp only [hne, if_false] at h2
    omega
  · split at h2 <;> omega
  · intro hpc l m' hstep
    obtain ⟨pc, n⟩ := m
    simp only at hpc
    subst hpc
    cases l <;> simp [Limiter.step] at hstep ⊢
  · intro hpc s hc hm
    exact Sys.lim_send_enabled s m hc hm hpc
  · constructor
    · intro hs
      have : tr.count .recvClosed = 1 := by rw [h4]; simp [hs]
      exact List.count_pos_iff.mp (by omega)
    · intro hmem
      have hpos := List.count_pos_iff.mpr hmem
      by_contra hs
      rw [h4] at hpos
      simp [hs] at hpos
  · intro pre post htr
    subst htr
    rw [Limiter.run_snoc] at h
    cases hpre : Limiter.initial.run pre with
    | none => simp [hpre] at h
    | some m1 =>
      simp only [hpre, Option.some_bind, Limiter.run] at h
      cases hstep : m1.step .recvClosed with
      | none => simp [hstep] at h
      | some m2 =>
        simp only [hstep] at h
        have hpc : m2.pc = .deferClose := by
          obtain ⟨pc, n⟩ := m1
          cases pc <;> simp [Limiter.step] at hstep
          subst hstep
          rfl
        exact Limiter.run_after_closure post m2 m hpc h
  · rw [h5]
    split <;> omega
  · intro hpc
    rw [h5]
    simp [hpc]
  · intro hpc
    simp [Limiter.step, hpc]
  · intro t0 str s m' hrun hc hm
    exact Sys.run_lim t0 str s hrun hc m' hm

/-- Witness of C18, amended: two iterations, the first with a token received, the second without, then
the closure. -/
theorem limiter_loop_forwards_witness :
    (List.count LimLabel.send
      [.sleep, .recvTok, .send, .sleep, .dflt, .send, .sleep, .recvClosed, .close, .done] : Int)
      = (Limiter.mk .exited 2).count ∧
    List.count LimLabel.close
      [.sleep, .recvTok, .send, .sleep, .dflt, .send, .sleep, .recvClosed, .close, .done] ≤ 1 :=
  ⟨(limiter_loop_forwards
      [.sleep, .recvTok, .send, .sleep, .dflt, .send, .sleep, .recvClosed, .close, .done]
      { pc := .exited, count := 2 } (by decide)).1,
   (limiter_loop_forwards
      [.sleep, .recvTok, .send, .sleep, .dflt, .send, .sleep, .recvClosed, .close, .done]
      { pc := .exited, count := 2 } (by decide)).2.2.2.2.2.2.2.2.1⟩

/-! ## Theorems: the pacing schedule -/

theorem wrap64_of_range (x : Int) (h0 : 0 ≤ x) (h1 : x < 2 ^ 63) : wrap64 x = x := by
  unfold wrap64
  omega

theorem Task.interval_eq (t : Task) (h : 0 < t.Rate) : t.interval = second / t.Rate := by
  unfold Task.interval
  simp only [gt_iff_lt, h, if_true]
  exact Int.tdiv_eq_ediv (by decide) (by omega)

theorem Task.interval_nonneg (t : Task) : 0 ≤ t.interval := by
  unfold Task.interval
  split
  · exact Int.tdiv_nonneg (by decide) (by omega)
  · omega

theorem Limiter.next_eq (begin interval : Int) (m : Limiter) (h0 : 0 ≤ m.count)
    (hi : 0 ≤ interval) (h : m.count * interval < 2 ^ 63) :
    Limiter.next begin interval m = begin + m.count * interval := by
  unfold Limiter.next
  rw [wrap64_of_range _ (Int.mul_nonneg h0 hi) h]

/-- C12: for every rate `R > 0` the pacing interval is `10^9 / R` rounded down, and for every
forwarded count `k >= 0` with `k * interval` within the 64-bit range the target of the `k`-th
forward is `begin + k * interval`: this holds at every program point with `count = k`, hence
after every run of the goroutine with `k` sends, whatever else happened in it; and the next
target is exactly `interval` later. -/
theorem pacing_target (d n c R : Int) (hR : 0 < R) (begin : Int) (k : Nat)
    (hrange : (k : Int) * (Task.new d n c R).interval < 2 ^ 63) :
    (Task.new d n c R).interval = 1000000000 / R ∧
    (∀ pc : LimPc, Limiter.next begin (Task.new d n c R).interval { pc := pc, count := k }
      = begin + k * (Task.new d n c R).interval) ∧
    (∀ (tr : List LimLabel) (m : Limiter), Limiter.initial.run tr = some m →
      tr.count .send = k →
      Limiter.next begin (Task.new d n c R).interval m
        = begin + k * (Task.new d n c R).interval) ∧
    (((k : Int) + 1) * (Task.new d n c R).interval < 2 ^ 63 →
      ∀ pc pc' : LimPc,
        Limiter.next begin (Task.new d n c R).interval { pc := pc', count := k + 1 }
          - Limiter.next begin (Task.new d n c R).interval { pc := pc, count := k }
          = (Task.new d n c R).interval) := by
  have hI := Task.interval_nonneg (Task.new d n c R)
  refine ⟨Task.interval_eq _ hR, ?_, ?_, ?_⟩
  · intro pc
    exact Limiter.next_eq begin _ _ (by simp) hI hrange
  · intro tr m hrun hk
    have hcount := (Limiter.run_loopInv tr m hrun).sent
    rw [hk] at hcount
    rw [Limiter.next_eq begin _ m (by omega) hI (by rw [← hcount]; exact hrange), ← hcount]
  · intro hrange' pc pc'
    rw [Limiter.next_eq begin _ { pc := pc, count := k } (by simp) hI hrange,
      Limiter.next_eq begin _ { pc := pc', count := k + 1 }
        (by show (0 : Int) ≤ k + 1; omega) hI hrange']
    simp only
    ring

/-- Witness of C12: `rate = 10`, third forward. -/
theorem pacing_target_witness :
    (Task.new 0 0 1 10).interval = 1000000000 / 10 ∧
    Limiter.next 0 (Task.new 0 0 1 10).interval { pc := .sleep, count := (3 : Nat) }
      = 0 + (3 : Nat) * (Task.new 0 0 1 10).interval :=
  ⟨(pacing_target 0 0 1 10 (by decide) 0 3 (by decide)).1,
   (pacing_target 0 0 1 10 (by decide) 0 3 (by decide)).2.1 .sleep⟩

/-- Counterexample to C13: with `rate = 300000` the interval is `3333` ns, and the targets of
the counts `0` to `300001`, which are `300002` targets, all fall before `begin + 1 s`, while
`rate * duration = 300000`. With `rate = 1000000001` the interval is `0` and every target is
`begin` itself. -/
theorem pacing_targets_exceed_rate :
    (Task.new 1000000000 0 1 300000).interval = 3333 ∧
    Limiter.next 0 3333 { pc := .sleep, count := 300001 } < 0 + 1 * second ∧
    (∀ k : Nat, k ≤ 300001 →
      Limiter.next 0 3333 { pc := .sleep, count := k } < 0 + 1 * second) ∧
    (Task.new 1000000000 0 1 1000000001).interval = 0 ∧
    (∀ k : Nat, Limiter.next 0 (Task.new 1000000000 0 1 1000000001).interval
      { pc := .sleep, count := k } = 0) := by
  refine ⟨by decide, by decide, ?_, by decide, ?_⟩
  · intro k hk
    rw [Limiter.next_eq 0 3333 _ (by simp) (by decide) (by simp; omega)]
    simp [second]
    omega
  · intro k
    have h0 : (Task.new 1000000000 0 1 1000000001).interval = 0 := by decide
    rw [h0]
    simp [Limiter.next, wrap64]

/-- C13, amended: for every rate `0 < R <= 10^9` and every duration of `D >= 0` whole seconds,
the targets `begin + k * interval` that fall before `begin + D` are exactly those with
`k < R * D + e`, where `e` is `D * (10^9 mod R) / interval` rounded up: their number is
`R * D + e`, which is at least `R * D`, is `R * D` when `R` divides `10^9`, and differs from
`R * D` by at most 1 when `D * (10^9 mod R) <= interval`. -/
theorem pacing_targets_before (d n c R D : Int) (hR : 0 < R) (hR' : R ≤ 1000000000)
    (hD : 0 ≤ D) (begin : Int) (k : Nat)
    (hrange : (k : Int) * (Task.new d n c R).interval < 2 ^ 63) :
    (Limiter.next begin (Task.new d n c R).interval { pc := .sleep, count := k }
        < begin + D * second ↔
      (k : Int) < R * D + (D * (second % R) + (Task.new d n c R).interval - 1)
        / (Task.new d n c R).interval) ∧
    0 ≤ (D * (second % R) + (Task.new d n c R).interval - 1) / (Task.new d n c R).interval ∧
    (second % R = 0 →
      (D * (second % R) + (Task.new d n c R).interval - 1) / (Task.new d n c R).interval = 0) ∧
    (D * (second % R) ≤ (Task.new d n c R).interval →
      (D * (second % R) + (Task.new d n c R).interval - 1) / (Task.new d n c R).interval
        ≤ 1) := by
  have hIeq := Task.interval_eq (Task.new d n c R) hR
  have hRate : (Task.new d n c R).Rate = R := rfl
  rw [hRate] at hIeq
  generalize (Task.new d n c R).interval = I at *
  have hIpos : 0 < I := by
    rw [hIeq]
    have := Int.ediv_le_ediv (a := R) (b := second) (c := R) hR hR'
    rw [Int.ediv_self (by omega)] at this
    omega
  have hsplit : R * I + second % R = second := by
    rw [hIeq]
    exact Int.ediv_add_emod second R
  have hrem0 : 0 ≤ second % R := Int.emod_nonneg _ (by omega)
  have ha : 0 ≤ D * (second % R) := Int.mul_nonneg hD hrem0
  generalize hq : (D * (second % R) + I - 1) / I = q
  have hdiv := Int.ediv_add_emod (D * (second % R) + I - 1) I
  have hr0 := Int.emod_nonneg (D * (second % R) + I - 1) (by omega : I ≠ 0)
  have hr1 := Int.emod_lt_of_pos (D * (second % R) + I - 1) hIpos
  rw [hq] at hdiv
  have hq0 : 0 ≤ q := by
    rw [← hq]
    exact Int.ediv_nonneg (by omega) (by omega)
  refine ⟨?_, hq0, ?_, ?_⟩
  · rw [Limiter.next_eq begin I _ (by simp) (by omega) hrange]
    simp only
    have hDS : D * second = D * R * I + D * (second % R) := by
      linear_combination (-D) * hsplit
    rw [hDS]
    constructor
    · intro hlt
      by_contra hge
      have h1 : 0 ≤ ((k : Int) - (R * D + q)) * I := Int.mul_nonneg (by omega) (by omega)
      nlinarith
    · intro hlt
      have h1 : 0 ≤ (R * D + q - 1 - (k : Int)) * I := Int.mul_nonneg (by omega) (by omega)
      nlinarith
  · intro h0
    rw [h0] at hq
    simp at hq
    rw [← hq]
    exact Int.ediv_eq_zero_of_lt (by omega) (by omega)
  · intro hle
    by_contra hgt
    have h2 : 2 ≤ q := by omega
    have h1 : 0 ≤ (q - 2) * I := Int.mul_nonneg (by omega) (by omega)
    nlinarith

/-- Witness of C13, amended: `rate = 10`, one second, ten targets. -/
theorem pacing_targets_before_witness :
    (Limiter.next 0 (Task.new 1000000000 0 1 10).interval { pc := .sleep, count := (9 : Nat) }
        < 0 + 1 * second ↔
      ((9 : Nat) : Int) < 10 * 1 + (1 * (second % 10) + (Task.new 1000000000 0 1 10).interval - 1)
        / (Task.new 1000000000 0 1 10).interval) :=
  (pacing_targets_before 1000000000 0 1 10 1 (by decide) (by decide) (by decide) 0 9
    (by decide)).1

end Bench

namespace Gout

/-! ## Theorems: requests and paths -/

theorem HasPrefix_iff (s p : Str) : HasPrefix s p = true ↔ p <+: s := by
  unfold HasPrefix
  exact List.isPrefixOf_iff_prefix

theorem HasPrefix_append (p u : Str) : HasPrefix (p ++ u) p = true :=
  (HasPrefix_iff _ _).mpr (List.prefix_append p u)

theorem HasPrefix_localhost (u : Str) : HasPrefix (localhost ++ u) httpProto = true :=
  (HasPrefix_iff _ _).mpr ⟨['1', '2', '7', '.', '0', '.', '0', '.', '1'] ++ u, by
    simp [httpProto, localhost]⟩

/-- C19: for every string `u`, `modifyURL u` begins with `http://` or `https://` and ends with
`u`; it is `u` itself exactly when `u` already begins with one of the two; and `modifyURL` is
idempotent. -/
theorem modifyURL_scheme (u : Str) :
    (HasPrefix (modifyURL u) httpProto = true ∨ HasPrefix (modifyURL u) httpsProto = true) ∧
    u <:+ modifyURL u ∧
    (modifyURL u = u ↔ (HasPrefix u httpProto = true ∨ HasPrefix u httpsProto = true)) ∧
    modifyURL (modifyURL u) = modifyURL u := by
  by_cases h : HasPrefix u httpsProto = true ∨ HasPrefix u httpProto = true
  · have hm : modifyURL u = u := by
      unfold modifyURL
      rcases h with h | h <;> simp [h]
    rw [hm]
    refine ⟨h.symm, List.suffix_refl u, ?_, hm⟩
    simp [h.symm]
  · have h1 : HasPrefix u httpsProto = false := by
      cases hb : HasPrefix u httpsProto
      · rfl
      · exact absurd (Or.inl hb) h
    have h2 : HasPrefix u httpProto = false := by
      cases hb : HasPrefix u httpProto
      · rfl
      · exact absurd (Or.inr hb) h
    have hm : modifyURL u = localhost ++ u ∨ modifyURL u = httpProto ++ u := by
      unfold modifyURL
      simp only [h1, h2, Bool.or_false, Bool.false_eq_true, if_false]
      split
      · exact Or.inl rfl
      · split
        · exact Or.inl rfl
        · exact Or.inr rfl
    have hpre : HasPrefix (modifyURL u) httpProto = true := by
      rcases hm with hm | hm <;> rw [hm]
      · exact HasPrefix_localhost u
      · exact HasPrefix_append httpProto u
    refine ⟨Or.inl hpre, ?_, ?_, ?_⟩
    · rcases hm with hm | hm <;> rw [hm]
      · exact List.suffix_append _ _
      · exact List.suffix_append _ _
    · constructor
      · intro he
        exfalso
        have hl := congrArg List.length he
        rcases hm with hm | hm <;> rw [hm] at hl <;> simp [localhost, httpProto] at hl <;> omega
      · intro hh
        exact absurd (hh.symm) h
    · have : modifyURL (modifyURL u) = modifyURL u := by
        generalize modifyURL u = v at hpre
        unfold modifyURL
        simp [hpre]
      exact this

theorem lastChar_ok (str : Str) (h : str ≠ []) : ∃ ch, lastChar str = .ok ch ∧
    str.getLast? = some ch := by
  unfold lastChar
  cases hl : str.getLast? with
  | none => exact absurd (List.getLast?_eq_none_iff.mp hl) h
  | some ch => exact ⟨ch, rfl, rfl⟩

theorem join_ne_nil (clean : Str → Str) (hclean : ∀ s, clean s ≠ []) (elem : List Str) :
    join clean elem ≠ [] := by
  unfold join
  simp only
  split
  · simp [httpProto]
  · split
    · simp [httpsProto]
    · exact hclean _

/-- C20: `path.Clean` never returning the empty string, `joinPaths` never reaches the panic of
`lastChar`: it returns a string for every pair of paths; for a non-empty `relativePath` whose
last character is `/` the last character of that string is `/`; for an empty `relativePath`
it returns `absolutePath` unchanged. -/
theorem joinPaths_trailing_slash (clean : Str → Str) (hclean : ∀ s, clean s ≠ [])
    (absolutePath relativePath : Str) :
    (∃ out, joinPaths clean absolutePath relativePath = .ok out) ∧
    (relativePath ≠ [] → relativePath.getLast? = some '/' →
      ∃ out, joinPaths clean absolutePath relativePath = .ok out ∧ out.getLast? = some '/') ∧
    (relativePath = [] → joinPaths clean absolutePath relativePath = .ok absolutePath) := by
  have hfin := join_ne_nil clean hclean [absolutePath, relativePath]
  obtain ⟨b, hb, hb'⟩ := lastChar_ok _ hfin
  by_cases hr : relativePath = []
  · subst hr
    simp [joinPaths]
  · obtain ⟨a, ha, ha'⟩ := lastChar_ok _ hr
    have key : ∃ out, joinPaths clean absolutePath relativePath = .ok out ∧
        (a = '/' → out.getLast? = some '/') := by
      unfold joinPaths
      simp only [hr, if_false, ha, hb]
      by_cases h1 : a = '/'
      · by_cases h2 : b = '/'
        · refine ⟨_, by simp [h1, h2]; rfl, ?_⟩
          intro _
          rw [hb', h2]
        · refine ⟨_, by simp [h1, h2]; rfl, ?_⟩
          intro _
          simp
      · exact ⟨_, by simp [h1]; rfl, fun e => absurd e h1⟩
    obtain ⟨out, hout, hlast⟩ := key
    refine ⟨⟨out, hout⟩, ?_, fun e => absurd e hr⟩
    intro _ hlastr
    refine ⟨out, hout, hlast ?_⟩
    rw [ha'] at hlastr
    exact (Option.some.inj hlastr)

theorem pathClean_ne_nil (path : Str) : pathClean path ≠ [] := by
  have key : ∀ out : Str, (if out = [] then ['.'] else out) ≠ [] := by
    intro out
    by_cases h : out = []
    · simp [h]
    · simp [h]
  exact key _

/-- Witness of C20: `/api` joined with `v1/`. -/
theorem joinPaths_trailing_slash_witness :
    ∃ out, joinPaths pathClean ['/', 'a', 'p', 'i'] ['v', '1', '/'] = .ok out ∧
      out.getLast? = some '/' :=
  (joinPaths_trailing_slash pathClean pathClean_ne_nil ['/', 'a', 'p', 'i'] ['v', '1', '/']).2.1
    (by decide) (by decide)

theorem Value.deref_ptrTo (n : Nat) (v : Value) : (Value.ptrTo n v).deref = v.deref := by
  induction n with
  | zero => rfl
  | succ k ih =>
    show (Value.ptr (Value.ptrTo k v)).deref = v.deref
    rw [Value.deref, ih]

theorem isString_of_deref (x y : Value) (h : x.deref = y.deref) : isString x = isString y := by
  unfold isString
  rw [h]

/-- What `isString` and the query part of `request` do on strings and on values that are not
of kind `String`: for every string `s`, `isString` of `s`, of `&s` and of a pointer of any
depth `n` to `s` is `s` without one leading `?`, and `true`; for every value `x` whose kind,
pointers followed, is not `String`, it is the empty string and `false`. `request` appends `?`
and the query to the URL only when the query is not empty, and a string query and a pointer to
it give the same request. -/
theorem isString_pointer_same (s : Str) (n : Nat) (x : Value)
    (hx : x.deref.kind ≠ Kind.String) :
    isString (.str s) = .ok (if HasPrefix s ['?'] then s.drop 1 else s, true) ∧
    isString (.ptr (.str s)) = isString (.str s) ∧
    isString (Value.ptrTo n (.str s)) = isString (.str s) ∧
    isString x = .ok ([], false) ∧
    (∀ (r : Req) (q : Str), (r.addQuery q).url = if q = [] then r.url else r.url ++ ['?'] ++ q) ∧
    (∀ (encode : Value → Except String Str) (r : Req),
      r.queryEncode = some (Value.ptrTo n (.str s)) →
      r.requestQuery encode = .ok (r.addQuery (if HasPrefix s ['?'] then s.drop 1 else s))) ∧
    (∀ (encode : Value → Except String Str) (r : Req), r.queryEncode = some x →
      r.requestQuery encode = ((encode x).mapError Failure.err).map r.addQuery) ∧
    (∀ (encode : Value → Except String Str) (r : Req), r.queryEncode = none →
      r.requestQuery encode = .ok r) := by
  have h1 : isString (.str s) = .ok (if HasPrefix s ['?'] then s.drop 1 else s, true) := rfl
  have h3 : isString (Value.ptrTo n (.str s)) = isString (.str s) :=
    isString_of_deref _ _ (Value.deref_ptrTo n _)
  have h4 : isString x = .ok ([], false) := by
    unfold isString
    cases hd : x.deref with
    | str a => rw [hd] at hx; exact absurd rfl hx
    | named a => rw [hd] at hx; exact absurd rfl hx
    | nilPtr => rfl
    | ptr v => rfl
    | other => rfl
  refine ⟨h1, rfl, h3, h4, ?_, ?_, ?_, ?_⟩
  · intro r q
    unfold Req.addQuery
    cases q with
    | nil => simp
    | cons a q => simp
  · intro encode r hr
    unfold Req.requestQuery
    rw [hr]
    simp only [h3, h1]
  · intro encode r hr
    unfold Req.requestQuery
    rw [hr]
    simp only [h4]
    cases encode x <;> rfl
  · intro encode r hr
    unfold Req.requestQuery
    rw [hr]

/-- A value of a defined type whose underlying type is `string` has kind `String` and is not
a `string`: the assertion of req.go:79 panics, directly and through pointers. -/
theorem isString_defined_type (s : Str) (n : Nat) :
    isString (Value.ptrTo n (.named s)) =
      .error "interface conversion: interface {} is not string" := by
  rw [isString_of_deref _ _ (Value.deref_ptrTo n _)]
  rfl

/-- C17: the query `Q("a=1")` of a defined type `type Q string` is a value of kind `String`, so
`isString` takes the branch of req.go:78; there the assertion `p.Interface().(string)` panics,
for the value itself and for a pointer to it, and the query part of `request` dies of that
panic, whatever the encoder, where a pair is to be returned for every value. -/
theorem isString_panics_on_defined_string :
    (Value.named ['a', '=', '1']).deref.kind = Kind.String ∧
    isString (.named ['a', '=', '1']) =
      .error "interface conversion: interface {} is not string" ∧
    isString (.ptr (.named ['a', '=', '1'])) =
      .error "interface conversion: interface {} is not string" ∧
    (∀ encode : Value → Except String Str,
      Req.requestQuery encode { Req.zero [] with queryEncode := some (.named ['a', '=', '1']) } =
        .error (.panic "interface conversion: interface {} is not string")) :=
  ⟨rfl, rfl, rfl, fun _ => rfl⟩

end Gout
